import Mathlib

/-!
# libmonit: Command, Process, OutputStream, Net and the string helpers they use

A shallow embedding of `src/libmonit/src/system/Command.c`, of the functions
of `src/libmonit/src/util/Str.c` it calls and of `Str_endsWith`, `Str_toalnum`,
`Str_isalnum` and `Str_ntos`, of `src/libmonit/src/io/OutputStream.c` and of
the read and write functions of `src/libmonit/src/system/Net.c`.

Conventions of the embedding

* A C string is given by its content, the bytes before the terminating NUL
  (`CStr`); a possibly-NULL `char *` is an `Option CStr`.
* Functions that write through a `char *` (`Str_rtrim`, `Str_ltrim`,
  `Str_trim`, the parser of `Command_setEnvString`) work on a memory object
  (`Mem`, the bytes of one allocation) and an offset into it.  A read or write
  outside the object has no defined result: the function returns `none`.
* Functions that raise an exception return the state after the call together
  with `Except Exception Unit`.
* `Command_execute` returns a `Run`: the steps of the calling process and of
  the subprocess in order, the outcome, and the Command and the Process when
  the call ends.  The answers of the operating system and what the handlers do
  are the fields of an `OS`.  A handler is the caller's code: it acts on the
  Process through Process.h and may call the setters on the Command.
* The functions of Net.c and OutputStream.c that make system calls take a
  script, the outcomes of the system calls in the order they are made, and the
  value of `errno`; they return a `Ret`: the value, `errno`, the calls made and
  the rest of the script.  A call that fails sets `errno`, a call that succeeds
  leaves it as it is.  The result is `none` when the script ends inside a loop
  that repeats an interrupted call.  `size_t` has `w` bits, `int` has 32.
* `Str_toalnum` works on the bytes of the object from `s` on (its indices
  never go below 0); its loops carry a bound on their steps, which no run on a
  terminated string reaches.  `long` and `unsigned long` have 64 bits.
-/

namespace Monit

/-! ## C strings and memory objects -/

/-- The content of a C string: its bytes up to, not including, the NUL. -/
abbrev CStr := List Char

/-- The bytes of one allocated object. -/
abbrev Mem := List Char

/-- The string terminator. -/
def NUL : Char := Char.ofNat 0

/-- The function `isspace` of ctype.h in the C locale:
space, `\t`, `\n`, `\v`, `\f`, `\r`. -/
def isspace (c : Char) : Bool :=
  c == ' ' || c == '\t' || c == '\n' || c == Char.ofNat 11 || c == Char.ofNat 12 || c == '\r'

/-- The C string that starts at the head of `bytes`: `none` when the bytes end
before a NUL is met (the scan would leave the object). -/
def cstrOf : List Char → Option CStr
  | [] => none
  | c :: cs => if c = NUL then some [] else (cstrOf cs).map (fun s => c :: s)

/-- The C string at offset `p` of the object `m`. -/
def cstrAt (m : Mem) (p : Nat) : Option CStr := cstrOf (m.drop p)

/-- The function `strchr(s, c)` on the content of a string, for `c` other than
NUL: the index of the first `c`, if there is one. -/
def strchr : CStr → Char → Option Nat
  | [], _ => none
  | x :: xs, c => if x = c then some 0 else (strchr xs c).map (fun i => i + 1)

/-- The function `strchr(m + p, c)` inside a memory object: the outer `Option`
is `none` when the string is not terminated inside the object, the inner one is
the offset (in the object) of the first `c`. -/
def strchrAt (m : Mem) (p : Nat) (c : Char) : Option (Option Nat) :=
  (cstrAt m p).map (fun s => (strchr s c).map (fun i => p + i))

/-! ## Str.c -/

/-- The loop and the final test of `Str_startsWith` (Str.c:259-261).  `moved`
is the test `a != s`: the loop body ran at least once. -/
def Str_startsWith.loop : CStr → CStr → Bool → Bool
  | x :: a, y :: b, _ => if x ≠ y then false else Str_startsWith.loop a b true
  | a, b, moved => (a.headD NUL == b.headD NUL) || (moved && b.headD NUL == NUL)

/-- The function `Str_startsWith(a, b)` (Str.c:256-264). -/
def Str_startsWith (a b : Option CStr) : Bool :=
  match a, b with
  | some a, some b => Str_startsWith.loop a b false
  | _, _ => false

/-- The second loop of `Str_rtrim` (Str.c:115),
`for (j = j - 1; isspace(s[j]); j--) s[j] = 0;`.  The argument is the offset
of `s[j]` in the object plus one, so that `0` stands for the byte before the
object: reading it is outside the object. -/
def Str_rtrim.loop (m : Mem) : Nat → Option Mem
  | 0 => none
  | k + 1 =>
    match m.get? k with
    | none => none
    | some c => if isspace c then Str_rtrim.loop (m.set k NUL) k else some m

/-- The function `Str_rtrim(s)` for a non-null `s = m + p` (Str.c:111-118):
the memory afterwards; the returned pointer is `s` itself. -/
def Str_rtrim (m : Mem) (p : Nat) : Option Mem :=
  match m.get? p with
  | none => none
  | some c =>
    if c = NUL then some m
    else
      match cstrAt m p with
      | none => none
      | some str => Str_rtrim.loop m (p + str.length)

/-- The function `Str_ltrim(s)` for a non-null `s = m + p` (Str.c:99-108):
`j` is the length of the string, `i` the number of leading white-space bytes,
`memmove(s, s + i, j - i)` and `s[j-i] = 0`. -/
def Str_ltrim (m : Mem) (p : Nat) : Option Mem :=
  match m.get? p with
  | none => none
  | some c =>
    if isspace c then
      match cstrAt m p with
      | none => none
      | some str =>
        let j := str.length
        let i := (str.takeWhile isspace).length
        some (m.take p ++ (str.drop i ++ NUL :: m.drop (p + (j - i) + 1)))
    else some m

/-- The function `Str_trim(s)` (Str.c:94-96): `Str_ltrim(Str_rtrim(s))`. -/
def Str_trim (m : Mem) (p : Nat) : Option Mem :=
  (Str_rtrim m p).bind (fun m1 => Str_ltrim m1 p)

/-- The function `Str_endsWith(a, b)` (Str.c:267-277), the loop
`for (; (i && j); i--, j--) if (a[i] != b[j]) return false;` and the final
`return (i >= j);`.  `a[k]` is the NUL for `k` the length of `a`. -/
def Str_endsWith.loop (a b : CStr) : Nat → Nat → Bool
  | i + 1, j + 1 =>
    if a.getD (i + 1) NUL ≠ b.getD (j + 1) NUL then false else Str_endsWith.loop a b i j
  | i, j => decide (i ≥ j)

/-- The function `Str_endsWith(a, b)` (Str.c:267-277): `i` and `j` start as
the lengths of `a` and of `b`. -/
def Str_endsWith (a b : Option CStr) : Bool :=
  match a, b with
  | some a, some b => Str_endsWith.loop a b a.length b.length
  | _, _ => false

/-- The table `nonalnum` (Str.c:59-76), row by row. -/
def nonalnum : List Nat :=
  [0, 1, 1, 1, 1, 1, 1, 1, 1, 1, 1, 1, 1, 1, 1, 1,
   1, 1, 1, 1, 1, 1, 1, 1, 1, 1, 1, 1, 1, 1, 1, 1,
   1, 1, 1, 1, 1, 1, 1, 1, 1, 1, 1, 1, 1, 1, 1, 1,
   0, 0, 0, 0, 0, 0, 0, 0, 0, 0, 1, 1, 1, 1, 1, 1,
   1, 0, 0, 0, 0, 0, 0, 0, 0, 0, 0, 0, 0, 0, 0, 0,
   0, 0, 0, 0, 0, 0, 0, 0, 0, 0, 0, 1, 1, 1, 1, 1,
   1, 0, 0, 0, 0, 0, 0, 0, 0, 0, 0, 0, 0, 0, 0, 0,
   0, 0, 0, 0, 0, 0, 0, 0, 0, 0, 0, 1, 1, 1, 1, 1,
   1, 1, 1, 1, 1, 1, 1, 1, 1, 1, 1, 1, 1, 1, 1, 1,
   1, 1, 1, 1, 1, 1, 1, 1, 1, 1, 1, 1, 1, 1, 1, 1,
   1, 1, 1, 1, 1, 1, 1, 1, 1, 1, 1, 1, 1, 1, 1, 1,
   1, 1, 1, 1, 1, 1, 1, 1, 1, 1, 1, 1, 1, 1, 1, 1,
   1, 1, 1, 1, 1, 1, 1, 1, 1, 1, 1, 1, 1, 1, 1, 1,
   1, 1, 1, 1, 1, 1, 1, 1, 1, 1, 1, 1, 1, 1, 1, 1,
   1, 1, 1, 1, 1, 1, 1, 1, 1, 1, 1, 1, 1, 1, 1, 1,
   1, 1, 1, 1, 1, 1, 1, 1, 1, 1, 1, 1, 1, 1, 1, 1]

/-- The test `nonalnum[p[x]]` on a byte.  A `Char` above 255 is no byte; it
counts as not alphanumeric. -/
def isNonalnum (c : Char) : Bool := nonalnum.getD c.toNat 1 != 0

/-- The inner loop of `Str_toalnum` (Str.c:185-187),
`for (y = x; p[y + 1]; y++) p[y] = p[y + 1]; p[y] = 0;`, at most `fuel`
tests of `p[y + 1]`.  The bytes are those of the object from `s` on; a read
beyond them is outside the object. -/
def Str_toalnum.shift : Nat → Mem → Nat → Option Mem
  | 0, _, _ => none
  | fuel + 1, p, y =>
    match p.get? (y + 1) with
    | none => none
    | some c => if c ≠ NUL then Str_toalnum.shift fuel (p.set y c) (y + 1) else some (p.set y NUL)

/-- The loop `while (nonalnum[p[x]]) { ... }` of `Str_toalnum` (Str.c:184-188),
at most `fuel` tests. -/
def Str_toalnum.strip : Nat → Mem → Nat → Option Mem
  | 0, _, _ => none
  | fuel + 1, p, x =>
    match p.get? x with
    | none => none
    | some c =>
      if isNonalnum c then
        (Str_toalnum.shift (p.length + 1) p x).bind (fun q => Str_toalnum.strip fuel q x)
      else some p

/-- The loop `for (x = 0; p[x]; x++)` of `Str_toalnum` (Str.c:183-188), at
most `fuel` tests of `p[x]`. -/
def Str_toalnum.loop : Nat → Mem → Nat → Option Mem
  | 0, _, _ => none
  | fuel + 1, p, x =>
    match p.get? x with
    | none => none
    | some c =>
      if c ≠ NUL then
        (Str_toalnum.strip (p.length + 1) p x).bind (fun q => Str_toalnum.loop fuel q (x + 1))
      else some p

/-- The function `Str_toalnum(s)` for a non-null `s` (Str.c:179-191): the
bytes of the object from `s` on, afterwards; the returned pointer is `s`.
No loop of the function can make more tests than the object has bytes, plus
one. -/
def Str_toalnum (p : Mem) : Option Mem :=
  match p.get? 0 with
  | none => none
  | some c => if c ≠ NUL then Str_toalnum.loop (p.length + 1) p 0 else some p

/-- The loop of `Str_isalnum` (Str.c:198-201) on the content of the string. -/
def Str_isalnum.loop : CStr → Bool
  | [] => true
  | c :: cs => if isNonalnum c then false else Str_isalnum.loop cs

/-- The function `Str_isalnum(s)` (Str.c:194-204). -/
def Str_isalnum (s : Option CStr) : Bool :=
  match s with
  | some (c :: cs) => Str_isalnum.loop (c :: cs)
  | _ => false

/-- The constant `LONG_MIN` for a `long` of 64 bits. -/
def LONG_MIN : Int := -(2 ^ 63)

/-- The constant `LONG_MAX` for a `long` of 64 bits. -/
def LONG_MAX : Int := 2 ^ 63 - 1

/-- The loop `do *--t = m % 10 + '0'; while ((m /= 10) > 0);` of `Str_ntos`
(Str.c:170-172): the argument is `t` before the decrement, so that `0` stands
for a write before the buffer.  The result is the buffer and `t`. -/
def Str_ntos.loop : Nat → Nat → Mem → Option (Mem × Nat)
  | _, 0, _ => none
  | m, t + 1, s =>
    if t < s.length then
      if m / 10 > 0 then Str_ntos.loop (m / 10) t (s.set t (Char.ofNat (m % 10 + 48)))
      else some (s.set t (Char.ofNat (m % 10 + 48)), t)
    else none

/-- The function `Str_ntos(n, s)` (Str.c:159-176) for a `long` and an
`unsigned long` of 64 bits: the buffer afterwards and the offset in it of the
pointer returned. -/
def Str_ntos (n : Int) (s : Mem) : Option (Mem × Nat) :=
  if 42 < s.length then
    let m : Nat :=
      if n = LONG_MIN then (LONG_MAX + 1).toNat % 2 ^ 64
      else if n < 0 then (-n).toNat % 2 ^ 64
      else n.toNat % 2 ^ 64
    match Str_ntos.loop m 42 (s.set 42 NUL) with
    | none => none
    | some (s1, t) =>
      if n < 0 then
        match t with
        | 0 => none
        | t1 + 1 => some (s1.set t1 '-', t1)
      else some (s1, t)
  else none

/-! ## The list container -/

/-- Modelled from the spec: List.c and List.h are not among the sources.  The
spec gives an ordered list of strings with append, pop, length, remove(element)
and iteration in insertion order. -/
abbrev List_T := List CStr

/-- Modelled from the spec: `List_append` adds the element at the tail, so that
iteration is in insertion order. -/
def List_append (L : List_T) (e : CStr) : List_T := L ++ [e]

/-- Modelled from the spec: `List_length`. -/
def List_length (L : List_T) : Nat := L.length

/-- Modelled from the spec: `List_pop` removes one element (the head). -/
def List_pop (L : List_T) : List_T := L.tail

/-- Modelled from the spec: `List_remove(L, e)` removes the element `e`.  In C
the element is named by its pointer; every entry is a separate allocation, and
the only caller passes the first entry that satisfies a test on its content, so
removing the first entry equal to `e` removes the same node. -/
def List_remove (L : List_T) (e : CStr) : List_T := L.erase e

/-! ## The file helpers -/

/-- Modelled from the spec: File.c is not among the sources.  The state of the
file system as `Command` consults it: whether a path exists as a file, is a
directory, is accessible, and what `File_removeTrailingSeparator` leaves of a
path. -/
structure FileSystem where
  exist : CStr → Bool
  isDirectory : CStr → Bool
  isExecutable : CStr → Bool
  removeTrailingSeparator : CStr → CStr

/-- Modelled from the spec: `File_exist(path)`; a null path names no file. -/
def File_exist (fs : FileSystem) (path : Option CStr) : Bool :=
  match path with
  | none => false
  | some p => fs.exist p

/-! ## Command.c: the data -/

/-- The exceptions raised by `THROW` and `assert`. -/
inductive Exception where
  | AssertException
  deriving DecidableEq, Repr

/-- The struct `Command_T` (Command.c:77-89).  Pointers to handlers and to
their context are addresses, `none` for NULL. -/
structure Command_T where
  uid : Nat
  gid : Nat
  timeout : Int
  env : List_T
  args : List_T
  working_directory : Option CStr
  onExecAp : Option Nat
  onTimeoutAp : Option Nat
  onExec : Option Nat
  onTimeout : Option Nat
  deriving DecidableEq, Repr

/-- The constant `Command_Path` (Command.c:90). -/
def Command_Path : CStr := "PATH=/bin:/usr/bin:/usr/local/bin:/opt/csw/bin:/usr/sfw/bin".toList

/-! ## Command.c: private helpers -/

/-- The function `findEnv` (Command.c:179-184): the first entry of the
environment list for which `Str_startsWith(entry, name)` holds. -/
def findEnv (C : Command_T) (name : CStr) : Option CStr :=
  C.env.find? (fun e => Str_startsWith (some e) (some name))

/-- The function `removeEnv` (Command.c:188-194). -/
def removeEnv (C : Command_T) (name : CStr) : Command_T :=
  match findEnv C name with
  | some e => { C with env := List_remove C.env e }
  | none => C

/-- The function `freeStrings` (Command.c:198-203): pops until the list is
empty. -/
def freeStrings : List_T → List_T
  | [] => []
  | e :: l => freeStrings (List_pop (e :: l))

/-- The function `buildArgs` (Command.c:209-217); `xs` are the variadic
arguments read before the terminating NULL. -/
def buildArgs (C : Command_T) (path : CStr) (xs : List CStr) : Command_T :=
  let args0 := List_append (freeStrings C.args) path
  { C with args := xs.foldl List_append args0 }

/-- The function `getArray` (Command.c:221-228): the entries of the list
followed by NULL. -/
def getArray (L : List_T) : List (Option CStr) :=
  L.map some ++ [none]

/-! ## Command.c: the public setters and getters -/

/-- The function `Command_new` (Command.c:386-393); `NEW` zeroes the struct and
`Str_dup` copies the content of `Command_Path`. -/
def Command_new : Command_T :=
  { uid := 0, gid := 0, timeout := 0,
    env := List_append [] Command_Path,
    args := [],
    working_directory := none,
    onExecAp := none, onTimeoutAp := none, onExec := none, onTimeout := none }

/-- The function `Command_setUid` (Command.c:407-410). -/
def Command_setUid (C : Command_T) (uid : Nat) : Command_T := { C with uid := uid }

/-- The function `Command_getUid` (Command.c:413-416). -/
def Command_getUid (C : Command_T) : Nat := C.uid

/-- The function `Command_setGid` (Command.c:419-422). -/
def Command_setGid (C : Command_T) (gid : Nat) : Command_T := { C with gid := gid }

/-- The function `Command_getGid` (Command.c:425-428). -/
def Command_getGid (C : Command_T) : Nat := C.gid

/-- The function `Command_getTimeout` (Command.c:431-434). -/
def Command_getTimeout (C : Command_T) : Int := C.timeout

/-- The function `Command_setDir` (Command.c:437-448): the Command after the
call and whether an exception was raised. -/
def Command_setDir (fs : FileSystem) (C : Command_T) (dir : Option CStr) :
    Command_T × Except Exception Unit :=
  match dir with
  | some d =>
    if ! fs.isDirectory d then (C, .error .AssertException)
    else if ! fs.isExecutable d then (C, .error .AssertException)
    else ({ C with working_directory := some (fs.removeTrailingSeparator d) }, .ok ())
  | none => ({ C with working_directory := none }, .ok ())

/-- The function `Command_getDir` (Command.c:451-454). -/
def Command_getDir (C : Command_T) : Option CStr := C.working_directory

/-- The function `Command_setEnv` (Command.c:458-463), for a non-null `name`;
`Str_cat("%s=%s", name, value ? value : "")` is appended. -/
def Command_setEnv (C : Command_T) (name : CStr) (value : Option CStr) : Command_T :=
  let C1 := removeEnv C name
  { C1 with env := List_append C1.env (name ++ '=' :: value.getD []) }

/-- The loop of `Command_setEnvString` (Command.c:474-484) on the buffer `m`
returned by `Str_vcat`, with `n` an offset into it.  The first argument bounds
the number of iterations. -/
def Command_setEnvString.loop : Nat → Mem → Nat → Command_T → Option Command_T
  | 0, _, _, _ => none
  | fuel + 1, m, n, C =>
    match strchrAt m n '=' with
    | none => none
    | some none => some C
    | some (some v0) =>
      let m1 := m.set v0 NUL
      let v := v0 + 1
      match strchrAt m1 v ';' with
      | none => none
      | some t0 =>
        let m2 := match t0 with
          | some t => m1.set t NUL
          | none => m1
        (Str_trim m2 n).bind fun m3 =>
        (Str_trim m3 v).bind fun m4 =>
        (cstrAt m4 n).bind fun name =>
        (cstrAt m4 v).bind fun value =>
          let C1 := Command_setEnv C name (some value)
          match t0 with
          | some t => Command_setEnvString.loop fuel m4 (t + 1) C1
          | none => some C1

/-- The function `Command_setEnvString` (Command.c:466-487).  `vcat` is the
text `Str_vcat(env, ap)` makes of the format `env` with the variadic arguments
of the call; the buffer holds that text and its NUL.  Every iteration of the
loop moves `n` forward in the buffer, so the length of the buffer bounds the
number of iterations. -/
def Command_setEnvString (vcat : CStr → CStr) (C : Command_T) (env : Option CStr) :
    Option Command_T :=
  match env with
  | none => some C
  | some e =>
    if e = [] then some C
    else
      let m := vcat e ++ [NUL]
      Command_setEnvString.loop m.length m 0 C

/-- The function `Command_getEnv` (Command.c:491-501). -/
def Command_getEnv (C : Command_T) (name : CStr) : Option CStr :=
  match findEnv C name with
  | some e =>
    match strchr e '=' with
    | some i => some (e.drop (i + 1))
    | none => none
  | none => none

/-- The function `Command_setCommand` (Command.c:504-513): the Command after
the call and whether an exception was raised.  `xs` are the arguments `arg0`,
... before the terminating NULL.  A null `path` fails the test `File_exist`,
so `buildArgs` is reached with a non-null path only. -/
def Command_setCommand (fs : FileSystem) (C : Command_T) (path : Option CStr)
    (xs : List CStr) : Command_T × Except Exception Unit :=
  match path with
  | none => (C, .error .AssertException)
  | some p =>
    if ! File_exist fs (some p) then (C, .error .AssertException)
    else (buildArgs C p xs, .ok ())

/-- The function `Command_getCommand` (Command.c:516-519). -/
def Command_getCommand (C : Command_T) : List_T := C.args

/-! ## Command.c: Process and the spawn protocol -/

/-- The struct `Process_T` (Command.c:64-76).  The back pointer `parent` is the
Command passed along with the Process.  A pipe is the pair of its read end and
its write end; a stream wrapper is named by the descriptor it was created on,
`none` for NULL. -/
structure Process_T where
  pid : Int
  uid : Nat
  gid : Nat
  status : Int
  stdin_pipe : Int × Int
  stdout_pipe : Int × Int
  stderr_pipe : Int × Int
  in_ : Option Int
  err : Option Int
  out : Option Int
  deriving DecidableEq, Repr

/-- The function `Process_getUid` (Command.c:96-99). -/
def Process_getUid (P : Process_T) : Nat := P.uid

/-- The function `Process_getGid` (Command.c:102-105). -/
def Process_getGid (P : Process_T) : Nat := P.gid

/-- The function `Process_getTimeout` (Command.c:108-111), `P->parent->timeout`:
`parent` is the Command `P->parent` points to, as it is when the call is made. -/
def Process_getTimeout (parent : Command_T) (_P : Process_T) : Int := parent.timeout

/-- The function `Process_getDir` (Command.c:114-118),
`P->parent->working_directory`: `parent` is the Command `P->parent` points to,
as it is when the call is made. -/
def Process_getDir (parent : Command_T) (_P : Process_T) : Option CStr :=
  parent.working_directory

/-- The function `Process_getPid` (Command.c:121-124). -/
def Process_getPid (P : Process_T) : Int := P.pid

/-- The function `Process_getOutStream` (Command.c:138-143). -/
def Process_getOutStream (P : Process_T) : Process_T × Option Int :=
  match P.out with
  | none => ({ P with out := some P.stdin_pipe.2 }, some P.stdin_pipe.2)
  | some s => (P, some s)

/-- The function `Process_getInputStream` (Command.c:146-151). -/
def Process_getInputStream (P : Process_T) : Process_T × Option Int :=
  match P.in_ with
  | none => ({ P with in_ := some P.stdout_pipe.1 }, some P.stdout_pipe.1)
  | some s => (P, some s)

/-- The function `Process_getErrorStream` (Command.c:154-159). -/
def Process_getErrorStream (P : Process_T) : Process_T × Option Int :=
  match P.err with
  | none => ({ P with err := some P.stderr_pipe.1 }, some P.stderr_pipe.1)
  | some s => (P, some s)

/-- The calls of Process.h that change the Process they are given.  The struct
is opaque outside Command.c, so a handler changes its Process through these
calls only. -/
inductive ProcessCall where
  | getOutStream
  | getInputStream
  | getErrorStream
  deriving DecidableEq, Repr

/-- The Process after one call of a handler on it. -/
def ProcessCall.run (P : Process_T) : ProcessCall → Process_T
  | .getOutStream => (Process_getOutStream P).1
  | .getInputStream => (Process_getInputStream P).1
  | .getErrorStream => (Process_getErrorStream P).1

/-- The answers of the operating system and of the registered handlers during
one call of `Execute`. -/
structure OS where
  /-- The `k`-th call of `pipe`: the two descriptors, `none` when it fails. -/
  pipe : Nat → Option (Int × Int)
  /-- What `vfork` returns in the parent. -/
  vfork : Int
  /-- Whether `Dir_chdir(dir)` succeeds. -/
  chdir : CStr → Bool
  /-- Whether `setuid(uid)` succeeds. -/
  setuid : Nat → Bool
  /-- Whether `setgid(gid)` succeeds. -/
  setgid : Nat → Bool
  getuid : Nat
  getgid : Nat
  /-- The value `dup2(oldfd, newfd)` returns. -/
  dup2 : Int → Int → Int
  /-- The value `open("/dev/null", O_RDWR)` returns when descriptor `i` was just closed. -/
  openNull : Int → Int
  getdtablesize : Nat
  /-- Whether `execve` replaces the process image (then it does not return). -/
  execve : Bool
  /-- The value of `errno` after a failed call. -/
  errno : Int
  /-- The `k`-th call of `waitpid(pid, &status, WNOHANG)`: its result and the status. -/
  waitpid : Nat → Int × Int
  /-- What the handler at address `fn` does when it is called with context `ap`,
  the Process and the Command as it then is: the calls it makes on the Process,
  and the Command as it leaves it (a handler can reach the Command through its
  context and call the setters). -/
  handler : Nat → Option Nat → Process_T → Command_T → List ProcessCall × Command_T

/-- One step of the spawn protocol. -/
inductive Event where
  | pipe (k : Nat) (ok : Bool)
  | vfork (pid : Int)
  | chdir (dir : CStr) (ok : Bool)
  | setuid (uid : Nat) (ok : Bool)
  | setgid (gid : Nat) (ok : Bool)
  | setsid
  | close (fd : Int)
  | dup2 (oldfd newfd : Int) (res : Int)
  | openNull (res : Int)
  | sigmask
  | signal (name : String) (ignore : Bool)
  | execve (path : Option CStr) (args env : List (Option CStr))
  | error
  | exit (code : Int)
  | setNonBlocking (fd : Int)
  | onExec (fn : Nat) (ap : Option Nat)
  | waitpid (r : Int)
  | sleep (seconds : Nat)
  | onTimeout (fn : Nat) (ap : Option Nat)
  | freeStream (fd : Int)
  deriving DecidableEq, Repr

/-- What a call of `Command_execute` did: the steps of the calling process in
order (`parent`), the steps of the subprocess in order (`child`; with vfork
they all happen between the `vfork` step of the parent and its next step),
whether the call returned or raised, the Command when the call ends
(`command`), the Process as it is when vfork has returned in the parent
(`spawned`, none when no subprocess was created) and the Process struct when
the call ends (`process`). -/
structure Run where
  parent : List Event
  child : List Event
  outcome : Except Exception Unit
  command : Command_T
  spawned : Option Process_T
  process : Process_T

/-- The function `createPipes` (Command.c:232-238): the three `pipe` calls of
the short-circuit condition, stopping at the first that fails. -/
def createPipes (os : OS) (P : Process_T) : Process_T × List Event × Except Exception Unit :=
  match os.pipe 0 with
  | none => (P, [.pipe 0 false], .error .AssertException)
  | some p0 =>
    match os.pipe 1 with
    | none => ({ P with stdin_pipe := p0 }, [.pipe 0 true, .pipe 1 false], .error .AssertException)
    | some p1 =>
      match os.pipe 2 with
      | none => ({ P with stdin_pipe := p0, stdout_pipe := p1 },
                 [.pipe 0 true, .pipe 1 true, .pipe 2 false], .error .AssertException)
      | some p2 => ({ P with stdin_pipe := p0, stdout_pipe := p1, stderr_pipe := p2 },
                    [.pipe 0 true, .pipe 1 true, .pipe 2 true], .ok ())

/-- One of the three blocks of `setupChildPipes` (Command.c:243-260): close
the parent's end `other`, and unless `mine` is already descriptor `std`, dup2
it there (an `ERROR` when dup2 does not return `std`) and close it. -/
def setupChildPipe (os : OS) (other mine std : Int) : List Event :=
  [.close other] ++
    (if mine ≠ std then
      [.dup2 mine std (os.dup2 mine std)] ++
        (if os.dup2 mine std ≠ std then [.error] else []) ++ [.close mine]
     else [])

/-- The function `setupChildPipes` (Command.c:242-261). -/
def setupChildPipes (os : OS) (P : Process_T) : List Event :=
  setupChildPipe os P.stdin_pipe.2 P.stdin_pipe.1 0 ++
  setupChildPipe os P.stdout_pipe.1 P.stdout_pipe.2 1 ++
  setupChildPipe os P.stderr_pipe.1 P.stderr_pipe.2 2

/-- The function `setupParentPipes` (Command.c:265-272). -/
def setupParentPipes (P : Process_T) : List Event :=
  [.close P.stdin_pipe.1, .setNonBlocking P.stdin_pipe.2,
   .close P.stdout_pipe.2, .setNonBlocking P.stdout_pipe.1,
   .close P.stderr_pipe.2, .setNonBlocking P.stderr_pipe.1]

/-- The function `closeParentPipes` (Command.c:276-280). -/
def closeParentPipes (P : Process_T) : List Event :=
  [.close P.stdin_pipe.2, .close P.stdout_pipe.1, .close P.stderr_pipe.1]

/-- The function `closeStreams` (Command.c:284-288). -/
def closeStreams (P : Process_T) : Process_T × List Event :=
  ({ P with in_ := none, err := none, out := none },
   (match P.in_ with | some s => [.freeStream s] | none => []) ++
   (match P.err with | some s => [.freeStream s] | none => []) ++
   (match P.out with | some s => [.freeStream s] | none => []))

/-- The loop that opens the null device on descriptors `i`, ..., 2 when there
are no handlers (Command.c:324-330); `n` is the number of descriptors left.
The flag tells whether the child goes on (`false`: it has called `_exit`). -/
def Execute.openNull (os : OS) : Nat → Int → List Event × Bool
  | 0, _ => ([], true)
  | n + 1, i =>
    if os.openNull i ≠ i then ([.close i, .openNull (os.openNull i), .error, .exit os.errno], false)
    else
      let r := Execute.openNull os n (i + 1)
      (.close i :: .openNull (os.openNull i) :: r.1, r.2)

/-- The end of the child branch of `Execute` (Command.c:332-354): close the
descriptors from 3 on, reset the signals, build the arrays and call execve. -/
def Execute.exec (os : OS) (C : Command_T) : List Event :=
  ((List.range (os.getdtablesize - 3)).map (fun i => Event.close ((i : Int) + 3))) ++
  [.sigmask, .signal "SIGINT" false, .signal "SIGQUIT" false, .signal "SIGABRT" false,
   .signal "SIGTERM" false, .signal "SIGPIPE" false, .signal "SIGCHLD" true,
   .signal "SIGHUP" true,
   .execve ((getArray C.args).headD none) (getArray C.args) (getArray C.env)] ++
  (if os.execve then [] else [.error, .exit os.errno])

/-- The child branch of `Execute` (Command.c:305-355).  With vfork the child
runs in the address space of the parent, so the uid and gid it stores in `P`
are those the parent sees afterwards. -/
def Execute.child (os : OS) (C : Command_T) (haveHandlers : Bool) (P : Process_T) :
    Process_T × List Event :=
  let cd : List Event × Bool :=
    match C.working_directory with
    | some d => if os.chdir d then ([.chdir d true], true)
                else ([.chdir d false, .error, .exit os.errno], false)
    | none => ([], true)
  if ! cd.2 then (P, cd.1)
  else
    let uidStep : List Event × Nat :=
      if C.uid ≠ 0 then
        ([.setuid C.uid (os.setuid C.uid)], if os.setuid C.uid then C.uid else os.getuid)
      else ([], os.getuid)
    let gidStep : List Event × Nat :=
      if C.gid ≠ 0 then
        ([.setgid C.gid (os.setgid C.gid)], if os.setgid C.gid then C.gid else os.getgid)
      else ([], os.getgid)
    let P1 := { P with uid := uidStep.2, gid := gidStep.2 }
    let pre := cd.1 ++ uidStep.1 ++ gidStep.1 ++ [.setsid]
    if haveHandlers then
      (P1, pre ++ setupChildPipes os P1 ++ Execute.exec os C)
    else
      let nul := Execute.openNull os 3 0
      if nul.2 then (P1, pre ++ nul.1 ++ Execute.exec os C)
      else (P1, pre ++ nul.1)

/-- The wait loop of `Execute` (Command.c:364-370) with `timeout` seconds left,
the next poll being the `k`-th: the steps, the last result `r` and status. -/
def Execute.wait (os : OS) : Nat → Nat → List Event × Int × Int
  | 0, k => ([.waitpid (os.waitpid k).1], os.waitpid k)
  | timeout + 1, k =>
    if (os.waitpid k).1 = 0 then
      let rest := Execute.wait os timeout (k + 1)
      (.waitpid 0 :: .sleep 1 :: rest.1, rest.2)
    else ([.waitpid (os.waitpid k).1], os.waitpid k)

/-- One handler call (Command.c:360, 372): the Process after the calls the
handler made on it, and the Command as the handler left it. -/
def callHandler (os : OS) (fn : Nat) (ap : Option Nat) (P : Process_T) (C : Command_T) :
    Process_T × Command_T :=
  (((os.handler fn ap P C).1).foldl ProcessCall.run P, (os.handler fn ap P C).2)

/-- The handler calls of the parent branch of `Execute` and the wait loop
between them (Command.c:359-373).  `C->onTimeout`, `C->timeout` and
`C->onTimeoutAp` are read after the onExec handler has returned, from the
Command as that handler left it. -/
def Execute.handlers (os : OS) (C : Command_T) (P : Process_T) :
    Process_T × Command_T × List Event :=
  let s2 : Process_T × Command_T × List Event :=
    match C.onExec with
    | some fn => ((callHandler os fn C.onExecAp P C).1, (callHandler os fn C.onExecAp P C).2,
                  [.onExec fn C.onExecAp])
    | none => (P, C, [])
  let C2 : Command_T := s2.2.1
  let s3 : Process_T × Command_T × List Event :=
    match C2.onTimeout with
    | some fn =>
      let w := Execute.wait os C2.timeout.toNat 0
      let Pw := { s2.1 with status := w.2.2 }
      if w.2.1 = 0 then
        ((callHandler os fn C2.onTimeoutAp Pw C2).1, (callHandler os fn C2.onTimeoutAp Pw C2).2,
         w.1 ++ [.onTimeout fn C2.onTimeoutAp])
      else (Pw, C2, w.1)
    | none => (s2.1, C2, [])
  (s3.1, s3.2.1, s2.2.2 ++ s3.2.2)

/-- The parent branch of `Execute` after vfork has returned (Command.c:357-379). -/
def Execute.parent (os : OS) (C : Command_T) (haveHandlers : Bool) (P : Process_T) :
    Process_T × Command_T × List Event :=
  let s1 : List Event := if haveHandlers then setupParentPipes P else []
  let h := Execute.handlers os C P
  let s4 : Process_T × List Event :=
    if haveHandlers then
      let c := closeStreams h.1
      (c.1, closeParentPipes h.1 ++ c.2)
    else (h.1, [])
  (s4.1, h.2.1, s1 ++ h.2.2 ++ s4.2)

/-- The Process struct of `Execute` before any step (Command.c:299): all zero. -/
def Process_zero : Process_T :=
  { pid := 0, uid := 0, gid := 0, status := 0, stdin_pipe := (0, 0), stdout_pipe := (0, 0),
    stderr_pipe := (0, 0), in_ := none, err := none, out := none }

/-- The function `Execute` (Command.c:295-380). -/
def Execute (os : OS) (C : Command_T) : Run :=
  let haveHandlers : Bool := C.onExec.isSome || C.onTimeout.isSome
  let P : Process_T := Process_zero
  let pipes : Process_T × List Event × Except Exception Unit :=
    if haveHandlers then createPipes os P else (P, [], .ok ())
  match pipes.2.2 with
  | .error e =>
    { parent := pipes.2.1, child := [], outcome := .error e, command := C, spawned := none,
      process := pipes.1 }
  | .ok _ =>
    if os.vfork < 0 then
      { parent := pipes.2.1 ++ [.vfork os.vfork], child := [], outcome := .error .AssertException,
        command := C, spawned := none, process := { pipes.1 with pid := os.vfork } }
    else
      let c := Execute.child os C haveHandlers { pipes.1 with pid := 0 }
      let p := Execute.parent os C haveHandlers { c.1 with pid := os.vfork }
      { parent := pipes.2.1 ++ [.vfork os.vfork] ++ p.2.2, child := c.2, outcome := .ok (),
        command := p.2.1, spawned := some { c.1 with pid := os.vfork }, process := p.1 }

/-- The function `Command_execute` (Command.c:522-527). -/
def Command_execute (os : OS) (C : Command_T) : Run :=
  if List_length C.args = 0 then
    { parent := [], child := [], outcome := .error .AssertException, command := C,
      spawned := none, process := Process_zero }
  else Execute os C

/-- The function `Command_setOnExec` (Command.c:533-538) for a non-null
handler; a null handler fails the assertion. -/
def Command_setOnExec (C : Command_T) (onExec : Option Nat) (ap : Option Nat) :
    Command_T × Except Exception Unit :=
  match onExec with
  | none => (C, .error .AssertException)
  | some fn => ({ C with onExecAp := ap, onExec := some fn }, .ok ())

/-- The function `Command_setOnTimeout` (Command.c:541-548). -/
def Command_setOnTimeout (C : Command_T) (timeout : Int) (onTimeout : Option Nat)
    (ap : Option Nat) : Command_T × Except Exception Unit :=
  if ¬ (timeout > 0) then (C, .error .AssertException)
  else
    match onTimeout with
    | none => (C, .error .AssertException)
    | some fn => ({ C with timeout := timeout, onTimeoutAp := ap, onTimeout := some fn }, .ok ())

/-! ## System calls, errno and Net.c -/

/-- The values of `errno`: 0, the ones the code tests by name, and the others. -/
inductive Errno where
  | zero
  | EINTR
  | EAGAIN
  | EWOULDBLOCK
  | ESRCH
  | EPERM
  | other (code : Nat)
  deriving DecidableEq, Repr

/-- The outcome of one system call: `ok n` is a return value `n >= 0`, which
leaves `errno` as it is; `fail e` is the return value -1 with `errno` set to
`e`. -/
inductive SysResult where
  | ok (n : Nat)
  | fail (e : Errno)
  deriving DecidableEq, Repr

/-- The `ssize_t` value of an outcome seen as a `size_t` of `w` bits, as
`return n` does in `Net_read` and `Net_write`: -1 becomes `2^w - 1`. -/
def SysResult.toSize (w : Nat) : SysResult → Nat
  | .ok n => n % 2 ^ w
  | .fail _ => 2 ^ w - 1

/-- The conversion `(size_t)i` of an `int`, for a `size_t` of `w` bits. -/
def size_t_of_int (w : Nat) (i : Int) : Nat := (i % (2 : Int) ^ w).toNat

/-- The conversion `(int)x` of a `size_t`, for a 32-bit two's complement `int`. -/
def int_of_size_t (x : Nat) : Int :=
  if x % 2 ^ 32 < 2 ^ 31 then ((x % 2 ^ 32 : Nat) : Int) else ((x % 2 ^ 32 : Nat) : Int) - 2 ^ 32

/-- The events `poll` is asked to wait for. -/
inductive PollEvents where
  | POLLIN
  | POLLOUT
  deriving DecidableEq, Repr

/-- One system call made by Net.c, with its arguments and its outcome.  The
buffer of a write is named by its position. -/
inductive NetEvent where
  | read (socket : Int) (size : Nat) (r : SysResult)
  | write (socket : Int) (buffer : Int) (size : Nat) (r : SysResult)
  | poll (socket : Int) (events : PollEvents) (timeout : Int) (r : SysResult)
  deriving DecidableEq, Repr

/-- What a function that makes system calls leaves: its return value, the
value of `errno`, the calls it made in order, and the outcomes of the script
it has not used. -/
structure Ret (α : Type) where
  value : α
  errno : Errno
  trace : List NetEvent
  rest : List SysResult

/-- The loop `do { n = call(...); } while (n == -1 && errno == EINTR);` of
Net.c (lines 88-90, 100-102, 110-112, 116-118, 128-130, 134-136).  The script
gives the outcomes of the system calls in the order they are made; the result
is `none` when the script ends before the loop does (every outcome it holds
is an interrupted call). -/
def Net.attempt (call : SysResult → NetEvent) : List SysResult → Errno → Option (Ret SysResult)
  | [], _ => none
  | .ok n :: rest, errno => some ⟨.ok n, errno, [call (.ok n)], rest⟩
  | .fail e :: rest, _ =>
    if e = .EINTR then
      (Net.attempt call rest .EINTR).map
        (fun r => ⟨r.value, r.errno, call (.fail e) :: r.trace, r.rest⟩)
    else some ⟨.fail e, e, [call (.fail e)], rest⟩

/-- The test `r > 0` on the value `poll` returned. -/
def SysResult.positive : SysResult → Bool
  | .ok n => decide (0 < n)
  | .fail _ => false

/-- The test `n == -1 && (errno == EAGAIN || errno == EWOULDBLOCK)` of
`Net_read` and `Net_write` (Net.c:113, 131). -/
def wouldBlock (n : SysResult) (errno : Errno) : Bool :=
  match n with
  | .ok _ => false
  | .fail _ => errno == .EAGAIN || errno == .EWOULDBLOCK

/-- The function `Net_canRead` (Net.c:83-92).  The timeout is recorded as it
is passed, before the conversion `(int)milliseconds`. -/
def Net_canRead (script : List SysResult) (errno : Errno) (socket : Int) (milliseconds : Int) :
    Option (Ret Bool) :=
  (Net.attempt (NetEvent.poll socket .POLLIN milliseconds) script errno).map
    (fun r => ⟨r.value.positive, r.errno, r.trace, r.rest⟩)

/-- The function `Net_canWrite` (Net.c:95-104).  The timeout is recorded as it
is passed, before the conversion `(int)milliseconds`. -/
def Net_canWrite (script : List SysResult) (errno : Errno) (socket : Int) (milliseconds : Int) :
    Option (Ret Bool) :=
  (Net.attempt (NetEvent.poll socket .POLLOUT milliseconds) script errno).map
    (fun r => ⟨r.value.positive, r.errno, r.trace, r.rest⟩)

/-- The common body of `Net_read` and `Net_write` (Net.c:107-122, 125-140),
which differ in the system call (`call`) and in the readiness wait (`can`)
only. -/
def Net.transfer (w : Nat) (call : SysResult → NetEvent)
    (can : List SysResult → Errno → Option (Ret Bool))
    (script : List SysResult) (errno : Errno) (size : Nat) (timeout : Int) : Option (Ret Nat) :=
  if size > 0 then
    match Net.attempt call script errno with
    | none => none
    | some a =>
      if wouldBlock a.value a.errno then
        if timeout ≤ 0 then some ⟨0, a.errno, a.trace, a.rest⟩
        else
          match can a.rest a.errno with
          | none => none
          | some c =>
            if c.value = false then some ⟨0, c.errno, a.trace ++ c.trace, c.rest⟩
            else
              match Net.attempt call c.rest c.errno with
              | none => none
              | some b => some ⟨b.value.toSize w, b.errno, a.trace ++ (c.trace ++ b.trace), b.rest⟩
      else some ⟨a.value.toSize w, a.errno, a.trace, a.rest⟩
  else some ⟨0, errno, [], script⟩

/-- The function `Net_read` (Net.c:107-122) for a `size_t` of `w` bits. -/
def Net_read (w : Nat) (script : List SysResult) (errno : Errno) (socket : Int) (size : Nat)
    (timeout : Int) : Option (Ret Nat) :=
  Net.transfer w (NetEvent.read socket size)
    (fun s e => Net_canRead s e socket timeout) script errno size timeout

/-- The function `Net_write` (Net.c:125-140) for a `size_t` of `w` bits. -/
def Net_write (w : Nat) (script : List SysResult) (errno : Errno) (socket : Int) (buffer : Int)
    (size : Nat) (timeout : Int) : Option (Ret Nat) :=
  Net.transfer w (NetEvent.write socket buffer size)
    (fun s e => Net_canWrite s e socket timeout) script errno size timeout

/-- The function `Process_isRunning` (Command.c:127-135).  `kill pid sig` is
the outcome of the system call `kill(pid, sig)`. -/
def Process_isRunning (kill : Int → Nat → SysResult) (P : Process_T) : Bool :=
  match kill P.pid 0 with
  | .ok _ => true
  | .fail e => if e = .ESRCH then false else true

/-! ## OutputStream.c -/

/-- The constant `BUFFER_SIZE` (OutputStream.c:61). -/
def BUFFER_SIZE : Int := 3000

/-- The constant `NET_WRITE_TIMEOUT` (Net.h:45). -/
def NET_WRITE_TIMEOUT : Int := 3000

/-- The struct `OutputStream_T` (OutputStream.c:64-72). -/
structure OutputStream_T where
  fd : Int
  offset : Int
  length : Int
  timeout : Int
  isClosed : Bool
  bytesWritten : Int
  buffer : List Nat
  deriving DecidableEq, Repr

/-- The sum of two `int` values of 32 bits, as `S->offset += n` computes it on a
two's complement machine: a sum outside the range of `int`, which the C
standard leaves undefined, wraps around. -/
def int_add (a b : Int) : Int := int_of_size_t ((a + b) % (2 : Int) ^ 32).toNat

/-- The function `doWrite` (OutputStream.c:79-92): the value returned and the
stream afterwards.  `errno = 0` is the value `Net_write` starts from.  The
buffer passed, `S->buffer + S->offset`, is named by the offset. -/
def doWrite (w : Nat) (script : List SysResult) (errno : Errno) (S : OutputStream_T)
    (timeout : Int) : Option (Ret (Int × OutputStream_T)) :=
  if S.isClosed then some ⟨(-1, S), errno, [], script⟩
  else
    match Net_write w script .zero S.fd S.offset (size_t_of_int w (BUFFER_SIZE - S.length))
        timeout with
    | none => none
    | some r =>
      let n : Int := int_of_size_t r.value
      if n > 0 then some ⟨(n, { S with offset := int_add S.offset n }), r.errno, r.trace, r.rest⟩
      else if n < 0 ∨ ¬ (r.errno = .EAGAIN ∨ r.errno = .EWOULDBLOCK) then
        some ⟨(-1, { S with isClosed := true, offset := 0, length := 0 }), r.errno, r.trace,
          r.rest⟩
      else some ⟨(n, S), r.errno, r.trace, r.rest⟩

/-- The function `OutputStream_new` (OutputStream.c:98-105); `NEW` zeroes the
struct. -/
def OutputStream_new (descriptor : Int) : OutputStream_T :=
  { fd := descriptor, offset := 0, length := 0, timeout := NET_WRITE_TIMEOUT, isClosed := false,
    bytesWritten := 0, buffer := List.replicate 3000 0 }

/-- The function `OutputStream_getDescriptor` (OutputStream.c:117-120). -/
def OutputStream_getDescriptor (S : OutputStream_T) : Int := S.fd

/-- The function `OutputStream_buffered` (OutputStream.c:123-126). -/
def OutputStream_buffered (S : OutputStream_T) : Int := S.offset

/-- The function `OutputStream_setTimeout` (OutputStream.c:129-133). -/
def OutputStream_setTimeout (S : OutputStream_T) (timeout : Int) :
    OutputStream_T × Except Exception Unit :=
  if ¬ (timeout ≥ 0) then (S, .error .AssertException)
  else ({ S with timeout := timeout }, .ok ())

/-- The function `OutputStream_getTimeout` (OutputStream.c:136-139). -/
def OutputStream_getTimeout (S : OutputStream_T) : Int := S.timeout

/-- The function `OutputStream_isClosed` (OutputStream.c:142-145). -/
def OutputStream_isClosed (S : OutputStream_T) : Bool := S.isClosed

/-- The function `OutputStream_print` (OutputStream.c:148-156): the body of
the conditional holds `va_start`, a TODO comment and `va_end`, nothing that
touches the stream. -/
def OutputStream_print (S : OutputStream_T) (s : Option CStr) : OutputStream_T :=
  if ! S.isClosed && (s.isSome && s != some []) then S else S

/-- The function `OutputStream_vprint` (OutputStream.c:159-167): the body of
the conditional holds `va_copy`, a TODO comment and `va_end`. -/
def OutputStream_vprint (S : OutputStream_T) (s : Option CStr) : OutputStream_T :=
  if ! S.isClosed && (s.isSome && s != some []) then S else S

/-- The function `OutputStream_write` (OutputStream.c:170-175): the body of
the conditional is the empty statement and a TODO comment. -/
def OutputStream_write (S : OutputStream_T) (b : Option (List Nat)) (_size : Int) :
    OutputStream_T :=
  if ! S.isClosed && b.isSome then S else S

/-- The function `OutputStream_flush` (OutputStream.c:178-185). -/
def OutputStream_flush (w : Nat) (script : List SysResult) (errno : Errno) (S : OutputStream_T) :
    Option (Ret (Int × OutputStream_T)) :=
  if S.isClosed then some ⟨(-1, S), errno, [], script⟩
  else if S.offset ≠ 0 then doWrite w script errno S S.timeout
  else some ⟨(0, S), errno, [], script⟩

/-- The function `OutputStream_clear` (OutputStream.c:188-191). -/
def OutputStream_clear (S : OutputStream_T) : OutputStream_T :=
  { S with offset := 0, length := 0 }

/-- A call of one of the operations of OutputStream.h on a stream. -/
inductive StreamOp where
  | write (b : Option (List Nat)) (size : Int)
  | print (s : Option CStr)
  | vprint (s : Option CStr)
  | flush
  | clear
  | setTimeout (timeout : Int)

/-- The value an operation returns (that of `OutputStream_flush`, none for the
others) and the stream after it. -/
def StreamOp.run (w : Nat) (script : List SysResult) (errno : Errno) (S : OutputStream_T) :
    StreamOp → Option (Ret (Option Int × OutputStream_T))
  | .write b size => some ⟨(none, OutputStream_write S b size), errno, [], script⟩
  | .print s => some ⟨(none, OutputStream_print S s), errno, [], script⟩
  | .vprint s => some ⟨(none, OutputStream_vprint S s), errno, [], script⟩
  | .flush =>
    (OutputStream_flush w script errno S).map
      (fun r => ⟨(some r.value.1, r.value.2), r.errno, r.trace, r.rest⟩)
  | .clear => some ⟨(none, OutputStream_clear S), errno, [], script⟩
  | .setTimeout t => some ⟨(none, (OutputStream_setTimeout S t).1), errno, [], script⟩

/-- A sequence of operations on one stream, each starting where the one before
it ended: the values returned in order and the stream at the end. -/
def StreamOp.runAll (w : Nat) :
    List StreamOp → List SysResult → Errno → OutputStream_T →
      Option (Ret (List (Option Int) × OutputStream_T))
  | [], script, errno, S => some ⟨([], S), errno, [], script⟩
  | op :: ops, script, errno, S =>
    match StreamOp.run w script errno S op with
    | none => none
    | some r =>
      match StreamOp.runAll w ops r.rest r.errno r.value.2 with
      | none => none
      | some q => some ⟨(r.value.1 :: q.value.1, q.value.2), q.errno, r.trace ++ q.trace, q.rest⟩

/-! ## Words of the specification and concrete inputs -/

/-- The name of an environment entry: the text before its first `=`. -/
def envName (e : CStr) : CStr := e.takeWhile (fun c => c != '=')

/-- White space removed at the end of a text. -/
def spec_rtrim (s : CStr) : CStr := (s.reverse.dropWhile isspace).reverse

/-- White space removed at both ends of a text: the trimming the specification
speaks of. -/
def spec_trim (s : CStr) : CStr := (spec_rtrim s).dropWhile isspace

/-- The text `n1=v1;n2=v2;...;nk=vk` for the pairs `ps`, followed, when `tl` is
`some f`, by `;` and the fragment `f`; for no pair at all, the fragment alone. -/
def spec_envString : List (CStr × CStr) → Option CStr → CStr
  | [], tl => tl.getD []
  | p :: ps, tl =>
    p.1 ++ '=' :: p.2 ++ (if ps.isEmpty && tl.isNone then [] else ';' :: spec_envString ps tl)

/-- The calls `Command_setEnv(trim(n1), trim(v1))`, ...,
`Command_setEnv(trim(nk), trim(vk))` made in that order. -/
def spec_setEnvPairs (C : Command_T) (ps : List (CStr × CStr)) : Command_T :=
  ps.foldl (fun C p => Command_setEnv C (spec_trim p.1) (some (spec_trim p.2))) C

/-- Whether a step is an invocation of the onExec handler. -/
def Event.isOnExec : Event → Bool
  | .onExec _ _ => true
  | _ => false

/-- Whether a step is an invocation of the onTimeout handler. -/
def Event.isOnTimeout : Event → Bool
  | .onTimeout _ _ => true
  | _ => false

/-- Whether a step is a liveness poll (`waitpid` with WNOHANG). -/
def Event.isPoll : Event → Bool
  | .waitpid _ => true
  | _ => false

/-- Whether a step is a one-second sleep of the wait loop. -/
def Event.isSleep : Event → Bool
  | .sleep _ => true
  | _ => false

/-- Whether a step creates a pipe. -/
def Event.isPipe : Event → Bool
  | .pipe _ _ => true
  | _ => false

/-- Whether a step releases a stream wrapper. -/
def Event.isFreeStream : Event → Bool
  | .freeStream _ => true
  | _ => false

/-- Whether a step is the call of execve. -/
def Event.isExecve : Event → Bool
  | .execve _ _ _ => true
  | _ => false

/-- Whether a step is a call of `_exit`. -/
def Event.isExit : Event → Bool
  | .exit _ => true
  | _ => false

/-- A call of one of the setters of Command.h. -/
inductive Setter where
  | setUid (uid : Nat)
  | setGid (gid : Nat)
  | setDir (dir : Option CStr)
  | setEnv (name : CStr) (value : Option CStr)
  | setEnvString (env : Option CStr)
  | setCommand (path : Option CStr) (xs : List CStr)
  | setOnExec (onExec ap : Option Nat)
  | setOnTimeout (timeout : Int) (onTimeout ap : Option Nat)

/-- Whether the call is a call of `Command_setOnTimeout`. -/
def Setter.isSetOnTimeout : Setter → Bool
  | .setOnTimeout _ _ _ => true
  | _ => false

/-- The Command after a setter call, whether the call raised or not; none when
the call has no defined result. -/
def Setter.call (fs : FileSystem) (vcat : CStr → CStr) (C : Command_T) :
    Setter → Option Command_T
  | .setUid uid => some (Command_setUid C uid)
  | .setGid gid => some (Command_setGid C gid)
  | .setDir dir => some (Command_setDir fs C dir).1
  | .setEnv name value => some (Command_setEnv C name value)
  | .setEnvString env => Command_setEnvString vcat C env
  | .setCommand path xs => some (Command_setCommand fs C path xs).1
  | .setOnExec onExec ap => some (Command_setOnExec C onExec ap).1
  | .setOnTimeout timeout onTimeout ap => some (Command_setOnTimeout C timeout onTimeout ap).1

/-- The Command after a sequence of setter calls. -/
def Setter.callAll (fs : FileSystem) (vcat : CStr → CStr) :
    List Setter → Command_T → Option Command_T
  | [], C => some C
  | s :: ss, C => (Setter.call fs vcat C s).bind (Setter.callAll fs vcat ss)

/-- A file system in which nothing exists. -/
def emptyFS : FileSystem :=
  { exist := fun _ => false, isDirectory := fun _ => false, isExecutable := fun _ => false,
    removeTrailingSeparator := fun p => p }

/-- A file system with the program `/bin/sh` and the accessible directory `/tmp`;
a trailing `/` is taken off a path. -/
def smallFS : FileSystem :=
  { exist := fun p => p == "/bin/sh".toList || p == "/tmp".toList,
    isDirectory := fun p => p == "/tmp".toList || p == "/tmp/".toList,
    isExecutable := fun p => p == "/bin/sh".toList || p == "/tmp".toList || p == "/tmp/".toList,
    removeTrailingSeparator := fun p => if p.getLast? = some '/' then p.dropLast else p }

/-- An operating system in which every call succeeds, the child gets pid 100
and is reported as exited at the first poll; handlers make no call on the
Process and leave the Command as it is. -/
def quietOS : OS :=
  { pipe := fun k => some (3 + 2 * (k : Int), 4 + 2 * (k : Int)),
    vfork := 100,
    chdir := fun _ => true,
    setuid := fun _ => true,
    setgid := fun _ => true,
    getuid := 0,
    getgid := 0,
    dup2 := fun _ n => n,
    openNull := fun i => i,
    getdtablesize := 16,
    execve := true,
    errno := 0,
    waitpid := fun _ => (100, 0),
    handler := fun _ _ _ C => ([], C) }

/-- A Command reached from `Command_new` by `Command_setEnv("AB", "x")` and
`Command_setEnv("ABC", "y")`. -/
def abCommand : Command_T :=
  Command_setEnv (Command_setEnv Command_new "AB".toList (some "x".toList))
    "ABC".toList (some "y".toList)

/-- The operating system `quietOS`, but the child is reported still running
at every poll. -/
def aliveOS : OS := { quietOS with waitpid := fun _ => (0, 0) }

/-- A Command with the program `/bin/sh`, the working directory `/tmp`, an
onExec handler at address 7 and an onTimeout handler at address 8 with a
budget of 2 seconds. -/
def handlerCommand : Command_T :=
  { Command_new with
    args := ["/bin/sh".toList], working_directory := some "/tmp".toList,
    onExec := some 7, onTimeout := some 8, timeout := 2 }

/-- A Command with the program `/bin/sh`, uid 5 and gid 6, and no handler. -/
def idCommand : Command_T :=
  { Command_new with args := ["/bin/sh".toList], uid := 5, gid := 6 }

/-- The operating system `aliveOS`, but the handler at address 7 calls
`Command_setOnTimeout(C, 1, 8, NULL)` on the Command. -/
def resettingOS : OS :=
  { aliveOS with
    handler := fun fn _ _ C =>
      if fn = 7 then ([], (Command_setOnTimeout C 1 (some 8) none).1) else ([], C) }

/-- The operating system `quietOS`, but every `dup2` fails (returns -1, errno 9). -/
def dupFailOS : OS := { quietOS with dup2 := fun _ _ => -1, errno := 9 }

/-- An ASCII letter or digit: `0`-`9`, `A`-`Z`, `a`-`z`. -/
def isAsciiAlnum (c : Char) : Bool :=
  (48 ≤ c.toNat && c.toNat ≤ 57) || (65 ≤ c.toNat && c.toNat ≤ 90) ||
    (97 ≤ c.toNat && c.toNat ≤ 122)

/-- The character of a decimal digit. -/
def digitChar (d : Nat) : Char := Char.ofNat (d + 48)

/-- The canonical decimal representation of a natural number: its digits,
the most significant first, and `0` for zero. -/
def spec_decimal_nat (m : Nat) : CStr :=
  if m = 0 then ['0'] else (Nat.digits 10 m).reverse.map digitChar

/-- The canonical decimal representation of an integer: a `-` for a negative
value, then the representation of its absolute value. -/
def spec_decimal (n : Int) : CStr :=
  if n < 0 then '-' :: spec_decimal_nat n.natAbs else spec_decimal_nat n.natAbs

/-- A run of `k` system calls interrupted by a signal. -/
def interrupted (k : Nat) : List SysResult := List.replicate k (.fail .EINTR)

/-- The value of `errno` after `k` interrupted calls and the outcome `o`, when
it was `errno` before them. -/
def errnoAfter (errno : Errno) (k : Nat) : SysResult → Errno
  | .ok _ => if k = 0 then errno else .EINTR
  | .fail e => e

/-- The calls of an attempt: `k` interrupted ones and the one with outcome `o`. -/
def attemptTrace (call : SysResult → NetEvent) (k : Nat) (o : SysResult) : List NetEvent :=
  List.replicate k (call (.fail .EINTR)) ++ [call o]

/-- The outcome "would block": the call failed with EAGAIN or EWOULDBLOCK. -/
def SysResult.isWouldBlock : SysResult → Bool
  | .ok _ => false
  | .fail e => e == .EAGAIN || e == .EWOULDBLOCK

/-- A call of `poll` that ends a readiness wait: one a signal did not interrupt. -/
def NetEvent.endsWait : NetEvent → Bool
  | .poll _ _ _ r => r != .fail .EINTR
  | _ => false

/-- The retry protocol of the specification, for a function `f` that takes the
script of outcomes and `errno`, makes its attempts with `call` and its
readiness wait with `wait`.  Attempts interrupted by a signal are repeated;
an outcome `o` that is not "would block" is the result, after the `k`
interrupted attempts and nothing else; on "would block" with `timeout <= 0`
the result is 0 and no call follows; on "would block" with a timeout the
readiness wait follows (`j` interrupted calls of `poll` and one with outcome
`p`): when `p` is not positive the result is 0 and no call follows, when it is
positive one more attempt follows (`i` interrupted calls and one with outcome
`o2`) and `o2` is the result. -/
def RetryProtocol (w : Nat) (f : List SysResult → Errno → Option (Ret Nat))
    (call wait : SysResult → NetEvent) (timeout : Int) : Prop :=
  ∀ (errno : Errno) (k : Nat) (o : SysResult) (rest : List SysResult), o ≠ .fail .EINTR →
    (o.isWouldBlock = false →
      f (interrupted k ++ o :: rest) errno =
        some ⟨o.toSize w, errnoAfter errno k o, attemptTrace call k o, rest⟩) ∧
    (o.isWouldBlock = true → timeout ≤ 0 →
      f (interrupted k ++ o :: rest) errno =
        some ⟨0, errnoAfter errno k o, attemptTrace call k o, rest⟩) ∧
    (o.isWouldBlock = true → 0 < timeout →
      ∀ (j : Nat) (p : SysResult) (rest2 : List SysResult), p ≠ .fail .EINTR →
        (p.positive = false →
          f (interrupted k ++ o :: (interrupted j ++ p :: rest2)) errno =
            some ⟨0, errnoAfter (errnoAfter errno k o) j p,
              attemptTrace call k o ++ attemptTrace wait j p, rest2⟩) ∧
        (p.positive = true →
          ∀ (i : Nat) (o2 : SysResult) (rest3 : List SysResult), o2 ≠ .fail .EINTR →
            f (interrupted k ++ o :: (interrupted j ++ p :: (interrupted i ++ o2 :: rest3)))
                errno =
              some ⟨o2.toSize w, errnoAfter (errnoAfter (errnoAfter errno k o) j p) i o2,
                attemptTrace call k o ++ (attemptTrace wait j p ++ attemptTrace call i o2),
                rest3⟩))

/-- An open stream state with offset 5 and length 5: five bytes by
`OutputStream_buffered`.  No operation of OutputStream.h produces it. -/
def bufferedStream : OutputStream_T := { OutputStream_new 1 with offset := 5, length := 5 }

/-- The stream `doWrite` leaves when it closes `bufferedStream`. -/
def closedStream : OutputStream_T := { OutputStream_new 1 with isClosed := true }

/-- A Process whose pipes are in place, as `Execute` hands it to a handler. -/
def pipedProcess : Process_T :=
  { Process_zero with
    pid := 100
    stdin_pipe := (-1, 4)
    stdout_pipe := (5, -1)
    stderr_pipe := (7, -1) }

/-! ## Lemmas -/

theorem freeStrings_eq_nil (l : List_T) : freeStrings l = [] := by
  induction l with
  | nil => rfl
  | cons e l ih => rw [freeStrings]; exact ih

theorem foldl_List_append (xs : List CStr) (l : List_T) :
    xs.foldl List_append l = l ++ xs := by
  induction xs generalizing l with
  | nil => simp
  | cons x xs ih => simp [List.foldl, ih, List_append]

theorem buildArgs_args (C : Command_T) (path : CStr) (xs : List CStr) :
    buildArgs C path xs = { C with args := path :: xs } := by
  simp [buildArgs, freeStrings_eq_nil, foldl_List_append, List_append]

/-! ## Lemmas on buffers, trimming and the parser of `Command_setEnvString` -/

theorem cstrOf_append (s post : List Char) (h : NUL ∉ s) :
    cstrOf (s ++ NUL :: post) = some s := by
  induction s with
  | nil => simp [cstrOf]
  | cons c s ih =>
    have hc : c ≠ NUL := fun e => h (by simp [e])
    have hs : NUL ∉ s := fun e => h (by simp [e])
    simp [cstrOf, hc, ih hs]

theorem cstrAt_append (pre s post : List Char) (h : NUL ∉ s) :
    cstrAt (pre ++ (s ++ NUL :: post)) pre.length = some s := by
  simp [cstrAt, cstrOf_append _ _ h]

theorem strchr_not_mem (s : CStr) (c : Char) (h : c ∉ s) : strchr s c = none := by
  induction s with
  | nil => rfl
  | cons x s ih =>
    have hx : x ≠ c := fun e => h (by simp [e])
    have hs : c ∉ s := fun e => h (by simp [e])
    simp [strchr, hx, ih hs]

theorem strchr_append (a b : CStr) (c : Char) (h : c ∉ a) :
    strchr (a ++ c :: b) c = some a.length := by
  induction a with
  | nil => simp [strchr]
  | cons x a ih =>
    have hx : x ≠ c := fun e => h (by simp [e])
    have hs : c ∉ a := fun e => h (by simp [e])
    simp [strchr, hx, ih hs]

theorem set_append_mid (pre a post : List Char) (x y : Char) :
    (pre ++ (a ++ x :: post)).set (pre.length + a.length) y = pre ++ (a ++ y :: post) := by
  rw [← List.append_assoc, ← List.append_assoc, ← List.length_append]
  simp [List.set_append_right]

theorem get?_append_mid (pre a post : List Char) (x : Char) :
    (pre ++ (a ++ x :: post)).get? (pre.length + a.length) = some x := by
  rw [← List.append_assoc, ← List.length_append, List.get?_eq_getElem?,
    List.getElem?_append_right (le_refl _)]
  simp

theorem isspace_NUL : isspace NUL = false := by decide

theorem rtrim_loop_spaces (w : List Char) :
    ∀ (pre0 post : List Char) (x : Char), isspace x = false → (∀ c ∈ w, isspace c = true) →
      Str_rtrim.loop (pre0 ++ (x :: (w ++ post))) (pre0.length + 1 + w.length) =
        some (pre0 ++ (x :: (List.replicate w.length NUL ++ post))) := by
  induction w using List.reverseRecOn with
  | nil =>
    intro pre0 post x hx _
    have := get?_append_mid pre0 [] (post) x
    simp at this
    simp [Str_rtrim.loop, this, hx]
  | append_singleton w c ih =>
    intro pre0 post x hx hw
    have hc : isspace c = true := hw c (by simp)
    have hw1 : ∀ c ∈ w, isspace c = true := fun d hd => hw d (by simp [hd])
    have hlen : pre0.length + 1 + (w ++ [c]).length = (pre0.length + 1 + w.length) + 1 := by
      simp; omega
    rw [hlen, Str_rtrim.loop]
    have hget : (pre0 ++ x :: (w ++ [c] ++ post)).get? (pre0.length + 1 + w.length) = some c := by
      have := get?_append_mid (pre0 ++ [x]) w post c
      simpa [List.append_assoc] using this
    have hset : (pre0 ++ x :: (w ++ [c] ++ post)).set (pre0.length + 1 + w.length) NUL
        = pre0 ++ (x :: (w ++ (NUL :: post))) := by
      have := set_append_mid (pre0 ++ [x]) w post c NUL
      simpa [List.append_assoc] using this
    rw [hget]
    simp only [hc, if_true]
    rw [hset, ih pre0 (NUL :: post) x hx hw1]
    congr 2
    simp [List.replicate_succ', List.append_assoc]

theorem spec_rtrim_append_singleton (s : CStr) (c : Char) :
    spec_rtrim (s ++ [c]) = if isspace c then spec_rtrim s else s ++ [c] := by
  unfold spec_rtrim
  by_cases h : isspace c = true
  · simp [List.dropWhile_cons, h]
  · simp [List.dropWhile_cons, h]

theorem spec_rtrim_decomp (s : CStr) :
    ∃ w, s = spec_rtrim s ++ w ∧ (∀ c ∈ w, isspace c = true) ∧
      (spec_rtrim s = [] ∨ ∃ a0 x, spec_rtrim s = a0 ++ [x] ∧ isspace x = false) := by
  induction s using List.reverseRecOn with
  | nil => exact ⟨[], by simp [spec_rtrim], by simp, Or.inl (by simp [spec_rtrim])⟩
  | append_singleton s c ih =>
    obtain ⟨w, h1, h2, h3⟩ := ih
    rw [spec_rtrim_append_singleton]
    by_cases h : isspace c = true
    · refine ⟨w ++ [c], ?_, ?_, ?_⟩
      · simp only [h, if_true]
        rw [← List.append_assoc, ← h1]
      · intro d hd
        rcases List.mem_append.1 hd with hd | hd
        · exact h2 d hd
        · simp at hd; rw [hd]; exact h
      · simpa [h] using h3
    · refine ⟨[], by simp [h], by simp, Or.inr ⟨s, c, by simp [h], by simpa using h⟩⟩

theorem spec_rtrim_length_le (s : CStr) : (spec_rtrim s).length ≤ s.length := by
  obtain ⟨w, h1, _, _⟩ := spec_rtrim_decomp s
  have := congrArg List.length h1
  simp at this
  omega

theorem Str_rtrim_spec (pre s post : List Char) (hs : NUL ∉ s)
    (hg : s = [] ∨ (∃ c ∈ s, isspace c = false) ∨
      ∃ pre0 x, pre = pre0 ++ [x] ∧ isspace x = false) :
    Str_rtrim (pre ++ (s ++ NUL :: post)) pre.length =
      some (pre ++ (spec_rtrim s ++
        (List.replicate (s.length - (spec_rtrim s).length) NUL ++ NUL :: post))) := by
  cases s with
  | nil =>
    have := get?_append_mid pre [] post NUL
    simp at this
    simp [Str_rtrim, this, spec_rtrim]
  | cons c s =>
    have hc : c ≠ NUL := fun e => hs (by simp [e])
    have hget : (pre ++ (c :: s ++ NUL :: post)).get? pre.length = some c := by
      have := get?_append_mid pre [] (s ++ NUL :: post) c
      simpa using this
    have hstr := cstrAt_append pre (c :: s) post hs
    simp only [Str_rtrim, hget, hc, if_false, hstr]
    obtain ⟨w, h1, h2, h3⟩ := spec_rtrim_decomp (c :: s)
    have hlen : (c :: s).length = (spec_rtrim (c :: s)).length + w.length := by
      have := congrArg List.length h1
      simpa using this
    have hk : (c :: s).length - (spec_rtrim (c :: s)).length = w.length := by omega
    rw [hk]
    rcases h3 with h3 | ⟨a0, x, h3, hx⟩
    · -- the whole string is white space: the scan reaches the byte before it
      have hw : c :: s = w := by rw [h3] at h1; simpa using h1
      have hpre : ∃ pre0 x, pre = pre0 ++ [x] ∧ isspace x = false := by
        rcases hg with hg | ⟨d, hd, hd2⟩ | hg
        · exact absurd hg (by simp)
        · rw [hw] at hd
          rw [h2 d hd] at hd2
          exact absurd hd2 (by simp)
        · exact hg
      obtain ⟨pre0, x, hp, hx⟩ := hpre
      rw [h3, hw, hp]
      have := rtrim_loop_spaces w pre0 (NUL :: post) x hx h2
      simp only [List.append_assoc, List.singleton_append, List.length_append,
        List.length_singleton, List.nil_append] at this ⊢
      exact this
    · have hm : pre ++ (c :: s ++ NUL :: post) = (pre ++ a0) ++ (x :: (w ++ NUL :: post)) := by
        rw [h1, h3]; simp [List.append_assoc]
      have hi : pre.length + (c :: s).length = (pre ++ a0).length + 1 + w.length := by
        rw [hlen, h3]; simp; omega
      rw [hm, hi, rtrim_loop_spaces w (pre ++ a0) (NUL :: post) x hx h2, h3]
      simp [List.append_assoc]

theorem drop_length_takeWhile (a : CStr) :
    a.drop (a.takeWhile isspace).length = a.dropWhile isspace := by
  have h := List.takeWhile_append_dropWhile isspace a
  calc a.drop (a.takeWhile isspace).length
      = (a.takeWhile isspace ++ a.dropWhile isspace).drop (a.takeWhile isspace).length := by
        rw [h]
    _ = a.dropWhile isspace := List.drop_left _ _

theorem length_takeWhile_dropWhile (a : CStr) :
    a.length - (a.takeWhile isspace).length = (a.dropWhile isspace).length := by
  have := congrArg List.length (List.takeWhile_append_dropWhile isspace a)
  rw [List.length_append] at this
  omega

theorem Str_ltrim_spec (pre a post : List Char) (ha : NUL ∉ a) :
    Str_ltrim (pre ++ (a ++ NUL :: post)) pre.length =
      some (pre ++ (a.dropWhile isspace ++
        NUL :: List.drop ((a.dropWhile isspace).length + 1) (a ++ NUL :: post))) := by
  cases a with
  | nil =>
    have := get?_append_mid pre [] post NUL
    simp at this
    simp [Str_ltrim, this, isspace_NUL]
  | cons c a =>
    have hget : (pre ++ (c :: a ++ NUL :: post)).get? pre.length = some c := by
      have := get?_append_mid pre [] (a ++ NUL :: post) c
      simpa using this
    by_cases hc : isspace c = true
    · have hstr := cstrAt_append pre (c :: a) post ha
      simp only [Str_ltrim, hget, hc, if_true, hstr]
      rw [drop_length_takeWhile, length_takeWhile_dropWhile]
      simp [List.take_left, List.drop_append, Nat.add_assoc]
    · simp only [Str_ltrim, hget, hc]
      simp [List.dropWhile_cons, hc]

theorem replicate_NUL_append_cons (k : Nat) (post : List Char) :
    List.replicate k NUL ++ NUL :: post = NUL :: (List.replicate k NUL ++ post) := by
  induction k with
  | zero => rfl
  | succ k ih => simp [List.replicate_succ, ih]

theorem spec_rtrim_not_mem (s : CStr) (c : Char) (h : c ∉ s) : c ∉ spec_rtrim s := by
  obtain ⟨w, h1, _, _⟩ := spec_rtrim_decomp s
  intro hc
  apply h
  rw [h1]
  exact List.mem_append_left _ hc

theorem spec_trim_not_mem (s : CStr) (c : Char) (h : c ∉ s) : c ∉ spec_trim s := by
  intro hc
  exact spec_rtrim_not_mem s c h ((List.dropWhile_sublist _).subset hc)

theorem spec_trim_length_le (s : CStr) : (spec_trim s).length ≤ (spec_rtrim s).length :=
  (List.dropWhile_sublist _).length_le

theorem Str_trim_spec (pre s post : List Char) (hs : NUL ∉ s)
    (hg : s = [] ∨ (∃ c ∈ s, isspace c = false) ∨
      ∃ pre0 x, pre = pre0 ++ [x] ∧ isspace x = false) :
    ∃ h : List Char, (spec_trim s).length + h.length = s.length ∧
      (h = [] ∨ ∃ h1, h = h1 ++ [NUL]) ∧
      Str_trim (pre ++ (s ++ NUL :: post)) pre.length =
        some (pre ++ (spec_trim s ++ NUL :: (h ++ post))) := by
  have h1 := Str_rtrim_spec pre s post hs hg
  rw [replicate_NUL_append_cons] at h1
  have h2 := Str_ltrim_spec pre (spec_rtrim s)
    (List.replicate (s.length - (spec_rtrim s).length) NUL ++ post) (spec_rtrim_not_mem s NUL hs)
  have hle1 := spec_trim_length_le s
  have hle2 := spec_rtrim_length_le s
  have htrim : Str_trim (pre ++ (s ++ NUL :: post)) pre.length =
      some (pre ++ (spec_trim s ++ NUL :: List.drop ((spec_trim s).length + 1)
        (spec_rtrim s ++ NUL :: (List.replicate (s.length - (spec_rtrim s).length) NUL ++ post)))) := by
    simp only [Str_trim, h1, Option.some_bind, h2, spec_trim]
  have hL : spec_rtrim s ++ NUL :: (List.replicate (s.length - (spec_rtrim s).length) NUL ++ post) =
      ((spec_rtrim s ++ List.replicate (s.length - (spec_rtrim s).length) NUL) ++ [NUL]) ++ post := by
    rw [← replicate_NUL_append_cons]; simp [List.append_assoc]
  have hL0 : (spec_rtrim s ++ List.replicate (s.length - (spec_rtrim s).length) NUL).length = s.length := by
    simp; omega
  by_cases hlt : (spec_trim s).length + 1 ≤ s.length
  · refine ⟨List.drop ((spec_trim s).length + 1)
        (spec_rtrim s ++ List.replicate (s.length - (spec_rtrim s).length) NUL) ++ [NUL], ?_,
      Or.inr ⟨_, rfl⟩, ?_⟩
    · rw [List.length_append, List.length_drop, hL0]; simp; omega
    · rw [htrim, hL]
      congr 3
      rw [List.drop_append_of_le_length (by simp; omega),
        List.drop_append_of_le_length (by rw [hL0]; exact hlt)]
  · refine ⟨[], by simp; omega, Or.inl rfl, ?_⟩
    rw [htrim, hL]
    congr 3
    rw [List.drop_append_of_le_length (by simp; omega)]
    simp
    omega

theorem ends_NUL_of_tail (q h : List Char) (hh : h = [] ∨ ∃ h1, h = h1 ++ [NUL]) :
    ∃ pre0 x, q ++ NUL :: h = pre0 ++ [x] ∧ isspace x = false := by
  rcases hh with hh | ⟨h1, hh⟩
  · exact ⟨q, NUL, by simp [hh], isspace_NUL⟩
  · exact ⟨q ++ NUL :: h1, NUL, by simp [hh], isspace_NUL⟩

theorem two_trims (pre a b post : List Char) (ha : NUL ∉ a) (hb : NUL ∉ b)
    (hg : a = [] ∨ (∃ c ∈ a, isspace c = false) ∨
      ∃ pre0 x, pre = pre0 ++ [x] ∧ isspace x = false) :
    ∃ m3 m4 pre2, Str_trim (pre ++ (a ++ NUL :: (b ++ NUL :: post))) pre.length = some m3 ∧
      Str_trim m3 (pre.length + a.length + 1) = some m4 ∧
      cstrAt m4 pre.length = some (spec_trim a) ∧
      cstrAt m4 (pre.length + a.length + 1) = some (spec_trim b) ∧
      m4 = pre2 ++ post ∧
      pre2.length = pre.length + a.length + 1 + b.length + 1 ∧
      ∃ pre0 x, pre2 = pre0 ++ [x] ∧ isspace x = false := by
  obtain ⟨h, hlen, hh, h3⟩ := Str_trim_spec pre a (b ++ NUL :: post) ha hg
  have hpre1 := ends_NUL_of_tail (pre ++ spec_trim a) h hh
  have hlen1 : (pre ++ spec_trim a ++ NUL :: h).length = pre.length + a.length + 1 := by
    simp; omega
  obtain ⟨h', hlen', hh', h4⟩ :=
    Str_trim_spec (pre ++ spec_trim a ++ NUL :: h) b post hb (Or.inr (Or.inr hpre1))
  rw [hlen1] at h4
  refine ⟨pre ++ (spec_trim a ++ NUL :: (h ++ (b ++ NUL :: post))),
    pre ++ spec_trim a ++ NUL :: h ++ (spec_trim b ++ NUL :: (h' ++ post)),
    (pre ++ spec_trim a ++ NUL :: h) ++ (spec_trim b ++ NUL :: h'), h3, ?_, ?_, ?_, ?_, ?_, ?_⟩
  · rw [← h4]; simp [List.append_assoc]
  · have := cstrAt_append pre (spec_trim a) (h ++ (spec_trim b ++ NUL :: (h' ++ post)))
      (spec_trim_not_mem a NUL ha)
    simpa [List.append_assoc] using this
  · have := cstrAt_append (pre ++ spec_trim a ++ NUL :: h) (spec_trim b) (h' ++ post)
      (spec_trim_not_mem b NUL hb)
    rw [hlen1] at this
    exact this
  · simp [List.append_assoc]
  · simp; omega
  · have := ends_NUL_of_tail (pre ++ spec_trim a ++ NUL :: h ++ spec_trim b) h' hh'
    simpa [List.append_assoc] using this

theorem spec_envString_cons (p : CStr × CStr) (ps : List (CStr × CStr)) (tl : Option CStr) :
    spec_envString (p :: ps) tl =
      p.1 ++ '=' :: (p.2 ++
        (if ps.isEmpty && tl.isNone then [] else ';' :: spec_envString ps tl)) := by
  simp [spec_envString]

theorem spec_envString_not_mem (c : Char) (hc1 : c ≠ '=') (hc2 : c ≠ ';')
    (ps : List (CStr × CStr)) (tl : Option CStr)
    (hps : ∀ p ∈ ps, c ∉ p.1 ∧ c ∉ p.2) (htl : ∀ f, tl = some f → c ∉ f) :
    c ∉ spec_envString ps tl := by
  induction ps with
  | nil =>
    cases tl with
    | none => simp [spec_envString]
    | some f => simpa [spec_envString] using htl f rfl
  | cons p ps ih =>
    have h1 := hps p (by simp)
    have h2 := ih (fun q hq => hps q (by simp [hq]))
    rw [spec_envString_cons]
    split <;> simp [h1.1, h1.2, h2, hc1, hc2]

theorem strchrAt_eq (m pre s post : List Char) (n : Nat) (c : Char)
    (hm : m = pre ++ (s ++ NUL :: post)) (hn : n = pre.length) (hs : NUL ∉ s) :
    strchrAt m n c = some ((strchr s c).map (fun i => n + i)) := by
  subst hm hn
  simp [strchrAt, cstrAt_append pre s post hs]

theorem set_eq (m pre a post : List Char) (n : Nat) (x y : Char)
    (hm : m = pre ++ (a ++ x :: post)) (hn : n = pre.length + a.length) :
    m.set n y = pre ++ (a ++ y :: post) := by
  subst hm hn
  exact set_append_mid pre a post x y

theorem setEnvString_loop_spec (ps : List (CStr × CStr)) :
    ∀ (tl : Option CStr) (fuel : Nat) (pre : List Char) (C : Command_T),
      ps.length < fuel →
      (∀ p ∈ ps, '=' ∉ p.1 ∧ NUL ∉ p.1 ∧ ';' ∉ p.2 ∧ NUL ∉ p.2) →
      (∀ f, tl = some f → '=' ∉ f ∧ NUL ∉ f) →
      (∀ p, ps.head? = some p → p.1 = [] ∨ (∃ c ∈ p.1, isspace c = false) ∨
        ∃ pre0 x, pre = pre0 ++ [x] ∧ isspace x = false) →
      Command_setEnvString.loop fuel (pre ++ (spec_envString ps tl ++ [NUL])) pre.length C =
        some (spec_setEnvPairs C ps) := by
  induction ps with
  | nil =>
    intro tl fuel pre C hfuel _ htl _
    obtain ⟨fuel, rfl⟩ : ∃ k, fuel = k + 1 := ⟨fuel - 1, by simp at hfuel; omega⟩
    have hf : '=' ∉ tl.getD [] ∧ NUL ∉ tl.getD [] := by
      cases tl with
      | none => simp
      | some f => exact htl f rfl
    have h1 : strchrAt (pre ++ (tl.getD [] ++ [NUL])) pre.length '=' = some none := by
      simp [strchrAt, cstrAt_append pre _ [] hf.2, strchr_not_mem _ _ hf.1]
    simp [Command_setEnvString.loop, spec_envString, h1, spec_setEnvPairs]
  | cons p ps ih =>
    intro tl fuel pre C hfuel hps htl hg
    obtain ⟨fuel, rfl⟩ : ∃ k, fuel = k + 1 := ⟨fuel - 1, by simp at hfuel; omega⟩
    obtain ⟨hp1, hp2, hp3, hp4⟩ := hps p (by simp)
    have hps' : ∀ q ∈ ps, '=' ∉ q.1 ∧ NUL ∉ q.1 ∧ ';' ∉ q.2 ∧ NUL ∉ q.2 :=
      fun q hq => hps q (by simp [hq])
    have hgp := hg p rfl
    have hE' : NUL ∉ spec_envString ps tl :=
      spec_envString_not_mem NUL (by decide) (by decide) ps tl
        (fun q hq => ⟨(hps' q hq).2.1, (hps' q hq).2.2.2⟩) (fun f hf => (htl f hf).2)
    rw [spec_envString_cons]
    by_cases hR : (ps.isEmpty && tl.isNone) = true
    · -- the value is the end of the string
      have hps0 : ps = [] := by
        simp at hR; exact hR.1
      subst hps0
      simp only [hR, if_true, List.append_nil]
      have h1 : strchrAt (pre ++ (p.1 ++ '=' :: p.2 ++ [NUL])) pre.length '=' =
          some (some (pre.length + p.1.length)) := by
        rw [strchrAt_eq _ pre (p.1 ++ '=' :: p.2) [] _ '=' (by simp) rfl
          (by simp [hp2, hp4]; decide), strchr_append _ _ _ hp1]
        rfl
      have hm1 : (pre ++ (p.1 ++ '=' :: p.2 ++ [NUL])).set (pre.length + p.1.length) NUL =
          pre ++ (p.1 ++ NUL :: (p.2 ++ NUL :: [])) :=
        set_eq _ pre p.1 (p.2 ++ [NUL]) _ '=' NUL (by simp) rfl
      have h2 : strchrAt (pre ++ (p.1 ++ NUL :: (p.2 ++ NUL :: []))) (pre.length + p.1.length + 1)
          ';' = some none := by
        rw [strchrAt_eq _ (pre ++ p.1 ++ [NUL]) p.2 [] _ ';' (by simp) (by simp; omega) hp4,
          strchr_not_mem _ _ hp3]
        rfl
      obtain ⟨m3, m4, pre2, t1, t2, t3, t4, _, _, _⟩ := two_trims pre p.1 p.2 [] hp2 hp4 hgp
      rw [Command_setEnvString.loop]
      simp only [h1, hm1, h2, t1, t2, t3, t4, Option.some_bind]
      rfl
    · -- a `;` follows the value
      have hR' : (ps.isEmpty && tl.isNone) = false := by
        cases h : (ps.isEmpty && tl.isNone)
        · rfl
        · exact absurd h hR
      simp only [hR', Bool.false_eq_true, if_false]
      have h1 : strchrAt (pre ++ (p.1 ++ '=' :: (p.2 ++ ';' :: spec_envString ps tl) ++ [NUL]))
          pre.length '=' = some (some (pre.length + p.1.length)) := by
        rw [strchrAt_eq _ pre (p.1 ++ '=' :: (p.2 ++ ';' :: spec_envString ps tl)) [] _ '=' (by simp) rfl
          (by simp [hp2, hp4, hE']; decide), strchr_append _ _ _ hp1]
        rfl
      have hm1 : (pre ++ (p.1 ++ '=' :: (p.2 ++ ';' :: spec_envString ps tl) ++ [NUL])).set
          (pre.length + p.1.length) NUL =
          pre ++ (p.1 ++ NUL :: (p.2 ++ ';' :: (spec_envString ps tl ++ [NUL]))) :=
        set_eq _ pre p.1 (p.2 ++ ';' :: (spec_envString ps tl ++ [NUL])) _ '=' NUL (by simp) rfl
      have h2 : strchrAt (pre ++ (p.1 ++ NUL :: (p.2 ++ ';' :: (spec_envString ps tl ++ [NUL]))))
          (pre.length + p.1.length + 1) ';' =
          some (some (pre.length + p.1.length + 1 + p.2.length)) := by
        rw [strchrAt_eq _ (pre ++ p.1 ++ [NUL]) (p.2 ++ ';' :: spec_envString ps tl) [] _ ';'
          (by simp) (by simp; omega) (by simp [hp4, hE']; decide), strchr_append _ _ _ hp3]
        rfl
      have hm2 : (pre ++ (p.1 ++ NUL :: (p.2 ++ ';' :: (spec_envString ps tl ++ [NUL])))).set
          (pre.length + p.1.length + 1 + p.2.length) NUL =
          pre ++ (p.1 ++ NUL :: (p.2 ++ NUL :: (spec_envString ps tl ++ [NUL]))) := by
        have := set_eq (pre ++ (p.1 ++ NUL :: (p.2 ++ ';' :: (spec_envString ps tl ++ [NUL]))))
          (pre ++ p.1 ++ [NUL]) p.2 (spec_envString ps tl ++ [NUL])
          (pre.length + p.1.length + 1 + p.2.length) ';' NUL (by simp) (by simp; omega)
        simpa [List.append_assoc] using this
      obtain ⟨m3, m4, pre2, t1, t2, t3, t4, t5, t6, t7⟩ :=
        two_trims pre p.1 p.2 (spec_envString ps tl ++ [NUL]) hp2 hp4 hgp
      rw [Command_setEnvString.loop]
      simp only [h1, hm1, h2, hm2, t1, t2, t3, t4, Option.some_bind]
      have hfuel' : ps.length < fuel := by simp at hfuel; omega
      have := ih tl fuel pre2 (Command_setEnv C (spec_trim p.1) (some (spec_trim p.2))) hfuel' hps' htl
        (fun _ _ => Or.inr (Or.inr t7))
      rw [t5, ← t6, this]
      rfl

theorem length_le_spec_envString (ps : List (CStr × CStr)) (tl : Option CStr) :
    ps.length ≤ (spec_envString ps tl).length := by
  induction ps with
  | nil => simp
  | cons p ps ih =>
    rw [spec_envString_cons]
    split
    · rename_i h
      have : ps = [] := by simp at h; exact h.1
      subst this
      simp; omega
    · simp; omega

/-- Outside the case of a blank first name, `Command_setEnvString` on the text
`n1=v1;...;nk=vk`, optionally followed by `;` and a fragment without `=`, is
the sequence of calls `Command_setEnv(spec_trim(ni), spec_trim(vi))`; a null or empty
string changes nothing. -/
theorem setEnvString_refines (vcat : CStr → CStr) (C : Command_T) (env : CStr)
    (ps : List (CStr × CStr)) (tl : Option CStr) (henv : env ≠ [])
    (hfmt : vcat env = spec_envString ps tl)
    (hps : ∀ p ∈ ps, '=' ∉ p.1 ∧ NUL ∉ p.1 ∧ ';' ∉ p.2 ∧ NUL ∉ p.2)
    (htl : ∀ f, tl = some f → '=' ∉ f ∧ NUL ∉ f)
    (hfirst : ∀ p, ps.head? = some p → p.1 = [] ∨ ∃ c ∈ p.1, isspace c = false) :
    Command_setEnvString vcat C (some env) = some (spec_setEnvPairs C ps) ∧
    Command_setEnvString vcat C none = some C ∧
    Command_setEnvString vcat C (some []) = some C := by
  refine ⟨?_, rfl, rfl⟩
  · have hloop := setEnvString_loop_spec ps tl ((spec_envString ps tl ++ [NUL]).length) [] C
      (by have := length_le_spec_envString ps tl; simp; omega) hps htl
      (fun p hp => by
        rcases hfirst p hp with h | h
        · exact Or.inl h
        · exact Or.inr (Or.inl h))
    simp only [Command_setEnvString, henv, if_false, hfmt]
    simpa using hloop

/-! ## Command: configuration errors -/

/-- C1: for every Command whose argument list is empty, `Command_execute`
raises AssertException and performs no step of the spawn protocol at all,
neither in the calling process (no pipe, no vfork, no handler call) nor in a
subprocess. -/
theorem C1_execute_without_program (os : OS) (C : Command_T) (h : C.args = []) :
    (Command_execute os C).outcome = .error .AssertException ∧
    (Command_execute os C).parent = [] ∧
    (Command_execute os C).child = [] := by
  simp [Command_execute, List_length, h]

/-- The guard of C1 is the only thing that keeps `Command_execute` from
spawning: with a program set and no handler the calling process does the vfork
and returns, and the subprocess reaches execve. -/
theorem execute_with_program_spawns :
    (Command_execute quietOS { Command_new with args := ["/bin/sh".toList] }).parent =
      [.vfork 100] ∧
    (Command_execute quietOS { Command_new with args := ["/bin/sh".toList] }).outcome =
      .ok () ∧
    (Command_execute quietOS { Command_new with args := ["/bin/sh".toList] }).child.getLast? =
      some (.execve (some "/bin/sh".toList) [some "/bin/sh".toList, none]
        [some Command_Path, none]) :=
  ⟨rfl, rfl, rfl⟩

theorem C1_execute_without_program_witness :
    Command_new.args = [] ∧
    ((Command_execute quietOS Command_new).outcome = .error .AssertException ∧
     (Command_execute quietOS Command_new).parent = [] ∧
     (Command_execute quietOS Command_new).child = []) :=
  ⟨rfl, C1_execute_without_program quietOS Command_new rfl⟩

/-- C2: for every Command and every path that does not exist as a file,
`Command_setCommand` raises AssertException and the Command after the call is
the Command before it, argument list and every other field; the call has no
step of the spawn protocol (its result carries only the Command and the
exception). -/
theorem C2_setCommand_missing_file (fs : FileSystem) (C : Command_T) (path : Option CStr)
    (xs : List CStr) (h : File_exist fs path = false) :
    Command_setCommand fs C path xs = (C, .error .AssertException) := by
  cases path with
  | none => rfl
  | some p => simp [Command_setCommand, h]

theorem C2_setCommand_missing_file_witness :
    File_exist emptyFS (some "/bin/nothing".toList) = false ∧
    Command_setCommand emptyFS abCommand (some "/bin/nothing".toList) ["-l".toList] =
      (abCommand, .error .AssertException) :=
  ⟨rfl, C2_setCommand_missing_file emptyFS abCommand (some "/bin/nothing".toList)
    ["-l".toList] rfl⟩

/-- C3: for every Command, every existing path and every argument sequence
`xs` (the arguments before the terminating NULL), `Command_setCommand` returns
normally, the argument list afterwards is `path` followed by `xs` in order
whatever it was before, nothing else of the Command changes, and the array
`getArray` builds from it for execve is those entries followed by one NULL. -/
theorem C3_setCommand_args (fs : FileSystem) (C : Command_T) (path : CStr) (xs : List CStr)
    (h : File_exist fs (some path) = true) :
    Command_setCommand fs C (some path) xs = ({ C with args := path :: xs }, .ok ()) ∧
    Command_getCommand (Command_setCommand fs C (some path) xs).1 = path :: xs ∧
    getArray (Command_getCommand (Command_setCommand fs C (some path) xs).1) =
      some path :: xs.map some ++ [none] ∧
    (getArray (Command_getCommand (Command_setCommand fs C (some path) xs).1)).length =
      xs.length + 2 := by
  have h1 : Command_setCommand fs C (some path) xs = ({ C with args := path :: xs }, .ok ()) := by
    simp [Command_setCommand, h, buildArgs_args]
  rw [h1]
  simp [Command_getCommand, getArray]

theorem C3_setCommand_args_witness :
    File_exist smallFS (some "/bin/sh".toList) = true ∧
    (Command_setCommand smallFS { Command_new with args := ["/bin/old".toList, "x".toList] }
        (some "/bin/sh".toList) ["-c".toList, "ls".toList] =
      ({ Command_new with args := ["/bin/sh".toList, "-c".toList, "ls".toList] }, .ok ()) ∧
     Command_getCommand (Command_setCommand smallFS
        { Command_new with args := ["/bin/old".toList, "x".toList] }
        (some "/bin/sh".toList) ["-c".toList, "ls".toList]).1 =
      ["/bin/sh".toList, "-c".toList, "ls".toList] ∧
     getArray (Command_getCommand (Command_setCommand smallFS
        { Command_new with args := ["/bin/old".toList, "x".toList] }
        (some "/bin/sh".toList) ["-c".toList, "ls".toList]).1) =
      some "/bin/sh".toList :: ["-c".toList, "ls".toList].map some ++ [none] ∧
     (getArray (Command_getCommand (Command_setCommand smallFS
        { Command_new with args := ["/bin/old".toList, "x".toList] }
        (some "/bin/sh".toList) ["-c".toList, "ls".toList]).1)).length =
      [("-c".toList : CStr), "ls".toList].length + 2) :=
  ⟨rfl, C3_setCommand_args smallFS { Command_new with args := ["/bin/old".toList, "x".toList] }
    "/bin/sh".toList ["-c".toList, "ls".toList] rfl⟩

/-! ## Command: the environment list -/

/-- C4: the code at a Command reached through the public interface.  After
`Command_setEnv("AB", "x")` and `Command_setEnv("ABC", "y")` on a new Command,
setting `A` twice leaves two entries named `A`: each call removed the first
entry that merely starts with `A` (first `AB=x`, then `ABC=y`), never the
entry `A=1`. -/
theorem C4_setEnv_twice_keeps_both :
    (Command_setEnv (Command_setEnv abCommand "A".toList (some "1".toList))
        "A".toList (some "2".toList)).env = [Command_Path, "A=1".toList, "A=2".toList] ∧
    ((Command_setEnv (Command_setEnv abCommand "A".toList (some "1".toList))
        "A".toList (some "2".toList)).env.filter (fun e => envName e == "A".toList)).length = 2 := by
  decide

/-- C5: the code at a new Command.  `Command_setEnv("PA", "x")` removes the
entry `PATH=...`, whose name `PATH` differs from `PA`: `findEnv` accepts any
entry that starts with the name. -/
theorem C5_setEnv_removes_other_name :
    envName Command_Path = "PATH".toList ∧
    Command_new.env = [Command_Path] ∧
    (Command_setEnv Command_new "PA".toList (some "x".toList)).env = ["PA=x".toList] := by
  decide

/-- C6: the code at a new Command.  No entry is named `PA`, yet
`Command_getEnv("PA")` returns the value of the `PATH` entry. -/
theorem C6_getEnv_returns_other_name :
    (Command_new.env.filter (fun e => envName e == "PA".toList)) = [] ∧
    Command_getEnv Command_new "PA".toList =
      some "/bin:/usr/bin:/usr/local/bin:/opt/csw/bin:/usr/sfw/bin".toList := by
  decide

/-- C7: the code at the string `" =x"`, whose first name is one blank.
`Str_rtrim` clears the blank and then reads `s[-1]`, the byte before the
buffer `Str_vcat` returned: the call has no defined result, where the claim
gives the state after `Command_setEnv("", "x")`. -/
theorem C7_setEnvString_blank_first_name :
    Str_rtrim [' ', NUL, 'x', NUL] 0 = none ∧
    Command_setEnvString (fun s => s) Command_new (some " =x".toList) = none := by
  decide

/-- C8: the code at the string `"AB=1;A=2"` on a new Command.  The names `AB`
and `A` are distinct, non-empty and free of `=`, `;` and white space; setting
`A` removes the entry `AB=1`, so `Command_getEnv("AB")` returns NULL, not
`1`. -/
theorem C8_setEnvString_prefix_name :
    (Command_setEnvString (fun s => s) Command_new (some "AB=1;A=2".toList)).map
        (fun C => (C.env, Command_getEnv C "AB".toList, Command_getEnv C "A".toList)) =
      some ([Command_Path, "A=2".toList], none, some "2".toList) := by
  decide

/-- The two examples of the specification hold: `"A=1;B=2"` yields `1` for `A`
and `2` for `B`, and `"A=1;B="` yields the empty string for `B`. -/
theorem setEnvString_examples :
    (Command_setEnvString (fun s => s) Command_new (some "A=1;B=2".toList)).map
        (fun C => (Command_getEnv C "A".toList, Command_getEnv C "B".toList)) =
      some (some "1".toList, some "2".toList) ∧
    (Command_setEnvString (fun s => s) Command_new (some "A=1;B=".toList)).map
        (fun C => (Command_getEnv C "A".toList, Command_getEnv C "B".toList)) =
      some (some "1".toList, some []) := by
  decide

/-! ## Command: creation and working directory -/

/-- C9: `Command_new` returns a Command whose environment list is the single
entry `Command_Path`, that is `PATH=/bin:/usr/bin:/usr/local/bin:/opt/csw/bin:/usr/sfw/bin`,
whose argument list is empty, whose working directory is unset, whose uid, gid
and timeout are 0 and which has no onExec and no onTimeout handler.  It takes
no argument: nothing of the environment of the caller can be in it. -/
theorem C9_Command_new :
    Command_new.env = [Command_Path] ∧
    Command_Path = "PATH=/bin:/usr/bin:/usr/local/bin:/opt/csw/bin:/usr/sfw/bin".toList ∧
    Command_getCommand Command_new = [] ∧
    Command_getDir Command_new = none ∧
    Command_getUid Command_new = 0 ∧
    Command_getGid Command_new = 0 ∧
    Command_getTimeout Command_new = 0 ∧
    Command_new.onExec = none ∧
    Command_new.onTimeout = none :=
  ⟨rfl, rfl, rfl, rfl, rfl, rfl, rfl, rfl, rfl⟩

/-- C10: `Command_setDir(dir)` raises AssertException exactly when `dir` is
non-null and is not a directory or is not accessible.  When it raises, the
Command (so the stored working directory) is unchanged; when it returns, only
the working directory changes and `Command_getDir` returns the copy that was
stored, `dir` without its trailing separator, and none for a null `dir`;
`Command_setDir(null)` always returns normally. -/
theorem C10_setDir (fs : FileSystem) (C : Command_T) (dir : Option CStr) :
    ((Command_setDir fs C dir).2 = .error .AssertException ↔
      ∃ d, dir = some d ∧ (fs.isDirectory d = false ∨ fs.isExecutable d = false)) ∧
    (((Command_setDir fs C dir).2 = .error .AssertException ∧ (Command_setDir fs C dir).1 = C) ∨
     ((Command_setDir fs C dir).2 = .ok () ∧
      (Command_setDir fs C dir).1 =
        { C with working_directory := dir.map fs.removeTrailingSeparator } ∧
      Command_getDir (Command_setDir fs C dir).1 = dir.map fs.removeTrailingSeparator)) ∧
    (Command_setDir fs C none).2 = .ok () ∧
    Command_getDir (Command_setDir fs C none).1 = none := by
  refine ⟨?_, ?_, rfl, rfl⟩
  · cases dir with
    | none => simp [Command_setDir]
    | some d =>
      cases h1 : fs.isDirectory d <;> cases h2 : fs.isExecutable d <;>
        simp [Command_setDir, h1, h2]
  · cases dir with
    | none => right; simp [Command_setDir, Command_getDir]
    | some d =>
      cases h1 : fs.isDirectory d <;> cases h2 : fs.isExecutable d <;>
        simp [Command_setDir, Command_getDir, h1, h2]

/-! ## Lemmas on the setters -/

theorem Command_setEnv_frame (C : Command_T) (name : CStr) (value : Option CStr) :
    Command_setEnv C name value = { C with env := (Command_setEnv C name value).env } := by
  simp only [Command_setEnv, removeEnv]
  split <;> rfl

theorem setEnvString_loop_frame (fuel : Nat) :
    ∀ (m : Mem) (n : Nat) (C C' : Command_T),
      Command_setEnvString.loop fuel m n C = some C' → C' = { C with env := C'.env } := by
  induction fuel with
  | zero => intro m n C C' h; simp [Command_setEnvString.loop] at h
  | succ fuel ih =>
    intro m n C C' h
    rw [Command_setEnvString.loop] at h
    split at h
    · simp at h
    · simp at h; rw [← h]
    · rename_i v0 _
      dsimp only at h
      split at h
      · simp at h
      · rename_i t0 _
        simp only [Option.bind_eq_some] at h
        obtain ⟨m3, _, m4, _, name, _, value, _, h⟩ := h
        have hf := Command_setEnv_frame C name (some value)
        cases t0 with
        | none =>
          simp only [Option.some.injEq] at h
          rw [← h]
          exact hf
        | some t =>
          simp only at h
          have := ih _ _ _ _ h
          rw [this, hf]

theorem setEnvString_loop_timeout (fuel : Nat) (m : Mem) (n : Nat) (C C' : Command_T)
    (h : Command_setEnvString.loop fuel m n C = some C') : C'.timeout = C.timeout := by
  rw [setEnvString_loop_frame fuel m n C C' h]

theorem Setter_call_timeout (fs : FileSystem) (vcat : CStr → CStr) (C C' : Command_T)
    (s : Setter) (hs : s.isSetOnTimeout = false) (h : Setter.call fs vcat C s = some C') :
    C'.timeout = C.timeout := by
  cases s with
  | setUid uid => simp [Setter.call, Command_setUid] at h; rw [← h]
  | setGid gid => simp [Setter.call, Command_setGid] at h; rw [← h]
  | setDir dir =>
    simp [Setter.call] at h; rw [← h]
    cases dir with
    | none => rfl
    | some d => simp only [Command_setDir]; split_ifs <;> rfl
  | setEnv name value =>
    simp [Setter.call] at h; rw [← h]
    simp [Command_setEnv, removeEnv]
    split <;> rfl
  | setEnvString env =>
    simp only [Setter.call] at h
    cases env with
    | none => simp [Command_setEnvString] at h; rw [← h]
    | some e =>
      by_cases he : e = []
      · simp [Command_setEnvString, he] at h; rw [← h]
      · simp only [Command_setEnvString, he, if_false] at h
        exact setEnvString_loop_timeout _ _ _ _ _ h
  | setCommand path xs =>
    simp [Setter.call] at h; rw [← h]
    cases path with
    | none => rfl
    | some p => simp only [Command_setCommand]; split_ifs <;> simp [buildArgs_args]
  | setOnExec onExec ap =>
    simp [Setter.call] at h; rw [← h]
    cases onExec <;> rfl
  | setOnTimeout t f ap => simp [Setter.isSetOnTimeout] at hs

theorem Setter_callAll_timeout (fs : FileSystem) (vcat : CStr → CStr) (ss : List Setter) :
    ∀ (C C' : Command_T), (∀ s ∈ ss, s.isSetOnTimeout = false) →
      Setter.callAll fs vcat ss C = some C' → C'.timeout = C.timeout := by
  induction ss with
  | nil => intro C C' _ h; simp [Setter.callAll] at h; rw [h]
  | cons s ss ih =>
    intro C C' hs h
    simp only [Setter.callAll] at h
    cases h1 : Setter.call fs vcat C s with
    | none => simp [h1] at h
    | some C1 =>
      simp only [h1, Option.some_bind] at h
      rw [ih C1 C' (fun t ht => hs t (by simp [ht])) h,
        Setter_call_timeout fs vcat C C1 s (hs s (by simp)) h1]


/-! ## Lemmas on the spawn protocol -/

theorem not_handler_of_pipe (e : Event) (h : e.isPipe = true ∨ e.isPoll = true ∨
    e.isSleep = true ∨ e.isFreeStream = true) :
    e.isOnExec = false ∧ e.isOnTimeout = false := by
  cases e <;> simp_all [Event.isPipe, Event.isPoll, Event.isSleep, Event.isFreeStream,
    Event.isOnExec, Event.isOnTimeout]

theorem wait_events (os : OS) (T : Nat) :
    ∀ k, ∀ e ∈ (Execute.wait os T k).1, e.isPoll = true ∨ e.isSleep = true := by
  induction T with
  | zero => intro k e he; simp [Execute.wait] at he; subst he; left; rfl
  | succ T ih =>
    intro k e he
    rw [Execute.wait] at he
    split at he
    · simp only [List.mem_cons] at he
      rcases he with he | he | he
      · subst he; left; rfl
      · subst he; right; rfl
      · exact ih (k + 1) e he
    · simp at he; subst he; left; rfl

theorem wait_alive (os : OS) (T : Nat) :
    ∀ k, (∀ j, j ≤ T → (os.waitpid (k + j)).1 = 0) → (Execute.wait os T k).2.1 = 0 := by
  induction T with
  | zero => intro k h; simpa [Execute.wait] using h 0 (le_refl _)
  | succ T ih =>
    intro k h
    have h0 : (os.waitpid k).1 = 0 := by simpa using h 0 (Nat.zero_le _)
    rw [Execute.wait]
    simp only [h0, if_true]
    apply ih (k + 1)
    intro j hj
    have := h (j + 1) (by omega)
    rwa [show k + (j + 1) = k + 1 + j by omega] at this

theorem wait_exited (os : OS) (T : Nat) :
    ∀ k, (∃ j, j ≤ T ∧ (os.waitpid (k + j)).1 ≠ 0) → (Execute.wait os T k).2.1 ≠ 0 := by
  induction T with
  | zero =>
    intro k ⟨j, hj, h⟩
    have : j = 0 := by omega
    subst this
    simpa [Execute.wait] using h
  | succ T ih =>
    intro k ⟨j, hj, h⟩
    rw [Execute.wait]
    by_cases h0 : (os.waitpid k).1 = 0
    · simp only [h0, if_true]
      apply ih (k + 1)
      cases j with
      | zero => exact absurd h0 (by simpa using h)
      | succ j =>
        refine ⟨j, by omega, ?_⟩
        rwa [show k + 1 + j = k + (j + 1) by omega]
    · simp [h0]

theorem wait_countP_onTimeout (os : OS) (T k : Nat) :
    (Execute.wait os T k).1.countP Event.isOnTimeout = 0 := by
  apply List.countP_eq_zero.2
  intro e he
  rcases wait_events os T k e he with h | h
  · simp [(not_handler_of_pipe e (Or.inr (Or.inl h))).2]
  · simp [(not_handler_of_pipe e (Or.inr (Or.inr (Or.inl h)))).2]

theorem closeStreams_events (P : Process_T) :
    ∀ e ∈ (closeStreams P).2, e.isFreeStream = true := by
  intro e he
  simp only [closeStreams, List.mem_append] at he
  rcases he with (he | he) | he
  · split at he <;> simp at he; subst he; rfl
  · split at he <;> simp at he; subst he; rfl
  · split at he <;> simp at he; subst he; rfl

theorem closeStreams_process (P : Process_T) :
    (closeStreams P).1.in_ = none ∧ (closeStreams P).1.err = none ∧
      (closeStreams P).1.out = none :=
  ⟨rfl, rfl, rfl⟩

theorem ProcessCall_run_pipes (P : Process_T) (c : ProcessCall) :
    (c.run P).stdin_pipe = P.stdin_pipe ∧ (c.run P).stdout_pipe = P.stdout_pipe ∧
      (c.run P).stderr_pipe = P.stderr_pipe := by
  cases c
  · simp only [ProcessCall.run, Process_getOutStream]; split <;> simp
  · simp only [ProcessCall.run, Process_getInputStream]; split <;> simp
  · simp only [ProcessCall.run, Process_getErrorStream]; split <;> simp

theorem callHandler_pipes (os : OS) (fn : Nat) (ap : Option Nat) (P : Process_T)
    (C : Command_T) :
    (callHandler os fn ap P C).1.stdin_pipe = P.stdin_pipe ∧
      (callHandler os fn ap P C).1.stdout_pipe = P.stdout_pipe ∧
      (callHandler os fn ap P C).1.stderr_pipe = P.stderr_pipe := by
  simp only [callHandler]
  generalize (os.handler fn ap P C).1 = calls
  induction calls generalizing P with
  | nil => simp
  | cons c calls ih =>
    simp only [List.foldl_cons]
    have h1 := ih (c.run P)
    have h2 := ProcessCall_run_pipes P c
    exact ⟨h1.1.trans h2.1, h1.2.1.trans h2.2.1, h1.2.2.trans h2.2.2⟩

/-- The steps of `Execute.handlers`: the onExec call if that handler is
registered, then nothing, or the polls and sleeps of the wait loop, followed or
not by the onTimeout call. -/
theorem handlers_trace (os : OS) (C : Command_T) (P : Process_T) :
    ∃ ex w tmo, (Execute.handlers os C P).2.2 = ex ++ (w ++ tmo) ∧
      ((C.onExec = none ∧ ex = []) ∨ ∃ f, C.onExec = some f ∧ ex = [.onExec f C.onExecAp]) ∧
      (∀ e ∈ w, e.isPoll = true ∨ e.isSleep = true) ∧
      (tmo = [] ∨ ∃ g ap, tmo = [.onTimeout g ap]) := by
  cases hx : C.onExec with
  | none =>
    cases ht : C.onTimeout with
    | none =>
      exact ⟨[], [], [], by simp [Execute.handlers, hx, ht], Or.inl ⟨rfl, rfl⟩, by simp,
        Or.inl rfl⟩
    | some g =>
      by_cases hw : (Execute.wait os C.timeout.toNat 0).2.1 = 0
      · exact ⟨[], (Execute.wait os C.timeout.toNat 0).1, [.onTimeout g C.onTimeoutAp],
          by simp [Execute.handlers, hx, ht, hw], Or.inl ⟨rfl, rfl⟩, wait_events os _ 0,
          Or.inr ⟨_, _, rfl⟩⟩
      · exact ⟨[], (Execute.wait os C.timeout.toNat 0).1, [],
          by simp [Execute.handlers, hx, ht, hw], Or.inl ⟨rfl, rfl⟩, wait_events os _ 0,
          Or.inl rfl⟩
  | some f =>
    cases ht : (callHandler os f C.onExecAp P C).2.onTimeout with
    | none =>
      exact ⟨[.onExec f C.onExecAp], [], [], by simp [Execute.handlers, hx, ht],
        Or.inr ⟨f, rfl, rfl⟩, by simp, Or.inl rfl⟩
    | some g =>
      by_cases hw : (Execute.wait os (callHandler os f C.onExecAp P C).2.timeout.toNat 0).2.1 = 0
      · exact ⟨[.onExec f C.onExecAp],
          (Execute.wait os (callHandler os f C.onExecAp P C).2.timeout.toNat 0).1,
          [.onTimeout g (callHandler os f C.onExecAp P C).2.onTimeoutAp],
          by simp [Execute.handlers, hx, ht, hw], Or.inr ⟨f, rfl, rfl⟩, wait_events os _ 0,
          Or.inr ⟨_, _, rfl⟩⟩
      · exact ⟨[.onExec f C.onExecAp],
          (Execute.wait os (callHandler os f C.onExecAp P C).2.timeout.toNat 0).1, [],
          by simp [Execute.handlers, hx, ht, hw], Or.inr ⟨f, rfl, rfl⟩, wait_events os _ 0,
          Or.inl rfl⟩

theorem handlers_events (os : OS) (C : Command_T) (P : Process_T) :
    ∀ e ∈ (Execute.handlers os C P).2.2,
      e.isOnExec = true ∨ e.isOnTimeout = true ∨ e.isPoll = true ∨ e.isSleep = true := by
  obtain ⟨ex, w, tmo, htr, hex, hw, htmo⟩ := handlers_trace os C P
  intro e he
  rw [htr] at he
  simp only [List.mem_append] at he
  rcases he with he | he | he
  · rcases hex with ⟨_, h⟩ | ⟨f, _, h⟩
    · rw [h] at he; simp at he
    · rw [h] at he; simp at he; subst he; left; rfl
  · rcases hw e he with h | h
    · right; right; left; exact h
    · right; right; right; exact h
  · rcases htmo with h | ⟨g, ap, h⟩
    · rw [h] at he; simp at he
    · rw [h] at he; simp at he; subst he; right; left; rfl

theorem handlers_pipes (os : OS) (C : Command_T) (P : Process_T) :
    (Execute.handlers os C P).1.stdin_pipe = P.stdin_pipe ∧
      (Execute.handlers os C P).1.stdout_pipe = P.stdout_pipe ∧
      (Execute.handlers os C P).1.stderr_pipe = P.stderr_pipe := by
  simp only [Execute.handlers]
  cases hx : C.onExec with
  | none =>
    cases ht : C.onTimeout with
    | none => simp
    | some g =>
      simp only
      split
      · have := callHandler_pipes os g C.onTimeoutAp
          { P with status := (Execute.wait os C.timeout.toNat 0).2.2 } C
        simpa using this
      · simp
  | some f =>
    have h1 := callHandler_pipes os f C.onExecAp P C
    cases ht : (callHandler os f C.onExecAp P C).2.onTimeout with
    | none => simpa using h1
    | some g =>
      simp only
      split
      · have h2 := callHandler_pipes os g (callHandler os f C.onExecAp P C).2.onTimeoutAp
          { (callHandler os f C.onExecAp P C).1 with
            status := (Execute.wait os (callHandler os f C.onExecAp P C).2.timeout.toNat 0).2.2 }
          (callHandler os f C.onExecAp P C).2
        simp only at h2
        exact ⟨h2.1.trans h1.1, h2.2.1.trans h1.2.1, h2.2.2.trans h1.2.2⟩
      · simpa using h1

theorem handlers_none (os : OS) (C : Command_T) (P : Process_T)
    (hx : C.onExec = none) (ht : C.onTimeout = none) :
    Execute.handlers os C P = (P, C, []) := by
  simp [Execute.handlers, hx, ht]

theorem handlers_command (os : OS) (C : Command_T) (P : Process_T)
    (hkeep : ∀ fn ap P C', (os.handler fn ap P C').2 = C') :
    (Execute.handlers os C P).2.1 = C := by
  cases hx : C.onExec with
  | none =>
    cases ht : C.onTimeout with
    | none => simp [Execute.handlers, hx, ht]
    | some g =>
      simp only [Execute.handlers, hx, ht]
      split <;> simp [callHandler, hkeep]
  | some f =>
    cases ht : C.onTimeout with
    | none => simp [Execute.handlers, hx, ht, callHandler, hkeep]
    | some g =>
      simp only [Execute.handlers, hx, callHandler, hkeep, ht]
      split <;> simp

theorem handlers_command_of_no_call (os : OS) (C : Command_T) (P : Process_T)
    (h1 : (Execute.handlers os C P).2.2.countP Event.isOnExec = 0)
    (h2 : (Execute.handlers os C P).2.2.countP Event.isOnTimeout = 0) :
    (Execute.handlers os C P).2.1 = C := by
  cases hx : C.onExec with
  | none =>
    cases ht : C.onTimeout with
    | none => simp [Execute.handlers, hx, ht]
    | some g =>
      by_cases hw : (Execute.wait os C.timeout.toNat 0).2.1 = 0
      · simp [Execute.handlers, hx, ht, hw, List.countP_append, Event.isOnTimeout] at h2
      · simp [Execute.handlers, hx, ht, hw]
  | some f =>
    simp [Execute.handlers, hx, List.countP_cons, Event.isOnExec] at h1

/-- The number of onTimeout calls among the steps of `Execute.handlers` when
onTimeout is registered and the onExec handler leaves the Command as it is:
one if the wait loop ends with the child still running, none otherwise. -/
theorem handlers_countP_onTimeout (os : OS) (C : Command_T) (P : Process_T) (g : Nat)
    (ht : C.onTimeout = some g)
    (hexec : ∀ f, C.onExec = some f → (callHandler os f C.onExecAp P C).2 = C) :
    (Execute.handlers os C P).2.2.countP Event.isOnTimeout =
      if (Execute.wait os C.timeout.toNat 0).2.1 = 0 then 1 else 0 := by
  cases hx : C.onExec with
  | none =>
    by_cases hw : (Execute.wait os C.timeout.toNat 0).2.1 = 0
    · simp [Execute.handlers, hx, ht, hw, List.countP_append, wait_countP_onTimeout,
        Event.isOnTimeout]
    · simp [Execute.handlers, hx, ht, hw, wait_countP_onTimeout]
  | some f =>
    have hC := hexec f hx
    by_cases hw : (Execute.wait os C.timeout.toNat 0).2.1 = 0
    · simp [Execute.handlers, hx, hC, ht, hw, List.countP_append, List.countP_cons,
        wait_countP_onTimeout, Event.isOnTimeout]
    · simp [Execute.handlers, hx, hC, ht, hw, List.countP_cons, wait_countP_onTimeout,
        Event.isOnTimeout]

theorem createPipes_cases (os : OS) (P : Process_T) :
    (∃ p0 p1 p2, os.pipe 0 = some p0 ∧ os.pipe 1 = some p1 ∧ os.pipe 2 = some p2 ∧
      createPipes os P =
        ({ P with stdin_pipe := p0, stdout_pipe := p1, stderr_pipe := p2 },
         [.pipe 0 true, .pipe 1 true, .pipe 2 true], .ok ())) ∨
    ((createPipes os P).2.2 = .error .AssertException ∧
      (os.pipe 0 = none ∨ os.pipe 1 = none ∨ os.pipe 2 = none) ∧
      ∀ e ∈ (createPipes os P).2.1, e.isPipe = true) := by
  cases h0 : os.pipe 0 with
  | none => right; simp [createPipes, h0, Event.isPipe]
  | some p0 =>
    cases h1 : os.pipe 1 with
    | none => right; simp [createPipes, h0, h1, Event.isPipe]
    | some p1 =>
      cases h2 : os.pipe 2 with
      | none => right; simp [createPipes, h0, h1, h2, Event.isPipe]
      | some p2 => left; exact ⟨p0, p1, p2, rfl, rfl, rfl, by simp [createPipes, h0, h1, h2]⟩

theorem child_process (os : OS) (C : Command_T) (hh : Bool) (P : Process_T) :
    ∃ uid gid, (Execute.child os C hh P).1 = { P with uid := uid, gid := gid } := by
  simp only [Execute.child]
  split_ifs <;> exact ⟨_, _, rfl⟩

theorem openNull_ok (os : OS) (h0 : os.openNull 0 = 0) (h1 : os.openNull 1 = 1)
    (h2 : os.openNull 2 = 2) :
    Execute.openNull os 3 0 =
      ([.close 0, .openNull 0, .close 1, .openNull 1, .close 2, .openNull 2], true) := by
  simp [Execute.openNull, h0, h1, h2]

/-- The steps of the child up to `setsid` when the change of directory, if one
is configured, succeeds: chdir, then setuid if a uid is configured, then
setgid if a gid is configured, then setsid; and the uid and gid the child
stores in the Process. -/
theorem child_trace (os : OS) (C : Command_T) (hh : Bool) (P : Process_T)
    (hcd : ∀ d, C.working_directory = some d → os.chdir d = true) :
    (Execute.child os C hh P).1 =
      { P with
        uid := if C.uid ≠ 0 ∧ os.setuid C.uid = true then C.uid else os.getuid,
        gid := if C.gid ≠ 0 ∧ os.setgid C.gid = true then C.gid else os.getgid } ∧
    (Execute.child os C hh P).2 =
      (match C.working_directory with
        | some d => [Event.chdir d true]
        | none => []) ++
      ((if C.uid ≠ 0 then [Event.setuid C.uid (os.setuid C.uid)] else []) ++
      ((if C.gid ≠ 0 then [Event.setgid C.gid (os.setgid C.gid)] else []) ++
      (Event.setsid ::
        (if hh = true then
          setupChildPipes os { P with
            uid := if C.uid ≠ 0 ∧ os.setuid C.uid = true then C.uid else os.getuid,
            gid := if C.gid ≠ 0 ∧ os.setgid C.gid = true then C.gid else os.getgid } ++
            Execute.exec os C
         else if (Execute.openNull os 3 0).2 = true then
          (Execute.openNull os 3 0).1 ++ Execute.exec os C
         else (Execute.openNull os 3 0).1)))) := by
  cases hd : C.working_directory with
  | none =>
    by_cases hu : C.uid = 0 <;> by_cases hg : C.gid = 0 <;> cases hh <;>
      by_cases hn : (Execute.openNull os 3 0).2 = true <;>
      simp [Execute.child, hd, hu, hg, hn]
  | some d =>
    have := hcd d hd
    by_cases hu : C.uid = 0 <;> by_cases hg : C.gid = 0 <;> cases hh <;>
      by_cases hn : (Execute.openNull os 3 0).2 = true <;>
      simp [Execute.child, hd, this, hu, hg, hn]

theorem exec_has_execve (os : OS) (C : Command_T) :
    ∃ e ∈ Execute.exec os C, e.isExecve = true :=
  ⟨.execve ((getArray C.args).headD none) (getArray C.args) (getArray C.env),
    by simp [Execute.exec], rfl⟩

/-- The run of `Execute` for a Command with a handler when the three pipes are
created and vfork succeeds. -/
theorem Execute_with_handlers (os : OS) (C : Command_T) (p0 p1 p2 : Int × Int)
    (hh : (C.onExec.isSome || C.onTimeout.isSome) = true)
    (h0 : os.pipe 0 = some p0) (h1 : os.pipe 1 = some p1) (h2 : os.pipe 2 = some p2)
    (hv : ¬ os.vfork < 0) :
    ∃ P : Process_T, P.stdin_pipe = p0 ∧ P.stdout_pipe = p1 ∧ P.stderr_pipe = p2 ∧
      (Execute os C).spawned = some P ∧
      (Execute os C).outcome = .ok () ∧
      (Execute os C).command = (Execute.handlers os C P).2.1 ∧
      (Execute os C).process = (closeStreams (Execute.handlers os C P).1).1 ∧
      (Execute os C).parent =
        [.pipe 0 true, .pipe 1 true, .pipe 2 true, .vfork os.vfork] ++
          (setupParentPipes P ++ ((Execute.handlers os C P).2.2 ++
            (closeParentPipes P ++ (closeStreams (Execute.handlers os C P).1).2))) := by
  have hc : createPipes os Process_zero =
      ({ Process_zero with stdin_pipe := p0, stdout_pipe := p1, stderr_pipe := p2 },
       [.pipe 0 true, .pipe 1 true, .pipe 2 true], .ok ()) := by
    simp [createPipes, h0, h1, h2]
  have hpipes := handlers_pipes os C
  refine ⟨{ (Execute.child os C true
      { ({ Process_zero with stdin_pipe := p0, stdout_pipe := p1, stderr_pipe := p2 } : Process_T)
        with pid := 0 }).1 with pid := os.vfork }, ?_, ?_, ?_, ?_, ?_, ?_, ?_, ?_⟩
  · obtain ⟨u, g, hc⟩ := child_process os C true
      { ({ Process_zero with stdin_pipe := p0, stdout_pipe := p1, stderr_pipe := p2 } : Process_T)
        with pid := 0 }
    rw [hc]
  · obtain ⟨u, g, hc⟩ := child_process os C true
      { ({ Process_zero with stdin_pipe := p0, stdout_pipe := p1, stderr_pipe := p2 } : Process_T)
        with pid := 0 }
    rw [hc]
  · obtain ⟨u, g, hc⟩ := child_process os C true
      { ({ Process_zero with stdin_pipe := p0, stdout_pipe := p1, stderr_pipe := p2 } : Process_T)
        with pid := 0 }
    rw [hc]
  · simp [Execute, hh, hc, hv]
  · simp [Execute, hh, hc, hv]
  · simp [Execute, hh, hc, hv, Execute.parent]
  · simp [Execute, hh, hc, hv, Execute.parent]
  · simp only [Execute, hh, hc, hv, Execute.parent, if_true, if_false]
    simp only [closeParentPipes, (hpipes _).1, (hpipes _).2.1, (hpipes _).2.2]
    simp [List.append_assoc]

/-- The run of `Execute` when a pipe cannot be created or vfork fails: an
AssertException, no subprocess, and only `pipe` and `vfork` steps. -/
theorem Execute_failed (os : OS) (C : Command_T)
    (h : ((C.onExec.isSome || C.onTimeout.isSome) = true ∧
        (os.pipe 0 = none ∨ os.pipe 1 = none ∨ os.pipe 2 = none)) ∨ os.vfork < 0) :
    (Execute os C).outcome = .error .AssertException ∧ (Execute os C).child = [] ∧
      (Execute os C).command = C ∧ (Execute os C).spawned = none ∧
      (∀ e ∈ (Execute os C).parent, e.isPipe = true ∨ e = .vfork os.vfork) ∧
      (∀ l1 l2, (Execute os C).parent = l1 ++ .vfork os.vfork :: l2 →
        l2 = [] ∧ ((C.onExec.isSome || C.onTimeout.isSome) = true →
          l1 = [.pipe 0 true, .pipe 1 true, .pipe 2 true])) := by
  by_cases hh : (C.onExec.isSome || C.onTimeout.isSome) = true
  · rcases createPipes_cases os Process_zero with ⟨p0, p1, p2, h0, h1, h2, hc⟩ | ⟨he, hn, hev⟩
    · have hv : os.vfork < 0 := by
        rcases h with ⟨_, hn⟩ | hv
        · simp [h0, h1, h2] at hn
        · exact hv
      refine ⟨?_, ?_, ?_, ?_, ?_, ?_⟩
      · simp [Execute, hh, hc, hv]
      · simp [Execute, hh, hc, hv]
      · simp [Execute, hh, hc, hv]
      · simp [Execute, hh, hc, hv]
      · simp [Execute, hh, hc, hv, Event.isPipe]
      · intro l1 l2 hl
        have hp : (Execute os C).parent =
            [.pipe 0 true, .pipe 1 true, .pipe 2 true] ++ .vfork os.vfork :: [] := by
          simp [Execute, hh, hc, hv]
        rw [hp] at hl
        have hnot : Event.vfork os.vfork ∉ [Event.pipe 0 true, .pipe 1 true, .pipe 2 true] := by
          simp
        rcases List.append_eq_append_iff.1 hl with ⟨a, ha, hb⟩ | ⟨a, ha, hb⟩
        · cases a with
          | nil => simp at hb; simp [ha, hb]
          | cons x a => simp at hb
        · cases a with
          | nil => simp at hb; simp at ha; simp [ha, hb]
          | cons x a =>
            simp at hb
            obtain ⟨hx, hb⟩ := hb
            subst hx
            have : Event.vfork os.vfork ∈ [Event.pipe 0 true, .pipe 1 true, .pipe 2 true] := by
              rw [ha]; simp
            exact absurd this hnot
    · have hex : Execute os C =
          { parent := (createPipes os Process_zero).2.1, child := [],
            outcome := .error .AssertException, command := C, spawned := none,
            process := (createPipes os Process_zero).1 } := by
        simp only [Execute, hh, if_true]
        split
        · rfl
        · rename_i heq
          rw [he] at heq
          cases heq
      rw [hex]
      refine ⟨rfl, rfl, rfl, rfl, fun e h => Or.inl (hev e h), ?_⟩
      intro l1 l2 hl
      have : Event.vfork os.vfork ∈ (createPipes os Process_zero).2.1 := by
        simp only at hl
        rw [hl]; simp
      have := hev _ this
      simp [Event.isPipe] at this
  · have hv : os.vfork < 0 := by
      rcases h with ⟨h, _⟩ | hv
      · exact absurd h hh
      · exact hv
    have hh' : (C.onExec.isSome || C.onTimeout.isSome) = false := by
      cases h : (C.onExec.isSome || C.onTimeout.isSome)
      · rfl
      · exact absurd h hh
    refine ⟨?_, ?_, ?_, ?_, ?_, ?_⟩
    · simp [Execute, hh', hv]
    · simp [Execute, hh', hv]
    · simp [Execute, hh', hv]
    · simp [Execute, hh', hv]
    · simp [Execute, hh', hv]
    · intro l1 l2 hl
      have hp : (Execute os C).parent = [] ++ .vfork os.vfork :: [] := by
        simp [Execute, hh', hv]
      rw [hp] at hl
      cases l1 with
      | nil => simp at hl; exact ⟨hl, fun h => absurd h hh⟩
      | cons x l1 => simp at hl

/-- The run of `Execute` for a Command without handler when vfork succeeds. -/
theorem Execute_without_handlers (os : OS) (C : Command_T)
    (hx : C.onExec = none) (ht : C.onTimeout = none) (hv : ¬ os.vfork < 0) :
    (Execute os C).parent = [.vfork os.vfork] ∧
      (Execute os C).outcome = .ok () ∧
      (Execute os C).command = C ∧
      (Execute os C).child = (Execute.child os C false Process_zero).2 ∧
      (Execute os C).spawned =
        some { (Execute.child os C false Process_zero).1 with pid := os.vfork } := by
  have hz : ({ Process_zero with pid := 0 } : Process_T) = Process_zero := rfl
  simp [Execute, hx, ht, hv, Execute.parent, handlers_none, hz]

theorem Execute_trichotomy (os : OS) (C : Command_T) :
    ((((C.onExec.isSome || C.onTimeout.isSome) = true ∧
        (os.pipe 0 = none ∨ os.pipe 1 = none ∨ os.pipe 2 = none)) ∨ os.vfork < 0)) ∨
    ((C.onExec.isSome || C.onTimeout.isSome) = true ∧ ¬ os.vfork < 0 ∧
      ∃ p0 p1 p2, os.pipe 0 = some p0 ∧ os.pipe 1 = some p1 ∧ os.pipe 2 = some p2) ∨
    (C.onExec = none ∧ C.onTimeout = none ∧ ¬ os.vfork < 0) := by
  by_cases hv : os.vfork < 0
  · exact Or.inl (Or.inr hv)
  · cases hx : C.onExec with
    | none =>
      cases ht : C.onTimeout with
      | none => exact Or.inr (Or.inr ⟨rfl, rfl, hv⟩)
      | some g =>
        rcases createPipes_cases os Process_zero with ⟨p0, p1, p2, h0, h1, h2, _⟩ | ⟨_, hn, _⟩
        · exact Or.inr (Or.inl ⟨by simp, hv, p0, p1, p2, h0, h1, h2⟩)
        · exact Or.inl (Or.inl ⟨by simp, hn⟩)
    | some f =>
      rcases createPipes_cases os Process_zero with ⟨p0, p1, p2, h0, h1, h2, _⟩ | ⟨_, hn, _⟩
      · exact Or.inr (Or.inl ⟨by simp, hv, p0, p1, p2, h0, h1, h2⟩)
      · exact Or.inl (Or.inl ⟨by simp, hn⟩)

theorem Execute_spawned (os : OS) (C : Command_T) (P : Process_T)
    (hs : (Execute os C).spawned = some P) :
    ∃ P0, P = { (Execute.child os C (C.onExec.isSome || C.onTimeout.isSome) P0).1 with
        pid := os.vfork } ∧
      (Execute os C).child =
        (Execute.child os C (C.onExec.isSome || C.onTimeout.isSome) P0).2 := by
  rcases Execute_trichotomy os C with h | ⟨hh, hv, p0, p1, p2, h0, h1, h2⟩ | ⟨hx, ht, hv⟩
  · rw [(Execute_failed os C h).2.2.2.1] at hs
    cases hs
  · have hc : createPipes os Process_zero =
        ({ Process_zero with stdin_pipe := p0, stdout_pipe := p1, stderr_pipe := p2 },
         [.pipe 0 true, .pipe 1 true, .pipe 2 true], .ok ()) := by
      simp [createPipes, h0, h1, h2]
    refine ⟨{ ({ Process_zero with stdin_pipe := p0, stdout_pipe := p1, stderr_pipe := p2 } :
      Process_T) with pid := 0 }, ?_, ?_⟩
    · have : (Execute os C).spawned = some { (Execute.child os C true
          { ({ Process_zero with stdin_pipe := p0, stdout_pipe := p1, stderr_pipe := p2 } :
            Process_T) with pid := 0 }).1 with pid := os.vfork } := by
        simp [Execute, hh, hc, hv]
      rw [this] at hs
      rw [hh]
      exact (Option.some.inj hs).symm
    · rw [hh]
      simp [Execute, hh, hc, hv]
  · have h := Execute_without_handlers os C hx ht hv
    refine ⟨Process_zero, ?_, ?_⟩
    · rw [h.2.2.2.2] at hs
      simp only [hx, ht, Option.isSome_none, Bool.or_self]
      exact (Option.some.inj hs).symm
    · simp only [hx, ht, Option.isSome_none, Bool.or_self]
      exact h.2.2.2.1

theorem parent_countP_onTimeout (os : OS) (C : Command_T) (P : Process_T) :
    ([Event.pipe 0 true, .pipe 1 true, .pipe 2 true, .vfork os.vfork] ++
      (setupParentPipes P ++ ((Execute.handlers os C P).2.2 ++
        (closeParentPipes P ++ (closeStreams (Execute.handlers os C P).1).2)))).countP
        Event.isOnTimeout =
      (Execute.handlers os C P).2.2.countP Event.isOnTimeout := by
  have hc : ((closeStreams (Execute.handlers os C P).1).2).countP Event.isOnTimeout = 0 := by
    apply List.countP_eq_zero.2
    intro e he
    have h := closeStreams_events _ e he
    simp [(not_handler_of_pipe e (Or.inr (Or.inr (Or.inr h)))).2]
  simp [List.countP_append, List.countP_cons, setupParentPipes, closeParentPipes,
    Event.isOnTimeout, hc]

theorem mem_left_of_split (A B l1 l2 : List Event) (x y : Event) (hA : y ∉ A) (hxy : x ≠ y)
    (h : A ++ x :: B = l1 ++ y :: l2) : x ∈ l1 := by
  induction A generalizing l1 with
  | nil =>
    cases l1 with
    | nil => simp at h; exact absurd h.1 hxy
    | cons z l1 => simp at h; simp [h.1]
  | cons a A ih =>
    cases l1 with
    | nil =>
      simp at h
      exact absurd h.1.symm (fun e => hA (by simp [e]))
    | cons z l1 =>
      simp at h
      exact List.mem_cons_of_mem _ (ih l1 (fun hm => hA (List.mem_cons_of_mem _ hm)) h.2)

theorem split_unique (A B l1 l2 : List Event) (x : Event) (hA : x ∉ A) (hB : x ∉ B)
    (h : A ++ x :: B = l1 ++ x :: l2) : l1 = A := by
  induction A generalizing l1 with
  | nil =>
    cases l1 with
    | nil => rfl
    | cons z l1 =>
      simp at h
      exact absurd (by rw [h.2]; simp) hB
  | cons a A ih =>
    cases l1 with
    | nil => simp at h; exact absurd (by simp [h.1]) hA
    | cons z l1 =>
      simp at h
      rw [h.1, ih l1 (fun hm => hA (List.mem_cons_of_mem _ hm)) h.2]


/-! ## Command: the handlers and the spawn protocol -/

/-- C11: `Command_setOnTimeout(timeout, handler, ctx)` raises AssertException
exactly when `timeout <= 0` or the handler is null, and then the Command
(timeout, handler and context included) is unchanged; otherwise the timeout,
the handler and the context become the ones given, whatever was registered
before, and `Command_getTimeout` returns `timeout`.  A new Command has timeout
0, and so has every Command reached from it by setter calls none of which is
`Command_setOnTimeout`. -/
theorem C11_setOnTimeout (fs : FileSystem) (vcat : CStr → CStr) (C : Command_T) (timeout : Int)
    (handler ap : Option Nat) :
    ((Command_setOnTimeout C timeout handler ap).2 = .error .AssertException ↔
      (timeout ≤ 0 ∨ handler = none)) ∧
    (((Command_setOnTimeout C timeout handler ap).2 = .error .AssertException ∧
      (Command_setOnTimeout C timeout handler ap).1 = C) ∨
     ((Command_setOnTimeout C timeout handler ap).2 = .ok () ∧
      (Command_setOnTimeout C timeout handler ap).1 =
        { C with timeout := timeout, onTimeoutAp := ap, onTimeout := handler } ∧
      Command_getTimeout (Command_setOnTimeout C timeout handler ap).1 = timeout)) ∧
    Command_getTimeout Command_new = 0 ∧
    (∀ (ss : List Setter) (C' : Command_T), (∀ s ∈ ss, s.isSetOnTimeout = false) →
      Setter.callAll fs vcat ss Command_new = some C' → Command_getTimeout C' = 0) := by
  refine ⟨?_, ?_, rfl, ?_⟩
  · by_cases ht : timeout > 0
    · cases handler with
      | none => simp [Command_setOnTimeout, ht]
      | some fn => simp [Command_setOnTimeout, ht]
    · simp [Command_setOnTimeout, ht]; left; omega
  · by_cases ht : timeout > 0
    · cases handler with
      | none => left; simp [Command_setOnTimeout, ht]
      | some fn => right; simp [Command_setOnTimeout, ht, Command_getTimeout]
    · left; simp [Command_setOnTimeout, ht]
  · intro ss C' hs h
    have := Setter_callAll_timeout fs vcat ss Command_new C' hs h
    simpa [Command_getTimeout] using this

/-- The steps of the calling process for a Command with both handlers and a
budget of 2 seconds when the child is still running at every poll. -/
theorem execute_with_handlers_steps :
    (Command_execute aliveOS handlerCommand).parent =
      [.pipe 0 true, .pipe 1 true, .pipe 2 true, .vfork 100,
       .close 3, .setNonBlocking 4, .close 6, .setNonBlocking 5, .close 8, .setNonBlocking 7,
       .onExec 7 none, .waitpid 0, .sleep 1, .waitpid 0, .sleep 1, .waitpid 0,
       .onTimeout 8 none, .close 4, .close 5, .close 7] := by
  decide

/-- C12: for every Command with an onExec handler registered (so for every
Command with both handlers) and every execution of `Command_execute`, the
calling process invokes onExec at most once and onTimeout at most once, and
wherever an onTimeout invocation stands among its steps the onExec invocation
stands before it.  The steps are those of one sequential process and a handler
call is one step, so the onExec call has returned when the next step starts. -/
theorem C12_onExec_before_onTimeout (os : OS) (C : Command_T) (f : Nat)
    (hf : C.onExec = some f) :
    (Command_execute os C).parent.countP Event.isOnExec ≤ 1 ∧
    (Command_execute os C).parent.countP Event.isOnTimeout ≤ 1 ∧
    ∀ l1 l2 g ap, (Command_execute os C).parent = l1 ++ Event.onTimeout g ap :: l2 →
      Event.onExec f C.onExecAp ∈ l1 := by
  by_cases hargs : List_length C.args = 0
  · simp [Command_execute, hargs]
  · simp only [Command_execute, hargs, if_false]
    rcases Execute_trichotomy os C with h | ⟨hh, hv, p0, p1, p2, h0, h1, h2⟩ | ⟨hx, _, _⟩
    · obtain ⟨_, _, _, _, hev, _⟩ := Execute_failed os C h
      have h1 : ∀ e ∈ (Execute os C).parent, ¬ (e.isOnExec = true) := by
        intro e he
        rcases hev e he with h | h
        · simp [(not_handler_of_pipe e (Or.inl h)).1]
        · subst h; simp [Event.isOnExec]
      have h2 : ∀ e ∈ (Execute os C).parent, ¬ (e.isOnTimeout = true) := by
        intro e he
        rcases hev e he with h | h
        · simp [(not_handler_of_pipe e (Or.inl h)).2]
        · subst h; simp [Event.isOnTimeout]
      refine ⟨by rw [List.countP_eq_zero.2 h1]; omega, by rw [List.countP_eq_zero.2 h2]; omega, ?_⟩
      intro l1 l2 g ap hl
      have := h2 (Event.onTimeout g ap) (by rw [hl]; simp)
      simp [Event.isOnTimeout] at this
    · obtain ⟨P, _, _, _, _, _, _, _, hp⟩ := Execute_with_handlers os C p0 p1 p2 hh h0 h1 h2 hv
      obtain ⟨ex, w, tmo, htr, hex, hw, htmo⟩ := handlers_trace os C P
      have hex' : ex = [.onExec f C.onExecAp] := by
        rcases hex with ⟨h, _⟩ | ⟨f', h, he⟩
        · rw [hf] at h; cases h
        · rw [hf] at h; cases h; exact he
      subst hex'
      have hw1 : w.countP Event.isOnExec = 0 := by
        apply List.countP_eq_zero.2
        intro e he
        rcases hw e he with h | h
        · simp [(not_handler_of_pipe e (Or.inr (Or.inl h))).1]
        · simp [(not_handler_of_pipe e (Or.inr (Or.inr (Or.inl h)))).1]
      have hw2 : w.countP Event.isOnTimeout = 0 := by
        apply List.countP_eq_zero.2
        intro e he
        rcases hw e he with h | h
        · simp [(not_handler_of_pipe e (Or.inr (Or.inl h))).2]
        · simp [(not_handler_of_pipe e (Or.inr (Or.inr (Or.inl h)))).2]
      have hc1 : ((closeStreams (Execute.handlers os C P).1).2).countP Event.isOnExec = 0 := by
        apply List.countP_eq_zero.2
        intro e he
        have h := closeStreams_events _ e he
        simp [(not_handler_of_pipe e (Or.inr (Or.inr (Or.inr h)))).1]
      have hc2 : ((closeStreams (Execute.handlers os C P).1).2).countP Event.isOnTimeout = 0 := by
        apply List.countP_eq_zero.2
        intro e he
        have h := closeStreams_events _ e he
        simp [(not_handler_of_pipe e (Or.inr (Or.inr (Or.inr h)))).2]
      rw [hp, htr]
      refine ⟨?_, ?_, ?_⟩
      · rcases htmo with h | ⟨g, ap, h⟩ <;> subst h <;>
          simp [List.countP_append, List.countP_cons, setupParentPipes, closeParentPipes,
            Event.isOnExec, hw1, hc1]
      · rcases htmo with h | ⟨g, ap, h⟩ <;> subst h <;>
          simp [List.countP_append, List.countP_cons, setupParentPipes, closeParentPipes,
            Event.isOnTimeout, hw2, hc2]
      · intro l1 l2 g ap hl
        apply mem_left_of_split
          ([.pipe 0 true, .pipe 1 true, .pipe 2 true, .vfork os.vfork] ++ setupParentPipes P)
          (w ++ (tmo ++ (closeParentPipes P ++ (closeStreams (Execute.handlers os C P).1).2)))
          l1 l2 (.onExec f C.onExecAp) (.onTimeout g ap)
        · simp [setupParentPipes]
        · simp
        · rw [← hl]; simp [List.append_assoc]
    · rw [hf] at hx; cases hx

theorem C12_onExec_before_onTimeout_witness :
    handlerCommand.onExec = some 7 ∧
    ((Command_execute aliveOS handlerCommand).parent.countP Event.isOnExec ≤ 1 ∧
     (Command_execute aliveOS handlerCommand).parent.countP Event.isOnTimeout ≤ 1 ∧
     ∀ l1 l2 g ap, (Command_execute aliveOS handlerCommand).parent =
        l1 ++ Event.onTimeout g ap :: l2 → Event.onExec 7 handlerCommand.onExecAp ∈ l1) :=
  ⟨rfl, C12_onExec_before_onTimeout aliveOS handlerCommand 7 rfl⟩

/-- C13: for every Command with onTimeout registered with a budget of `T`
seconds, every run of `Execute` in which the subprocess is created (the three
pipes and vfork succeed) and every sequence of poll results: onTimeout is
invoked exactly once if the polls number 0 to `T` all report the child still
running (the poll number `T` is the one made when the budget has reached
zero), and is not invoked if one of those polls reports anything else.  An
onExec handler, when there is one, is taken not to register another timeout:
it leaves the Command as it is. -/
theorem C13_onTimeout_iff_alive (os : OS) (C : Command_T) (g T : Nat) (p0 p1 p2 : Int × Int)
    (ht : C.onTimeout = some g) (hT : C.timeout = (T : Int))
    (h0 : os.pipe 0 = some p0) (h1 : os.pipe 1 = some p1) (h2 : os.pipe 2 = some p2)
    (hv : ¬ os.vfork < 0)
    (hexec : ∀ f P, C.onExec = some f → (os.handler f C.onExecAp P C).2 = C) :
    ((∀ k, k ≤ T → (os.waitpid k).1 = 0) →
      (Execute os C).parent.countP Event.isOnTimeout = 1) ∧
    ((∃ k, k ≤ T ∧ (os.waitpid k).1 ≠ 0) →
      (Execute os C).parent.countP Event.isOnTimeout = 0) := by
  have hh : (C.onExec.isSome || C.onTimeout.isSome) = true := by simp [ht]
  obtain ⟨P, _, _, _, _, _, _, _, hp⟩ := Execute_with_handlers os C p0 p1 p2 hh h0 h1 h2 hv
  have hcount := handlers_countP_onTimeout os C P g ht (fun f hf => hexec f P hf)
  have hTn : C.timeout.toNat = T := by rw [hT]; simp
  rw [hp, parent_countP_onTimeout, hcount, hTn]
  constructor
  · intro h
    have := wait_alive os T 0 (fun j hj => by simpa using h j hj)
    simp [this]
  · intro h
    have := wait_exited os T 0 (by simpa using h)
    simp [this]

/-- What the hypothesis on the onExec handler in C13 is for: `Execute` reads
`C->timeout` after the onExec handler has returned, so a handler that sets a
budget of 1 second makes the wait loop of a Command registered with 2 seconds
sleep once, and the Command has the new budget when the call ends. -/
theorem execute_reads_timeout_after_onExec :
    handlerCommand.timeout = 2 ∧
    (Command_execute resettingOS handlerCommand).parent.countP Event.isSleep = 1 ∧
    (Command_execute resettingOS handlerCommand).command.timeout = 1 := by
  decide

theorem C13_onTimeout_iff_alive_witness :
    handlerCommand.onTimeout = some 8 ∧ handlerCommand.timeout = ((2 : Nat) : Int) ∧
    aliveOS.pipe 0 = some (3, 4) ∧ aliveOS.pipe 1 = some (5, 6) ∧ aliveOS.pipe 2 = some (7, 8) ∧
    ¬ aliveOS.vfork < 0 ∧
    (∀ f P, handlerCommand.onExec = some f →
      (aliveOS.handler f handlerCommand.onExecAp P handlerCommand).2 = handlerCommand) ∧
    (∀ k, k ≤ 2 → (aliveOS.waitpid k).1 = 0) ∧
    (Execute aliveOS handlerCommand).parent.countP Event.isOnTimeout = 1 :=
  ⟨rfl, rfl, rfl, rfl, rfl, by decide, fun _ _ _ => rfl, fun _ _ => rfl,
   (C13_onTimeout_iff_alive aliveOS handlerCommand 8 2 (3, 4) (5, 6) (7, 8) rfl rfl rfl rfl rfl
      (by decide) (fun _ _ _ => rfl)).1 (fun _ _ => rfl)⟩

/-- C14: for every Command with neither onExec nor onTimeout registered, the
only step the calling process can make in `Command_execute` is the vfork: no
pipe, no handler call, no poll and no sleep; when a program is set and vfork
succeeds the call returns with the vfork as its single step.  The child, when
its change of directory (if any) and the three opens succeed, closes
descriptors 0, 1 and 2 in turn and opens the null device on each, right after
`setsid` and before the steps that end in execve. -/
theorem C14_no_handlers (os : OS) (C : Command_T) (hx : C.onExec = none)
    (ht : C.onTimeout = none) :
    ((Command_execute os C).parent = [] ∨ (Command_execute os C).parent = [.vfork os.vfork]) ∧
    (C.args ≠ [] → ¬ os.vfork < 0 →
      (Command_execute os C).parent = [.vfork os.vfork] ∧
      (Command_execute os C).outcome = .ok ()) ∧
    (C.args ≠ [] → ¬ os.vfork < 0 →
      (∀ d, C.working_directory = some d → os.chdir d = true) →
      os.openNull 0 = 0 → os.openNull 1 = 1 → os.openNull 2 = 2 →
      (Command_execute os C).child =
        (match C.working_directory with
          | some d => [Event.chdir d true]
          | none => []) ++
        ((if C.uid ≠ 0 then [Event.setuid C.uid (os.setuid C.uid)] else []) ++
        ((if C.gid ≠ 0 then [Event.setgid C.gid (os.setgid C.gid)] else []) ++
        ([.setsid, .close 0, .openNull 0, .close 1, .openNull 1, .close 2, .openNull 2] ++
          Execute.exec os C)))) := by
  refine ⟨?_, ?_, ?_⟩
  · by_cases hargs : List_length C.args = 0
    · left; simp [Command_execute, hargs]
    · simp only [Command_execute, hargs, if_false]
      by_cases hv : os.vfork < 0
      · right; simp [Execute, hx, ht, hv]
      · right; exact (Execute_without_handlers os C hx ht hv).1
  · intro hargs hv
    have hargs' : ¬ List_length C.args = 0 := by
      simpa [List_length] using hargs
    simp only [Command_execute, hargs', if_false]
    exact ⟨(Execute_without_handlers os C hx ht hv).1, (Execute_without_handlers os C hx ht hv).2.1⟩
  · intro hargs hv hcd h0 h1 h2
    have hargs' : ¬ List_length C.args = 0 := by
      simpa [List_length] using hargs
    simp only [Command_execute, hargs', if_false]
    rw [(Execute_without_handlers os C hx ht hv).2.2.2.1,
      (child_trace os C false Process_zero hcd).2, openNull_ok os h0 h1 h2]
    simp

theorem C14_no_handlers_witness :
    idCommand.onExec = none ∧ idCommand.onTimeout = none ∧
    (Command_execute quietOS idCommand).parent = [.vfork 100] ∧
    (Command_execute quietOS idCommand).outcome = .ok () ∧
    (Command_execute quietOS idCommand).child.take 9 =
      [.setuid 5 true, .setgid 6 true, .setsid, .close 0, .openNull 0, .close 1, .openNull 1,
       .close 2, .openNull 2] := by
  have h := C14_no_handlers quietOS idCommand rfl rfl
  refine ⟨rfl, rfl, (h.2.1 (by decide) (by decide)).1, (h.2.1 (by decide) (by decide)).2, ?_⟩
  rw [h.2.2 (by decide) (by decide) (by intro d hd; cases hd) rfl rfl rfl]
  rfl

/-- C15: for every Command with a handler registered and every execution of
`Command_execute`: wherever the vfork stands among the steps of the calling
process, exactly the three successful `pipe` calls stand before it; when the
call returns, its steps are the three pipes, the vfork, `setupParentPipes`,
then the handler calls with the polls and sleeps between them, then
`closeParentPipes` (the parent's ends of the three pipes) and last the release
of the stream wrappers, so every handler call comes before the closing and the
release; and in every execution the Process ends with no stream wrapper. -/
theorem C15_pipes_and_streams (os : OS) (C : Command_T)
    (hh : C.onExec ≠ none ∨ C.onTimeout ≠ none) :
    (∀ l1 l2, (Command_execute os C).parent = l1 ++ .vfork os.vfork :: l2 →
      l1 = [.pipe 0 true, .pipe 1 true, .pipe 2 true]) ∧
    ((Command_execute os C).outcome = .ok () →
      ∃ P mid frees, (Command_execute os C).spawned = some P ∧
        (Command_execute os C).parent =
          [.pipe 0 true, .pipe 1 true, .pipe 2 true, .vfork os.vfork] ++
            (setupParentPipes P ++ (mid ++ (closeParentPipes P ++ frees))) ∧
        (∀ e ∈ mid, e.isOnExec = true ∨ e.isOnTimeout = true ∨ e.isPoll = true ∨
          e.isSleep = true) ∧
        (∀ e ∈ frees, e.isFreeStream = true)) ∧
    (Command_execute os C).process.in_ = none ∧
    (Command_execute os C).process.err = none ∧
    (Command_execute os C).process.out = none := by
  have hhb : (C.onExec.isSome || C.onTimeout.isSome) = true := by
    rcases hh with h | h
    · cases hx : C.onExec with
      | none => exact absurd hx h
      | some f => simp
    · cases ht : C.onTimeout with
      | none => exact absurd ht h
      | some g => simp
  by_cases hargs : List_length C.args = 0
  · simp [Command_execute, hargs, Process_zero]
  · simp only [Command_execute, hargs, if_false]
    rcases Execute_trichotomy os C with h | ⟨_, hv, p0, p1, p2, h0, h1, h2⟩ | ⟨hx, ht, _⟩
    · obtain ⟨ho, _, _, _, _, hsplit⟩ := Execute_failed os C h
      refine ⟨fun l1 l2 hl => (hsplit l1 l2 hl).2 hhb, ?_, ?_⟩
      · intro hok; rw [ho] at hok; cases hok
      · rcases h with ⟨_, hn⟩ | hv
        · rcases createPipes_cases os Process_zero with ⟨p0, p1, p2, h0, h1, h2, _⟩ | ⟨he, _, _⟩
          · simp [h0, h1, h2] at hn
          · have hex : (Execute os C).process = (createPipes os Process_zero).1 := by
              simp only [Execute, hhb, if_true]
              split
              · rfl
              · rename_i heq
                rw [he] at heq
                cases heq
            rw [hex]
            simp only [createPipes]
            split <;> (try split) <;> (try split) <;> simp [Process_zero]
        · have hex : (Execute os C).process =
              { (createPipes os Process_zero).1 with pid := os.vfork } ∨
              (Execute os C).process = (createPipes os Process_zero).1 := by
            simp only [Execute, hhb, if_true]
            split
            · right; rfl
            · left; simp [hv]
          have hcp : (createPipes os Process_zero).1.in_ = none ∧
              (createPipes os Process_zero).1.err = none ∧
              (createPipes os Process_zero).1.out = none := by
            simp only [createPipes]
            split <;> (try split) <;> (try split) <;> simp [Process_zero]
          rcases hex with hex | hex <;> rw [hex] <;> exact hcp
    · obtain ⟨P, _, _, _, hs, ho, _, hproc, hp⟩ :=
        Execute_with_handlers os C p0 p1 p2 hhb h0 h1 h2 hv
      refine ⟨?_, ?_, ?_⟩
      · intro l1 l2 hl
        have hB : Event.vfork os.vfork ∉ setupParentPipes P ++ ((Execute.handlers os C P).2.2 ++
            (closeParentPipes P ++ (closeStreams (Execute.handlers os C P).1).2)) := by
          intro hm
          simp only [List.mem_append] at hm
          rcases hm with hm | hm | hm | hm
          · simp [setupParentPipes] at hm
          · have := handlers_events os C P _ hm
            simp [Event.isOnExec, Event.isOnTimeout, Event.isPoll, Event.isSleep] at this
          · simp [closeParentPipes] at hm
          · have := closeStreams_events _ _ hm
            simp [Event.isFreeStream] at this
        rw [hp] at hl
        have hl' : [Event.pipe 0 true, .pipe 1 true, .pipe 2 true] ++ Event.vfork os.vfork ::
            (setupParentPipes P ++ ((Execute.handlers os C P).2.2 ++
              (closeParentPipes P ++ (closeStreams (Execute.handlers os C P).1).2))) =
            l1 ++ Event.vfork os.vfork :: l2 := by
          simpa using hl
        exact split_unique _ _ l1 l2 _ (by simp) hB hl'
      · intro _
        exact ⟨P, (Execute.handlers os C P).2.2, (closeStreams (Execute.handlers os C P).1).2,
          hs, hp, handlers_events os C P, closeStreams_events _⟩
      · rw [hproc]
        exact closeStreams_process _
    · simp [hx, ht] at hhb

theorem C15_pipes_and_streams_witness :
    (handlerCommand.onExec ≠ none ∨ handlerCommand.onTimeout ≠ none) ∧
    (Command_execute aliveOS handlerCommand).outcome = .ok () ∧
    (Command_execute aliveOS handlerCommand).process.in_ = none ∧
    (Command_execute aliveOS handlerCommand).process.err = none ∧
    (Command_execute aliveOS handlerCommand).process.out = none :=
  ⟨Or.inl (by decide), rfl,
   (C15_pipes_and_streams aliveOS handlerCommand (Or.inl (by decide))).2.2⟩

/-- C16: `Command_execute` itself never changes the configuration.  For every
Command and every answer of the operating system (with or without handlers,
whatever the poll results, whether the call returns or raises): when the
handlers make no setter call on the Command, the Command when the call ends is
the Command before it, environment, arguments, working directory, uid, gid,
timeout and handlers, so that a second execute starts from the same
configuration; and whatever the handlers do, a call in which no handler is
invoked leaves the Command as it was. -/
theorem C16_execute_keeps_configuration (os : OS) (C : Command_T) :
    ((∀ fn ap P C', (os.handler fn ap P C').2 = C') →
      (Command_execute os C).command = C ∧
      (Command_execute os C).command.env = C.env ∧
      (Command_execute os C).command.args = C.args ∧
      (Command_execute os C).command.working_directory = C.working_directory ∧
      (Command_execute os C).command.uid = C.uid ∧
      (Command_execute os C).command.gid = C.gid ∧
      (Command_execute os C).command.timeout = C.timeout ∧
      (Command_execute os C).command.onExec = C.onExec ∧
      (Command_execute os C).command.onTimeout = C.onTimeout ∧
      ∀ os2, Command_execute os2 (Command_execute os C).command = Command_execute os2 C) ∧
    ((Command_execute os C).parent.countP Event.isOnExec = 0 →
      (Command_execute os C).parent.countP Event.isOnTimeout = 0 →
      (Command_execute os C).command = C) := by
  constructor
  · intro hkeep
    have h : (Command_execute os C).command = C := by
      by_cases hargs : List_length C.args = 0
      · simp [Command_execute, hargs]
      · simp only [Command_execute, hargs, if_false]
        rcases Execute_trichotomy os C with h | ⟨hh, hv, p0, p1, p2, h0, h1, h2⟩ | ⟨hx, ht, hv⟩
        · exact (Execute_failed os C h).2.2.1
        · obtain ⟨P, _, _, _, _, _, hc, _, _⟩ :=
            Execute_with_handlers os C p0 p1 p2 hh h0 h1 h2 hv
          rw [hc]
          exact handlers_command os C P hkeep
        · exact (Execute_without_handlers os C hx ht hv).2.2.1
    rw [h]
    exact ⟨rfl, rfl, rfl, rfl, rfl, rfl, rfl, rfl, rfl, fun _ => rfl⟩
  · by_cases hargs : List_length C.args = 0
    · simp [Command_execute, hargs]
    · simp only [Command_execute, hargs, if_false]
      rcases Execute_trichotomy os C with h | ⟨hh, hv, p0, p1, p2, h0, h1, h2⟩ | ⟨hx, ht, hv⟩
      · intro _ _
        exact (Execute_failed os C h).2.2.1
      · obtain ⟨P, _, _, _, _, _, hc, _, hp⟩ :=
          Execute_with_handlers os C p0 p1 p2 hh h0 h1 h2 hv
        rw [hc, hp]
        intro h1 h2
        apply handlers_command_of_no_call
        · simp only [List.countP_append, Nat.add_eq_zero] at h1
          exact h1.2.2.1
        · simp only [List.countP_append, Nat.add_eq_zero] at h2
          exact h2.2.2.1
      · intro _ _
        exact (Execute_without_handlers os C hx ht hv).2.2.1

theorem C16_execute_keeps_configuration_witness :
    (∀ fn ap P C', (aliveOS.handler fn ap P C').2 = C') ∧
    (Command_execute aliveOS handlerCommand).command = handlerCommand ∧
    (Command_execute aliveOS handlerCommand).parent.countP Event.isOnTimeout = 1 :=
  ⟨fun _ _ _ _ => rfl,
   ((C16_execute_keeps_configuration aliveOS handlerCommand).1 (fun _ _ _ _ => rfl)).1,
   by decide⟩

/-- C17: the code for a Process spawned from a Command with a timeout of 2
seconds and the working directory `/tmp`.  `Process_getTimeout` and
`Process_getDir` read `P->parent`, the Command itself: after
`Command_setOnTimeout(C, 99, ...)` the Process reports a timeout of 99, and
after `Command_setDir(C, NULL)` it reports no working directory, while the
subprocess was started in `/tmp` with a budget of 2. -/
theorem C17_process_reads_the_command :
    (Command_execute quietOS handlerCommand).spawned.map (fun P =>
        (Process_getTimeout handlerCommand P,
         Process_getTimeout (Command_setOnTimeout handlerCommand 99 (some 8) none).1 P,
         Process_getDir handlerCommand P,
         Process_getDir (Command_setDir smallFS handlerCommand none).1 P)) =
      some (2, 99, some "/tmp".toList, none) := by
  decide

/-- C18: the code for a Command with uid 5 and gid 6: the first steps of the
child are `setuid(5)`, then `setgid(6)`, then `setsid`.  The user-id switch
comes first. -/
theorem C18_setuid_comes_first :
    (Command_execute quietOS idCommand).child.take 3 =
      [.setuid 5 true, .setgid 6 true, .setsid] := by
  decide

/-- What the order of C18 leads to when the kernel refuses `setgid` to a child
that has already given up uid 0: the Process records the gid of the caller
(0 here), not the configured gid 6, and the child goes on. -/
theorem gid_switch_after_uid_drop :
    (Command_execute { quietOS with setgid := fun _ => false } idCommand).child.take 3 =
      [.setuid 5 true, .setgid 6 false, .setsid] ∧
    (Command_execute { quietOS with setgid := fun _ => false } idCommand).spawned.map
      Process_getGid = some 0 := by
  decide

/-- C19: in every run of `Execute` in which the subprocess is created, the
change of directory (if one is configured) succeeds and, without handlers, the
null device opens: whatever `setuid` and `setgid` answer, the child goes on to
call execve, and the Process records as uid the configured uid when it is not
0 and `setuid` succeeded and the uid of the caller otherwise, and the same for
the gid. -/
theorem C19_privilege_switch (os : OS) (C : Command_T) (P : Process_T)
    (hs : (Execute os C).spawned = some P)
    (hcd : ∀ d, C.working_directory = some d → os.chdir d = true)
    (hnul : C.onExec = none → C.onTimeout = none →
      os.openNull 0 = 0 ∧ os.openNull 1 = 1 ∧ os.openNull 2 = 2) :
    Process_getUid P = (if C.uid ≠ 0 ∧ os.setuid C.uid = true then C.uid else os.getuid) ∧
    Process_getGid P = (if C.gid ≠ 0 ∧ os.setgid C.gid = true then C.gid else os.getgid) ∧
    ∃ e ∈ (Execute os C).child, e.isExecve = true := by
  obtain ⟨P0, hP, hchild⟩ := Execute_spawned os C P hs
  have ht := child_trace os C (C.onExec.isSome || C.onTimeout.isSome) P0 hcd
  obtain ⟨e, he, hee⟩ := exec_has_execve os C
  refine ⟨?_, ?_, e, ?_, hee⟩
  · rw [hP, ht.1]; rfl
  · rw [hP, ht.1]; rfl
  · rw [hchild, ht.2]
    by_cases hh : (C.onExec.isSome || C.onTimeout.isSome) = true
    · simp [hh, he]
    · have hx : C.onExec = none := by
        cases h : C.onExec with
        | none => rfl
        | some f => simp [h] at hh
      have hT : C.onTimeout = none := by
        cases h : C.onTimeout with
        | none => rfl
        | some f => simp [h] at hh
      obtain ⟨h0, h1, h2⟩ := hnul hx hT
      simp [hx, hT, openNull_ok os h0 h1 h2, he]

theorem C19_privilege_switch_witness :
    (Execute { quietOS with setuid := fun _ => false, getuid := 9 } idCommand).spawned =
      some { Process_zero with pid := 100, uid := 9, gid := 6 } ∧
    Process_getUid { Process_zero with pid := 100, uid := 9, gid := 6 } = 9 ∧
    Process_getGid { Process_zero with pid := 100, uid := 9, gid := 6 } = 6 ∧
    ∃ e ∈ (Execute { quietOS with setuid := fun _ => false, getuid := 9 } idCommand).child,
      e.isExecve = true :=
  ⟨rfl,
   C19_privilege_switch { quietOS with setuid := fun _ => false, getuid := 9 } idCommand
     { Process_zero with pid := 100, uid := 9, gid := 6 } rfl (fun _ h => by cases h)
     (fun _ _ => ⟨rfl, rfl, rfl⟩)⟩

/-- C20: the code for a Command with handlers when every `dup2` of the
child fails: the child logs the error and goes on, there is no `_exit` among
its steps and it calls execve. -/
theorem C20_dup2_failure_goes_on :
    (Command_execute dupFailOS handlerCommand).child.take 6 =
      [.chdir "/tmp".toList true, .setsid, .close 4, .dup2 3 0 (-1), .error, .close 3] ∧
    (Command_execute dupFailOS handlerCommand).child.countP Event.isExit = 0 ∧
    (Command_execute dupFailOS handlerCommand).child.countP Event.isExecve = 1 := by
  decide

/-- The other half of C20 holds: without handlers, when one of the three opens
of the null device does not return the descriptor just closed, the child logs
the error and calls `_exit(errno)`, and makes no step after it: no execve. -/
theorem child_null_device_failure (os : OS) (C : Command_T) (P : Process_T)
    (hcd : ∀ d, C.working_directory = some d → os.chdir d = true)
    (hfail : os.openNull 0 ≠ 0 ∨ os.openNull 1 ≠ 1 ∨ os.openNull 2 ≠ 2) :
    ∃ l, (Execute.child os C false P).2 = l ++ [.error, .exit os.errno] ∧
      ∀ e ∈ l, e.isExecve = false := by
  have ht := (child_trace os C false P hcd).2
  have hn : ∃ l, Execute.openNull os 3 0 = (l ++ [.error, .exit os.errno], false) ∧
      ∀ e ∈ l, e.isExecve = false := by
    by_cases h0 : os.openNull 0 = 0
    · by_cases h1 : os.openNull 1 = 1
      · have h2 : os.openNull 2 ≠ 2 := by
          rcases hfail with h | h | h
          · exact absurd h0 h
          · exact absurd h1 h
          · exact h
        exact ⟨[.close 0, .openNull 0, .close 1, .openNull 1, .close 2,
          .openNull (os.openNull 2)], by simp [Execute.openNull, h0, h1, h2],
          by simp [Event.isExecve]⟩
      · exact ⟨[.close 0, .openNull 0, .close 1, .openNull (os.openNull 1)],
          by simp [Execute.openNull, h0, h1], by simp [Event.isExecve]⟩
    · exact ⟨[.close 0, .openNull (os.openNull 0)], by simp [Execute.openNull, h0],
        by simp [Event.isExecve]⟩
  obtain ⟨l, hl, hle⟩ := hn
  rw [ht, hl]
  refine ⟨(match C.working_directory with
        | some d => [Event.chdir d true]
        | none => []) ++
      ((if C.uid ≠ 0 then [Event.setuid C.uid (os.setuid C.uid)] else []) ++
      ((if C.gid ≠ 0 then [Event.setgid C.gid (os.setgid C.gid)] else []) ++
      (Event.setsid :: l))), by simp, ?_⟩
  intro e he
  simp only [List.mem_append, List.mem_cons] at he
  rcases he with he | he | he | he | he
  · split at he <;> simp at he
    subst he; rfl
  · split at he <;> simp at he
    subst he; rfl
  · split at he <;> simp at he
    subst he; rfl
  · subst he; rfl
  · exact hle e he

/-! ## Process: liveness and streams -/

/-- C21: `Process_isRunning` returns false exactly when the signal-0 probe on
the pid of the Process fails with ESRCH; for every other outcome it returns
true, a probe that fails with EPERM among them. -/
theorem C21_isRunning (kill : Int → Nat → SysResult) (P : Process_T) :
    (Process_isRunning kill P = false ↔ kill P.pid 0 = .fail .ESRCH) ∧
    (Process_isRunning kill P = true ↔ kill P.pid 0 ≠ .fail .ESRCH) ∧
    (kill P.pid 0 = .fail .EPERM → Process_isRunning kill P = true) ∧
    Process_isRunning (fun _ _ => .fail .EPERM) pipedProcess = true ∧
    Process_isRunning (fun _ _ => .ok 0) pipedProcess = true ∧
    Process_isRunning (fun pid sig => if pid = 100 ∧ sig = 0 then .fail .ESRCH else .ok 0)
      pipedProcess = false := by
  refine ⟨?_, ?_, ?_, by decide, by decide, by decide⟩
  · unfold Process_isRunning
    cases h : kill P.pid 0 with
    | ok n => simp
    | fail e => by_cases he : e = .ESRCH <;> simp [he]
  · unfold Process_isRunning
    cases h : kill P.pid 0 with
    | ok n => simp
    | fail e => by_cases he : e = .ESRCH <;> simp [he]
  · intro h
    simp [Process_isRunning, h]

/-- The stream fields of a Process after a sequence of getter calls: a field
that is set stays as it is. -/
theorem getters_keep_streams (cs : List ProcessCall) (P : Process_T) :
    (∀ s, P.out = some s → (cs.foldl ProcessCall.run P).out = some s) ∧
    (∀ s, P.in_ = some s → (cs.foldl ProcessCall.run P).in_ = some s) ∧
    (∀ s, P.err = some s → (cs.foldl ProcessCall.run P).err = some s) := by
  induction cs generalizing P with
  | nil => simp
  | cons c cs ih =>
    have h := ih (ProcessCall.run P c)
    simp only [List.foldl_cons]
    refine ⟨fun s hs => h.1 s ?_, fun s hs => h.2.1 s ?_, fun s hs => h.2.2 s ?_⟩
    · cases c <;>
        simp only [ProcessCall.run, Process_getOutStream, Process_getInputStream,
          Process_getErrorStream] <;> split <;> simp_all
    · cases c <;>
        simp only [ProcessCall.run, Process_getOutStream, Process_getInputStream,
          Process_getErrorStream] <;> split <;> simp_all
    · cases c <;>
        simp only [ProcessCall.run, Process_getOutStream, Process_getInputStream,
          Process_getErrorStream] <;> split <;> simp_all

/-- The three getters on a Process whose pipes are in place: each stream is
created on the parent's end of its pipe, and a second call gives it again. -/
theorem stream_getters_examples :
    Process_getOutStream pipedProcess = ({ pipedProcess with out := some 4 }, some 4) ∧
    Process_getInputStream pipedProcess = ({ pipedProcess with in_ := some 5 }, some 5) ∧
    Process_getErrorStream pipedProcess = ({ pipedProcess with err := some 7 }, some 7) ∧
    Process_getOutStream (Process_getOutStream pipedProcess).1 =
      ({ pipedProcess with out := some 4 }, some 4) ∧
    [ProcessCall.getOutStream, .getInputStream, .getOutStream, .getErrorStream,
        .getInputStream].foldl ProcessCall.run pipedProcess =
      { pipedProcess with out := some 4, in_ := some 5, err := some 7 } := by
  decide

/-- C22: each of `Process_getOutStream`, `Process_getInputStream` and
`Process_getErrorStream` constructs its stream at most once per Process.  On
a Process that has none yet the call creates the stream on the parent's end
of its pipe (the write end of the stdin pipe, the read end of the stdout pipe,
the read end of the stderr pipe), stores it and returns it; on a Process that
has it the call returns the stored instance and leaves the Process as it is,
so nothing is created; this holds after any further calls of the three
getters in between, and no getter changes the streams of the other two. -/
theorem C22_streams_created_once (P : Process_T) (cs : List ProcessCall) :
    (P.out = none → Process_getOutStream P =
      ({ P with out := some P.stdin_pipe.2 }, some P.stdin_pipe.2)) ∧
    (P.in_ = none → Process_getInputStream P =
      ({ P with in_ := some P.stdout_pipe.1 }, some P.stdout_pipe.1)) ∧
    (P.err = none → Process_getErrorStream P =
      ({ P with err := some P.stderr_pipe.1 }, some P.stderr_pipe.1)) ∧
    (∀ s, P.out = some s → Process_getOutStream P = (P, some s)) ∧
    (∀ s, P.in_ = some s → Process_getInputStream P = (P, some s)) ∧
    (∀ s, P.err = some s → Process_getErrorStream P = (P, some s)) ∧
    Process_getOutStream (cs.foldl ProcessCall.run (Process_getOutStream P).1) =
      (cs.foldl ProcessCall.run (Process_getOutStream P).1, (Process_getOutStream P).2) ∧
    Process_getInputStream (cs.foldl ProcessCall.run (Process_getInputStream P).1) =
      (cs.foldl ProcessCall.run (Process_getInputStream P).1, (Process_getInputStream P).2) ∧
    Process_getErrorStream (cs.foldl ProcessCall.run (Process_getErrorStream P).1) =
      (cs.foldl ProcessCall.run (Process_getErrorStream P).1, (Process_getErrorStream P).2) ∧
    ((Process_getOutStream P).1.in_ = P.in_ ∧ (Process_getOutStream P).1.err = P.err) ∧
    ((Process_getInputStream P).1.out = P.out ∧ (Process_getInputStream P).1.err = P.err) ∧
    ((Process_getErrorStream P).1.out = P.out ∧ (Process_getErrorStream P).1.in_ = P.in_) := by
  have key : ∀ Q : Process_T,
      (∀ s, Q.out = some s → Process_getOutStream Q = (Q, some s)) ∧
      (∀ s, Q.in_ = some s → Process_getInputStream Q = (Q, some s)) ∧
      (∀ s, Q.err = some s → Process_getErrorStream Q = (Q, some s)) := by
    intro Q
    refine ⟨fun s hs => ?_, fun s hs => ?_, fun s hs => ?_⟩
    · simp [Process_getOutStream, hs]
    · simp [Process_getInputStream, hs]
    · simp [Process_getErrorStream, hs]
  have first : (∃ s, (Process_getOutStream P).1.out = some s ∧ (Process_getOutStream P).2 = some s) ∧
      (∃ s, (Process_getInputStream P).1.in_ = some s ∧ (Process_getInputStream P).2 = some s) ∧
      (∃ s, (Process_getErrorStream P).1.err = some s ∧
        (Process_getErrorStream P).2 = some s) := by
    refine ⟨?_, ?_, ?_⟩
    · unfold Process_getOutStream; split <;> simp_all
    · unfold Process_getInputStream; split <;> simp_all
    · unfold Process_getErrorStream; split <;> simp_all
  refine ⟨fun h => ?_, fun h => ?_, fun h => ?_, (key P).1, (key P).2.1, (key P).2.2,
    ?_, ?_, ?_, ?_, ?_, ?_⟩
  · simp [Process_getOutStream, h]
  · simp [Process_getInputStream, h]
  · simp [Process_getErrorStream, h]
  · obtain ⟨s, h1, h2⟩ := first.1
    rw [h2]
    exact (key _).1 s ((getters_keep_streams cs _).1 s h1)
  · obtain ⟨s, h1, h2⟩ := first.2.1
    rw [h2]
    exact (key _).2.1 s ((getters_keep_streams cs _).2.1 s h1)
  · obtain ⟨s, h1, h2⟩ := first.2.2
    rw [h2]
    exact (key _).2.2 s ((getters_keep_streams cs _).2.2 s h1)
  · unfold Process_getOutStream; split <;> simp
  · unfold Process_getInputStream; split <;> simp
  · unfold Process_getErrorStream; split <;> simp

/-! ## Net: the retry protocol -/

/-- The loop that repeats an interrupted call: after `k` interrupted calls the
outcome `o` of the next one ends it. -/
theorem attempt_interrupted (call : SysResult → NetEvent) (k : Nat) (o : SysResult)
    (rest : List SysResult) (errno : Errno) (ho : o ≠ .fail .EINTR) :
    Net.attempt call (interrupted k ++ o :: rest) errno =
      some ⟨o, errnoAfter errno k o, attemptTrace call k o, rest⟩ := by
  induction k generalizing errno with
  | zero =>
    cases o with
    | ok n => simp [interrupted, Net.attempt, errnoAfter, attemptTrace]
    | fail e =>
      have he : e ≠ .EINTR := fun h => ho (by rw [h])
      simp [interrupted, Net.attempt, errnoAfter, attemptTrace, he]
  | succ k ih =>
    have h := ih .EINTR
    simp only [interrupted] at h
    simp only [interrupted, List.replicate_succ, List.cons_append, Net.attempt, if_true,
      List.append_eq]
    rw [h]
    cases o with
    | ok n => simp [errnoAfter, attemptTrace, List.replicate_succ]
    | fail e => simp [errnoAfter, attemptTrace, List.replicate_succ]

/-- Every result of the loop that repeats an interrupted call comes from a
script that starts with interrupted calls and one that is not. -/
theorem attempt_inv (call : SysResult → NetEvent) (script : List SysResult) (errno : Errno)
    (r : Ret SysResult) (h : Net.attempt call script errno = some r) :
    ∃ k, script = interrupted k ++ r.value :: r.rest ∧ r.value ≠ .fail .EINTR ∧
      r.errno = errnoAfter errno k r.value ∧ r.trace = attemptTrace call k r.value := by
  induction script generalizing errno r with
  | nil => simp [Net.attempt] at h
  | cons o script ih =>
    cases o with
    | ok n =>
      simp only [Net.attempt, Option.some.injEq] at h
      subst h
      exact ⟨0, by simp [interrupted], by simp, by simp [errnoAfter], by simp [attemptTrace]⟩
    | fail e =>
      by_cases he : e = .EINTR
      · subst he
        simp only [Net.attempt, if_true, Option.map_eq_some'] at h
        obtain ⟨q, hq, hr⟩ := h
        obtain ⟨k, h1, h2, h3, h4⟩ := ih _ _ hq
        subst hr
        refine ⟨k + 1, ?_, h2, ?_, ?_⟩
        · simp only [interrupted, List.replicate_succ, List.cons_append]
          simp only [interrupted] at h1
          rw [← h1]
        · simp only [h3]
          cases q.value <;> simp [errnoAfter]
        · simp only [h4, attemptTrace, List.replicate_succ, List.cons_append]
      · simp only [Net.attempt, he, if_false, Option.some.injEq] at h
        subst h
        refine ⟨0, by simp [interrupted], ?_, by simp [errnoAfter], by simp [attemptTrace]⟩
        simpa using he

theorem wouldBlock_errnoAfter (errno : Errno) (k : Nat) (o : SysResult) :
    wouldBlock o (errnoAfter errno k o) = o.isWouldBlock := by
  cases o <;> rfl

/-- The common body of `Net_read` and `Net_write` follows the retry protocol. -/
theorem transfer_protocol (w : Nat) (call wait : SysResult → NetEvent) (size : Nat)
    (timeout : Int) (hsize : 0 < size) :
    RetryProtocol w
      (fun script errno => Net.transfer w call
        (fun s e => (Net.attempt wait s e).map
          (fun r => ⟨r.value.positive, r.errno, r.trace, r.rest⟩)) script errno size timeout)
      call wait timeout := by
  intro errno k o rest ho
  refine ⟨fun hb => ?_, fun hb ht => ?_, fun hb ht j p rest2 hp => ⟨fun hpos => ?_,
    fun hpos i o2 rest3 ho2 => ?_⟩⟩
  · simp only [Net.transfer, hsize, if_true, attempt_interrupted call k o rest errno ho,
      wouldBlock_errnoAfter, hb, Bool.false_eq_true, if_false]
  · simp only [Net.transfer, hsize, if_true, attempt_interrupted call k o rest errno ho,
      wouldBlock_errnoAfter, hb, ht]
  · have ht' : ¬ timeout ≤ 0 := not_le.mpr ht
    simp only [Net.transfer, hsize, if_true, attempt_interrupted call k o _ errno ho,
      wouldBlock_errnoAfter, hb, ht', if_false, attempt_interrupted wait j p rest2 _ hp,
      Option.map_some', hpos]
  · have ht' : ¬ timeout ≤ 0 := not_le.mpr ht
    simp only [Net.transfer, hsize, if_true, attempt_interrupted call k o _ errno ho,
      wouldBlock_errnoAfter, hb, ht', if_false, attempt_interrupted wait j p _ _ hp,
      Option.map_some', hpos, Bool.true_eq_false, attempt_interrupted call i o2 rest3 _ ho2]

/-- The common body of `Net_read` and `Net_write` makes at most one readiness
wait, and none when it makes no attempt. -/
theorem transfer_one_wait (w : Nat) (call wait : SysResult → NetEvent) (size : Nat)
    (timeout : Int) (script : List SysResult) (errno : Errno) (r : Ret Nat)
    (hcall : ∀ o, (call o).endsWait = false)
    (hwait : ∀ o, (wait o).endsWait = (o != .fail .EINTR))
    (h : Net.transfer w call
        (fun s e => (Net.attempt wait s e).map
          (fun r => ⟨r.value.positive, r.errno, r.trace, r.rest⟩)) script errno size timeout
      = some r) :
    r.trace.countP NetEvent.endsWait ≤ 1 := by
  have hc : ∀ k o, (attemptTrace call k o).countP NetEvent.endsWait = 0 := by
    intro k o
    rw [List.countP_eq_zero]
    intro e he
    simp only [attemptTrace, List.mem_append, List.mem_replicate, List.mem_singleton] at he
    rcases he with ⟨_, rfl⟩ | rfl <;> simp [hcall]
  have hw : ∀ k o, o ≠ .fail .EINTR → (attemptTrace wait k o).countP NetEvent.endsWait = 1 := by
    intro k o ho
    simp only [attemptTrace, List.countP_append]
    have h1 : (List.replicate k (wait (.fail .EINTR))).countP NetEvent.endsWait = 0 := by
      rw [List.countP_eq_zero]
      intro e he
      simp only [List.mem_replicate] at he
      rw [he.2]; simp [hwait]
    rw [h1]
    simp [List.countP_cons, hwait, ho]
  unfold Net.transfer at h
  by_cases hs : size > 0
  · simp only [hs, if_true] at h
    cases ha : Net.attempt call script errno with
    | none => simp [ha] at h
    | some a =>
      simp only [ha] at h
      obtain ⟨k, -, -, -, h4⟩ := attempt_inv _ _ _ _ ha
      by_cases hb : wouldBlock a.value a.errno = true
      · simp only [hb, if_true] at h
        by_cases ht : timeout ≤ 0
        · simp only [ht, if_true, Option.some.injEq] at h
          subst h; simp [h4, hc]
        · simp only [ht, if_false] at h
          cases hq : Net.attempt wait a.rest a.errno with
          | none => simp [hq] at h
          | some q =>
            simp only [hq, Option.map_some'] at h
            obtain ⟨j, -, q2, -, q4⟩ := attempt_inv _ _ _ _ hq
            by_cases hv : q.value.positive = false
            · simp only [hv, if_true, Option.some.injEq] at h
              subst h; simp [h4, q4, hc, hw j _ q2, List.countP_append]
            · simp only [hv, if_false] at h
              cases hbq : Net.attempt call q.rest q.errno with
              | none => simp [hbq] at h
              | some b =>
                simp only [hbq, Bool.true_eq_false, if_false, Option.some.injEq] at h
                obtain ⟨i, -, -, -, b4⟩ := attempt_inv _ _ _ _ hbq
                subst h; simp [h4, q4, b4, hc, hw j _ q2, List.countP_append]
      · simp only [hb, Bool.false_eq_true, if_false, Option.some.injEq] at h
        subst h; simp [h4, hc]
  · simp only [hs, if_false, Option.some.injEq] at h
    subst h; simp

/-- C30: `Net_write` and `Net_read` with `size > 0` follow the retry protocol
for every sequence of system-call outcomes: an attempt interrupted by a signal
is repeated; when the attempt reports would-block and `timeout <= 0` the
result is 0 and there is no readiness wait; when it reports would-block and
the readiness wait within `timeout` fails the result is 0; when the wait
succeeds one further attempt (repeated while interrupted) is made and its
result is returned; no call makes more than one readiness wait.  With
`size == 0` the result is 0 and no system call is made. -/
theorem C30_Net_retry_protocol (w : Nat) (socket buffer : Int) (size : Nat) (timeout : Int) :
    (0 < size →
      RetryProtocol w (fun script errno => Net_write w script errno socket buffer size timeout)
        (NetEvent.write socket buffer size) (NetEvent.poll socket .POLLOUT timeout) timeout ∧
      RetryProtocol w (fun script errno => Net_read w script errno socket size timeout)
        (NetEvent.read socket size) (NetEvent.poll socket .POLLIN timeout) timeout) ∧
    (∀ script errno r, Net_write w script errno socket buffer size timeout = some r →
      r.trace.countP NetEvent.endsWait ≤ 1) ∧
    (∀ script errno r, Net_read w script errno socket size timeout = some r →
      r.trace.countP NetEvent.endsWait ≤ 1) ∧
    (∀ script errno, Net_write w script errno socket buffer 0 timeout =
      some ⟨0, errno, [], script⟩) ∧
    (∀ script errno, Net_read w script errno socket 0 timeout = some ⟨0, errno, [], script⟩) := by
  refine ⟨fun hsize => ⟨?_, ?_⟩, ?_, ?_, ?_, ?_⟩
  · exact transfer_protocol w (NetEvent.write socket buffer size)
      (NetEvent.poll socket .POLLOUT timeout) size timeout hsize
  · exact transfer_protocol w (NetEvent.read socket size)
      (NetEvent.poll socket .POLLIN timeout) size timeout hsize
  · intro script errno r h
    exact transfer_one_wait w (NetEvent.write socket buffer size)
      (NetEvent.poll socket .POLLOUT timeout) size timeout script errno r (fun _ => rfl)
      (fun _ => rfl) h
  · intro script errno r h
    exact transfer_one_wait w (NetEvent.read socket size)
      (NetEvent.poll socket .POLLIN timeout) size timeout script errno r (fun _ => rfl)
      (fun _ => rfl) h
  · intro script errno
    simp [Net_write, Net.transfer]
  · intro script errno
    simp [Net_read, Net.transfer]

/-- Runs of `Net_write` and `Net_read` on given outcomes: two interrupted
attempts, would-block, an interrupted and a successful wait, an interrupted
attempt and one that writes 7 bytes; would-block with no time to wait; size 0. -/
theorem Net_examples :
    Net_write 64 [.fail .EINTR, .fail .EINTR, .fail .EAGAIN, .fail .EINTR, .ok 1, .fail .EINTR,
        .ok 7, .ok 9] .zero 4 0 10 100 =
      some ⟨7, .EINTR,
        [.write 4 0 10 (.fail .EINTR), .write 4 0 10 (.fail .EINTR), .write 4 0 10 (.fail .EAGAIN),
         .poll 4 .POLLOUT 100 (.fail .EINTR), .poll 4 .POLLOUT 100 (.ok 1),
         .write 4 0 10 (.fail .EINTR), .write 4 0 10 (.ok 7)], [.ok 9]⟩ ∧
    Net_read 64 [.fail .EWOULDBLOCK, .ok 3] .zero 4 10 0 =
      some ⟨0, .EWOULDBLOCK, [.read 4 10 (.fail .EWOULDBLOCK)], [.ok 3]⟩ ∧
    Net_write 64 [.fail (.other 32)] .zero 4 0 10 100 =
      some ⟨2 ^ 64 - 1, .other 32, [.write 4 0 10 (.fail (.other 32))], []⟩ ∧
    Net_write 64 [.ok 3] .zero 4 0 0 100 = some ⟨0, .zero, [], [.ok 3]⟩ ∧
    Net_write 64 [.fail .EINTR, .fail .EINTR] .zero 4 0 10 100 = none := by
  refine ⟨?_, ?_, ?_, ?_, ?_⟩
  · rfl
  · rfl
  · rfl
  · rfl
  · rfl

/-! ## OutputStream -/

/-- C23: the code of `OutputStream_write` leaves every stream as it is, for
every input: after a write of three bytes to a new, open stream
`OutputStream_buffered` is 0, as before the call, where the claim gives 3.
On a closed stream or with a null buffer the call changes nothing, as the
claim says. -/
theorem C23_write_appends_nothing :
    (OutputStream_new 1).isClosed = false ∧
    OutputStream_buffered (OutputStream_new 1) = 0 ∧
    OutputStream_buffered (OutputStream_write (OutputStream_new 1) (some [97, 98, 99]) 3) = 0 ∧
    (∀ S b size, OutputStream_write S b size = S) := by
  refine ⟨rfl, rfl, rfl, ?_⟩
  intro S b size
  simp [OutputStream_write]

/-- The value `doWrite` sees when `Net_write` returns a count below `2^31`. -/
theorem int_of_size_t_small (x : Nat) (h : x < 2 ^ 31) : int_of_size_t x = x := by
  have h1 : x % 2 ^ 32 = x := Nat.mod_eq_of_lt (by omega)
  unfold int_of_size_t
  rw [h1, if_pos h]

/-- A flush that returns a positive count was made on an open stream with a
non-zero offset, and adds the count to the offset. -/
theorem flush_positive (w : Nat) (script : List SysResult) (errno : Errno) (S : OutputStream_T)
    (r : Ret (Int × OutputStream_T)) (h : OutputStream_flush w script errno S = some r)
    (hn : 0 < r.value.1) :
    S.isClosed = false ∧ S.offset ≠ 0 ∧
      r.value.2 = { S with offset := int_add S.offset r.value.1 } := by
  unfold OutputStream_flush at h
  by_cases hc : S.isClosed = true
  · simp only [hc, if_true, Option.some.injEq] at h
    subst h; simp at hn
  · by_cases ho : S.offset = 0
    · simp only [hc, Bool.false_eq_true, if_false, ho, ne_eq, not_true_eq_false,
        Option.some.injEq] at h
      subst h; simp at hn
    · simp only [hc, Bool.false_eq_true, if_false, ne_eq, ho, not_false_eq_true, if_true,
        doWrite] at h
      refine ⟨by simpa using hc, ho, ?_⟩
      split at h
      · simp at h
      · rename_i q hq
        split_ifs at h with h1 h2
        · have hc2 : S.isClosed = false := by simpa using hc
          simp only [Option.some.injEq] at h; subst h; simp [hc2]
        · simp only [Option.some.injEq] at h; subst h; simp at hn
        · simp only [Option.some.injEq] at h; subst h; exact absurd hn h1

/-- The sum `S->offset += n` inside the range of `int` is the sum of the
integers. -/
theorem int_add_small (a b : Int) (h1 : -(2 ^ 31) ≤ a + b) (h2 : a + b < 2 ^ 31) :
    int_add a b = a + b := by
  unfold int_add int_of_size_t
  by_cases h : 0 ≤ a + b
  · have e1 : (a + b) % (2 : Int) ^ 32 = a + b := Int.emod_eq_of_lt h (by omega)
    rw [e1]
    have e2 : (a + b).toNat % 2 ^ 32 = (a + b).toNat := Nat.mod_eq_of_lt (by omega)
    rw [e2]
    have e3 : (a + b).toNat < 2 ^ 31 := by omega
    rw [if_pos e3]
    omega
  · have e1 : (a + b) % (2 : Int) ^ 32 = a + b + 2 ^ 32 := by
      rw [← Int.add_emod_self]
      exact Int.emod_eq_of_lt (by omega) (by omega)
    rw [e1]
    have e2 : (a + b + 2 ^ 32).toNat % 2 ^ 32 = (a + b + 2 ^ 32).toNat :=
      Nat.mod_eq_of_lt (by omega)
    rw [e2]
    have e3 : ¬ (a + b + 2 ^ 32).toNat < 2 ^ 31 := by omega
    rw [if_neg e3]
    omega

/-- What `doWrite` does to the offset on a stream state with a non-zero
offset, a state no operation of OutputStream.h produces (`runAll_fresh`): on
the state with offset 5 and length 5, when the write takes five bytes the
flush returns 5 and the offset, which `OutputStream_buffered` returns, is 10;
when it takes two it returns 2 and the offset is 7.  For every stream state a
flush that returns a positive count `n` leaves the offset at the `int` sum of
its value before and `n`, which wraps at the end of the range of `int`. -/
theorem flush_adds_count_to_offset :
    bufferedStream.isClosed = false ∧
    OutputStream_buffered bufferedStream = 5 ∧
    OutputStream_flush 64 [.ok 5] .zero bufferedStream =
      some ⟨(5, { bufferedStream with offset := 10 }), .zero, [.write 1 5 2995 (.ok 5)], []⟩ ∧
    OutputStream_buffered { bufferedStream with offset := 10 } = 10 ∧
    OutputStream_flush 64 [.ok 2] .zero bufferedStream =
      some ⟨(2, { bufferedStream with offset := 7 }), .zero, [.write 1 5 2995 (.ok 2)], []⟩ ∧
    OutputStream_buffered { bufferedStream with offset := 7 } = 7 ∧
    (∀ w script errno S r, OutputStream_flush w script errno S = some r → 0 < r.value.1 →
      OutputStream_buffered r.value.2 = int_add (OutputStream_buffered S) r.value.1) ∧
    int_add 5 5 = 10 ∧ int_add 2147483645 5 = -2147483646 := by
  refine ⟨rfl, rfl, ?_, rfl, ?_, rfl, ?_, by decide, by decide⟩
  · rfl
  · rfl
  · intro w script errno S r h hn
    rw [(flush_positive w script errno S r h hn).2.2]
    rfl

/-- One operation on a closed stream: it returns, makes no system call, and
leaves the stream closed with its offset as it was or 0; a flush returns -1. -/
theorem run_closed (w : Nat) (script : List SysResult) (errno : Errno) (S : OutputStream_T)
    (op : StreamOp) (hclosed : S.isClosed = true) :
    ∃ r, StreamOp.run w script errno S op = some r ∧ r.value.2.isClosed = true ∧
      r.trace = [] ∧ r.rest = script ∧ (r.value.1 = none ∨ r.value.1 = some (-1)) ∧
      (OutputStream_buffered S = 0 → OutputStream_buffered r.value.2 = 0) := by
  cases op with
  | write b size => exact ⟨_, rfl, by simp [OutputStream_write, hclosed], rfl, rfl, Or.inl rfl,
      by simp [OutputStream_write]⟩
  | print s => exact ⟨_, rfl, by simp [OutputStream_print, hclosed], rfl, rfl, Or.inl rfl,
      by simp [OutputStream_print]⟩
  | vprint s => exact ⟨_, rfl, by simp [OutputStream_vprint, hclosed], rfl, rfl, Or.inl rfl,
      by simp [OutputStream_vprint]⟩
  | flush =>
    refine ⟨⟨(some (-1), S), errno, [], script⟩, ?_, hclosed, rfl, rfl, Or.inr rfl, fun h => h⟩
    simp [StreamOp.run, OutputStream_flush, hclosed]
  | clear => exact ⟨_, rfl, by simp [OutputStream_clear, hclosed], rfl, rfl, Or.inl rfl,
      by simp [OutputStream_clear, OutputStream_buffered]⟩
  | setTimeout t =>
    refine ⟨_, rfl, ?_, rfl, rfl, Or.inl rfl, ?_⟩
    · simp only [OutputStream_setTimeout]; split <;> simp [hclosed]
    · simp only [OutputStream_setTimeout, OutputStream_buffered]; split <;> simp

/-- C25: closed is permanent and inert.  On every stream with `isClosed` true
`OutputStream_flush` returns -1, makes no system call and leaves the stream
as it is, and `OutputStream_write`, `OutputStream_print` and
`OutputStream_vprint` leave it as it is; after every sequence of the
operations flush, write, print, vprint, clear and setTimeout the stream is
still closed, no system call was made and every flush returned -1; and
`OutputStream_buffered`, which is 0 when `doWrite` closes a stream, is 0
after them. -/
theorem C25_closed_is_permanent (w : Nat) (S : OutputStream_T) (hclosed : S.isClosed = true) :
    (∀ script errno,
      OutputStream_flush w script errno S = some ⟨(-1, S), errno, [], script⟩) ∧
    (∀ b size, OutputStream_write S b size = S) ∧
    (∀ s, OutputStream_print S s = S) ∧
    (∀ s, OutputStream_vprint S s = S) ∧
    (∀ ops script errno, ∃ r, StreamOp.runAll w ops script errno S = some r ∧
      r.value.2.isClosed = true ∧ r.trace = [] ∧ r.rest = script ∧
      (∀ v ∈ r.value.1, v = none ∨ v = some (-1)) ∧
      (OutputStream_buffered S = 0 → OutputStream_buffered r.value.2 = 0)) := by
  refine ⟨?_, ?_, ?_, ?_, ?_⟩
  · intro script errno
    simp [OutputStream_flush, hclosed]
  · intro b size; simp [OutputStream_write]
  · intro s; simp [OutputStream_print]
  · intro s; simp [OutputStream_vprint]
  · intro ops
    induction ops generalizing S with
    | nil =>
      intro script errno
      exact ⟨_, rfl, hclosed, rfl, rfl, by simp, fun h => h⟩
    | cons op ops ih =>
      intro script errno
      obtain ⟨r, hr, h1, h2, h3, h4, h5⟩ := run_closed w script errno S op hclosed
      obtain ⟨q, hq, g1, g2, g3, g4, g5⟩ := ih r.value.2 h1 r.rest r.errno
      refine ⟨⟨(r.value.1 :: q.value.1, q.value.2), q.errno, r.trace ++ q.trace, q.rest⟩,
        ?_, g1, by simp [h2, g2], by simp [g3, h3], ?_, fun h => g5 (h5 h)⟩
      · simp [StreamOp.runAll, hr, hq]
      · intro v hv
        simp only [List.mem_cons] at hv
        rcases hv with rfl | hv
        · exact h4
        · exact g4 v hv

/-- The claim C25 on the stream `doWrite` leaves when it closes a stream: a
flush, and a sequence of all six operations. -/
theorem C25_closed_is_permanent_witness :
    closedStream.isClosed = true ∧
    OutputStream_flush 64 [.ok 5] .zero closedStream =
      some ⟨(-1, closedStream), .zero, [], [.ok 5]⟩ ∧
    ∃ r, StreamOp.runAll 64 [.write (some [97]) 1, .flush, .clear, .setTimeout 0, .print none,
        .vprint (some "a".toList), .flush] [.ok 5] .zero closedStream = some r ∧
      r.value.2.isClosed = true ∧ r.trace = [] ∧ r.rest = [.ok 5] ∧
      (∀ v ∈ r.value.1, v = none ∨ v = some (-1)) ∧
      (OutputStream_buffered closedStream = 0 → OutputStream_buffered r.value.2 = 0) :=
  ⟨rfl, (C25_closed_is_permanent 64 closedStream rfl).1 _ _,
   (C25_closed_is_permanent 64 closedStream rfl).2.2.2.2 _ _ _⟩

/-- C26: on every open stream with nothing buffered `OutputStream_flush`
returns 0, makes no system call and leaves the stream (and the outcomes the
system has in store) as they are. -/
theorem C26_flush_of_empty (w : Nat) (script : List SysResult) (errno : Errno)
    (S : OutputStream_T) (hopen : OutputStream_isClosed S = false)
    (hempty : OutputStream_buffered S = 0) :
    OutputStream_flush w script errno S = some ⟨(0, S), errno, [], script⟩ := by
  simp only [OutputStream_isClosed] at hopen
  simp only [OutputStream_buffered] at hempty
  simp [OutputStream_flush, hopen, hempty]

/-- The claim C26 on a new stream, with a write in store that would take
bytes. -/
theorem C26_flush_of_empty_witness :
    OutputStream_isClosed (OutputStream_new 1) = false ∧
    OutputStream_buffered (OutputStream_new 1) = 0 ∧
    OutputStream_flush 64 [.ok 5] .zero (OutputStream_new 1) =
      some ⟨(0, OutputStream_new 1), .zero, [], [.ok 5]⟩ :=
  ⟨rfl, rfl, C26_flush_of_empty 64 [.ok 5] .zero (OutputStream_new 1) rfl rfl⟩

/-- C28: on every open stream with buffered bytes, when the underlying write
(`Net_write`, as `doWrite` calls it and reads its result) returns a negative
result, or 0 with `errno` other than EAGAIN and EWOULDBLOCK,
`OutputStream_flush` returns -1 and leaves the stream closed with offset and
length 0 and nothing else changed; every later flush of it returns -1, makes
no system call and leaves it so. -/
theorem C28_write_error_closes (w : Nat) (script : List SysResult) (errno : Errno)
    (S : OutputStream_T) (r : Ret Nat) (hopen : OutputStream_isClosed S = false)
    (hbuf : OutputStream_buffered S ≠ 0)
    (hnet : Net_write w script .zero S.fd S.offset (size_t_of_int w (BUFFER_SIZE - S.length))
      S.timeout = some r)
    (hfail : int_of_size_t r.value < 0 ∨
      (int_of_size_t r.value = 0 ∧ r.errno ≠ .EAGAIN ∧ r.errno ≠ .EWOULDBLOCK)) :
    OutputStream_flush w script errno S =
      some ⟨(-1, { S with isClosed := true, offset := 0, length := 0 }), r.errno, r.trace,
        r.rest⟩ ∧
    OutputStream_isClosed { S with isClosed := true, offset := 0, length := 0 } = true ∧
    ∀ script2 errno2,
      OutputStream_flush w script2 errno2 { S with isClosed := true, offset := 0, length := 0 } =
        some ⟨(-1, { S with isClosed := true, offset := 0, length := 0 }), errno2, [],
          script2⟩ := by
  simp only [OutputStream_isClosed] at hopen
  simp only [OutputStream_buffered] at hbuf
  refine ⟨?_, rfl, ?_⟩
  · simp only [OutputStream_flush, hopen, Bool.false_eq_true, if_false, ne_eq, hbuf,
      not_false_eq_true, if_true, doWrite, hnet]
    rcases hfail with h | ⟨h0, h1, h2⟩
    · have h' : ¬ int_of_size_t r.value > 0 := by omega
      simp [h', h]
    · simp [h0, h1, h2]
  · intro script2 errno2
    simp [OutputStream_flush]

/-- The claim C28 on an open stream with five bytes, when the write fails
with an error that is not would-block: the flush returns -1 and leaves the
closed stream, and the next flush returns -1. -/
theorem C28_write_error_closes_witness :
    OutputStream_flush 64 [.fail (.other 32)] .zero bufferedStream =
      some ⟨(-1, { bufferedStream with isClosed := true, offset := 0, length := 0 }), .other 32,
        [.write 1 5 2995 (.fail (.other 32))], []⟩ ∧
    OutputStream_isClosed { bufferedStream with isClosed := true, offset := 0, length := 0 } =
      true ∧
    ∀ script2 errno2,
      OutputStream_flush 64 script2 errno2
          { bufferedStream with isClosed := true, offset := 0, length := 0 } =
        some ⟨(-1, { bufferedStream with isClosed := true, offset := 0, length := 0 }), errno2, [],
          script2⟩ :=
  C28_write_error_closes 64 [.fail (.other 32)] .zero bufferedStream
    ⟨2 ^ 64 - 1, .other 32, [.write 1 5 2995 (.fail (.other 32))], []⟩ rfl (by decide) rfl
    (Or.inl (by decide))

/-- C29: after `OutputStream_clear` on any stream `OutputStream_buffered` is
0 and the closed flag, the descriptor, the timeout and the bytes-written
counter are as before; the call makes no system call (as an operation it
leaves the trace empty and the outcomes in store untouched). -/
theorem C29_clear (w : Nat) (script : List SysResult) (errno : Errno) (S : OutputStream_T) :
    OutputStream_buffered (OutputStream_clear S) = 0 ∧
    OutputStream_isClosed (OutputStream_clear S) = OutputStream_isClosed S ∧
    OutputStream_getDescriptor (OutputStream_clear S) = OutputStream_getDescriptor S ∧
    OutputStream_getTimeout (OutputStream_clear S) = OutputStream_getTimeout S ∧
    (OutputStream_clear S).bytesWritten = S.bytesWritten ∧
    OutputStream_clear S = { S with offset := 0, length := 0 } ∧
    StreamOp.run w script errno S .clear =
      some ⟨(none, OutputStream_clear S), errno, [], script⟩ ∧
    OutputStream_buffered (OutputStream_clear bufferedStream) = 0 ∧
    OutputStream_buffered bufferedStream = 5 :=
  ⟨rfl, rfl, rfl, rfl, rfl, rfl, rfl, rfl, rfl⟩

/-- The flush of an open stream with buffered bytes when `Net_write` returns
0: the stream stays as it is when `errno` is EAGAIN or EWOULDBLOCK, and is
closed otherwise. -/
theorem flush_of_zero (w : Nat) (script : List SysResult) (errno : Errno) (S : OutputStream_T)
    (r : Ret Nat) (hopen : S.isClosed = false) (hbuf : S.offset ≠ 0)
    (hnet : Net_write w script .zero S.fd S.offset (size_t_of_int w (BUFFER_SIZE - S.length))
      S.timeout = some r)
    (hzero : r.value = 0) :
    OutputStream_flush w script errno S =
      if r.errno = .EAGAIN ∨ r.errno = .EWOULDBLOCK then some ⟨(0, S), r.errno, r.trace, r.rest⟩
      else some ⟨(-1, { S with isClosed := true, offset := 0, length := 0 }), r.errno, r.trace,
        r.rest⟩ := by
  have h0 : int_of_size_t r.value = 0 := by rw [hzero]; rfl
  simp only [OutputStream_flush, hopen, Bool.false_eq_true, if_false, ne_eq, hbuf,
    not_false_eq_true, if_true, doWrite, hnet, h0]
  by_cases he : r.errno = .EAGAIN ∨ r.errno = .EWOULDBLOCK
  · simp [he]
  · simp [he]

theorem isWouldBlock_errno (o : SysResult) (errno : Errno) (k : Nat)
    (h : o.isWouldBlock = true) :
    (errnoAfter errno k o = .EAGAIN ∨ errnoAfter errno k o = .EWOULDBLOCK) ∧
      o ≠ .fail .EINTR := by
  cases o with
  | ok n => simp [SysResult.isWouldBlock] at h
  | fail e =>
    simp only [SysResult.isWouldBlock, Bool.or_eq_true, beq_iff_eq] at h
    refine ⟨by simpa [errnoAfter] using h, ?_⟩
    rcases h with h | h <;> simp [h]

/-- On an open stream state with a non-zero offset, when
the write reports would-block (after any number of interrupted attempts) and
either the timeout of the stream leaves no time to wait or the readiness wait
times out without being interrupted, `OutputStream_flush` returns 0 and the
stream is as it was, open with its bytes. -/
theorem flush_would_block (w : Nat) (S : OutputStream_T) (errno : Errno) (k : Nat)
    (o : SysResult) (rest : List SysResult) (hopen : S.isClosed = false) (hbuf : S.offset ≠ 0)
    (hsize : 0 < size_t_of_int w (BUFFER_SIZE - S.length)) (hblock : o.isWouldBlock = true) :
    (S.timeout ≤ 0 → ∃ e tr,
      OutputStream_flush w (interrupted k ++ o :: rest) errno S = some ⟨(0, S), e, tr, rest⟩) ∧
    (0 < S.timeout → ∃ e tr,
      OutputStream_flush w (interrupted k ++ o :: (interrupted 0 ++ .ok 0 :: rest)) errno S =
        some ⟨(0, S), e, tr, rest⟩) := by
  obtain ⟨he, ho⟩ := isWouldBlock_errno o .zero k hblock
  have hp := transfer_protocol w
    (NetEvent.write S.fd S.offset (size_t_of_int w (BUFFER_SIZE - S.length)))
    (NetEvent.poll S.fd .POLLOUT S.timeout) (size_t_of_int w (BUFFER_SIZE - S.length)) S.timeout
    hsize .zero k o
  refine ⟨fun ht => ?_, fun ht => ?_⟩
  · have h1 := (hp rest ho).2.1 hblock ht
    have h2 := flush_of_zero w _ errno S _ hopen hbuf h1 rfl
    rw [h2]
    simp only [he, if_true]
    exact ⟨_, _, rfl⟩
  · have h1 := ((hp [] ho).2.2 hblock ht 0 (.ok 0) rest (by simp)).1 rfl
    have h2 := flush_of_zero w _ errno S _ hopen hbuf h1 rfl
    rw [h2]
    have he2 : errnoAfter (errnoAfter .zero k o) 0 (.ok 0) = errnoAfter .zero k o := rfl
    simp only [he2, he, if_true]
    exact ⟨_, _, rfl⟩

/-- What `OutputStream_flush` does on a stream state with a non-zero offset, a
state no operation of OutputStream.h produces (`runAll_fresh`), when the write
reports would-block and the readiness wait is interrupted by a signal, is
resumed and times out: `errno` is then EINTR, the flush returns -1 and the
stream is closed with offset and length 0.  So it is on the state with offset
5, length 5 and a timeout of 3000, and on every open state with a non-zero
offset for every number of interruptions of the wait that is not 0. -/
theorem flush_after_interrupted_wait :
    bufferedStream.isClosed = false ∧ OutputStream_buffered bufferedStream = 5 ∧
    bufferedStream.timeout = 3000 ∧
    OutputStream_flush 64 [.fail .EAGAIN, .fail .EINTR, .ok 0] .zero bufferedStream =
      some ⟨(-1, closedStream), .EINTR,
        [.write 1 5 2995 (.fail .EAGAIN), .poll 1 .POLLOUT 3000 (.fail .EINTR),
         .poll 1 .POLLOUT 3000 (.ok 0)], []⟩ ∧
    closedStream.isClosed = true ∧ OutputStream_buffered closedStream = 0 ∧
    (∀ (w : Nat) (S : OutputStream_T) (errno : Errno) (k j : Nat) (o : SysResult)
        (rest : List SysResult),
      S.isClosed = false → S.offset ≠ 0 → 0 < size_t_of_int w (BUFFER_SIZE - S.length) →
      o.isWouldBlock = true → 0 < S.timeout → 0 < j →
      ∃ tr, OutputStream_flush w (interrupted k ++ o :: (interrupted j ++ .ok 0 :: rest)) errno S =
        some ⟨(-1, { S with isClosed := true, offset := 0, length := 0 }), .EINTR, tr, rest⟩) := by
  refine ⟨rfl, rfl, rfl, rfl, rfl, rfl, ?_⟩
  intro w S errno k j o rest hopen hbuf hsize hblock ht hj
  obtain ⟨-, ho⟩ := isWouldBlock_errno o .zero k hblock
  have hp := transfer_protocol w
    (NetEvent.write S.fd S.offset (size_t_of_int w (BUFFER_SIZE - S.length)))
    (NetEvent.poll S.fd .POLLOUT S.timeout) (size_t_of_int w (BUFFER_SIZE - S.length)) S.timeout
    hsize .zero k o
  have h1 := ((hp [] ho).2.2 hblock ht j (.ok 0) rest (by simp)).1 rfl
  have h2 := flush_of_zero w _ errno S _ hopen hbuf h1 rfl
  rw [h2]
  have hj' : j ≠ 0 := by omega
  have he2 : errnoAfter (errnoAfter .zero k o) j (.ok 0) = .EINTR := by
    simp [errnoAfter, hj']
  have hne : ¬ (Errno.EINTR = .EAGAIN ∨ Errno.EINTR = .EWOULDBLOCK) := by decide
  rw [he2, if_neg hne]
  exact ⟨_, rfl⟩

/-! ## Str: prefix, suffix and trimming -/

/-- The loop of `Str_startsWith` on two strings: it ends in true exactly when
`b` is a prefix of `a` and, when `b` is empty, `a` is empty too or the loop
has compared a byte. -/
theorem startsWith_loop (a b : CStr) (moved : Bool) (ha : NUL ∉ a) (hb : NUL ∉ b) :
    Str_startsWith.loop a b moved = true ↔ b <+: a ∧ (b = [] → a = [] ∨ moved = true) := by
  induction a generalizing b moved with
  | nil =>
    cases b with
    | nil => simp [Str_startsWith.loop]
    | cons y b =>
      have hy : y ≠ NUL := fun e => hb (by simp [e])
      have hy2 : ¬ NUL = y := fun e => hy e.symm
      simp [Str_startsWith.loop, hy, hy2]
  | cons x a ih =>
    cases b with
    | nil =>
      have hx : x ≠ NUL := fun e => ha (by simp [e])
      simp [Str_startsWith.loop, hx]
    | cons y b =>
      have ha2 : NUL ∉ a := fun h => ha (List.mem_cons_of_mem _ h)
      have hb2 : NUL ∉ b := fun h => hb (List.mem_cons_of_mem _ h)
      by_cases hxy : x = y
      · subst hxy
        simp [Str_startsWith.loop, ih b true ha2 hb2, List.cons_prefix_cons]
      · have hyx : ¬ y = x := fun e => hxy e.symm
        simp [Str_startsWith.loop, hxy, hyx, List.cons_prefix_cons]

/-- C31, as amended: for all strings `a` and `b`, `Str_startsWith(a, b)`
returns true if and only if `b` is a byte-wise prefix of `a` and `b` is not
the empty string unless `a` is empty too; so it is false whenever `a` is
shorter than `b`; and it is false when either argument is null. -/
theorem C31_startsWith (a b : CStr) (ha : NUL ∉ a) (hb : NUL ∉ b) :
    (Str_startsWith (some a) (some b) = true ↔ b <+: a ∧ (b = [] → a = [])) ∧
    (a.length < b.length → Str_startsWith (some a) (some b) = false) ∧
    Str_startsWith none (some b) = false ∧
    Str_startsWith (some a) none = false ∧
    Str_startsWith none none = false := by
  have h := startsWith_loop a b false ha hb
  have h1 : Str_startsWith (some a) (some b) = true ↔ b <+: a ∧ (b = [] → a = []) := by
    simpa [Str_startsWith] using h
  refine ⟨h1, ?_, rfl, rfl, rfl⟩
  intro hlen
  cases hs : Str_startsWith (some a) (some b) with
  | false => rfl
  | true =>
    have := (h1.1 hs).1.length_le
    omega

/-- The claim C31 as amended, on `"abc"` and `"ab"`. -/
theorem C31_startsWith_witness :
    NUL ∉ "abc".toList ∧ NUL ∉ "ab".toList ∧
    ((Str_startsWith (some "abc".toList) (some "ab".toList) = true ↔
        "ab".toList <+: "abc".toList ∧ ("ab".toList = [] → "abc".toList = [])) ∧
      ("abc".toList.length < "ab".toList.length →
        Str_startsWith (some "abc".toList) (some "ab".toList) = false) ∧
      Str_startsWith none (some "ab".toList) = false ∧
      Str_startsWith (some "abc".toList) none = false ∧
      Str_startsWith none none = false) :=
  ⟨by decide, by decide, C31_startsWith "abc".toList "ab".toList (by decide) (by decide)⟩

/-- C31 as it is written fails: the empty string is a byte-wise prefix of
`"abc"`, and `Str_startsWith("abc", "")` returns false. -/
theorem C31_startsWith_counterexample :
    ¬ (Str_startsWith (some "abc".toList) (some "".toList) = true ↔
        "".toList <+: "abc".toList) := by
  decide

/-- C32: the code of `Str_endsWith` never compares the first byte of `b`:
`Str_endsWith("abc", "xbc")` and `Str_endsWith("abc", "x")` return true, where
`"xbc"` and `"x"` are no suffixes of `"abc"`; for every non-empty `a` and
every byte `c`, `Str_endsWith(a, c)` returns true.  On other inputs the code
returns what the claim says. -/
theorem C32_endsWith_skips_first_byte :
    Str_endsWith (some "abc".toList) (some "xbc".toList) = true ∧
    ¬ ("xbc".toList <:+ "abc".toList) ∧
    Str_endsWith (some "abc".toList) (some "x".toList) = true ∧
    ¬ ("x".toList <:+ "abc".toList) ∧
    (∀ (a : CStr) (c : Char), a ≠ [] → Str_endsWith (some a) (some [c]) = true) ∧
    Str_endsWith (some "abc".toList) (some "bc".toList) = true ∧
    Str_endsWith (some "abc".toList) (some "bd".toList) = false ∧
    Str_endsWith (some "bc".toList) (some "abc".toList) = false ∧
    Str_endsWith none (some "bc".toList) = false ∧
    Str_endsWith (some "abc".toList) none = false := by
  refine ⟨by decide, by decide, by decide, by decide, ?_, by decide, by decide, by decide, rfl,
    rfl⟩
  intro a c ha
  cases a with
  | nil => exact absurd rfl ha
  | cons x a => simp [Str_endsWith, Str_endsWith.loop]

/-- C33: the code of `Str_trim` on a string of one blank at the start of its
object: `Str_rtrim` clears the blank and then reads `s[-1]`, outside the
object, so the call has no defined result, where the claim gives the empty
string; for a string of one blank behind a blank, `Str_rtrim` returns and has
cleared the byte before the string.  `Str_ltrim` alone does what the claim
says on these strings, and `Str_trim` on `" a b "`. -/
theorem C33_trim_of_blank_string :
    Str_rtrim [' ', NUL] 0 = none ∧
    Str_trim [' ', NUL] 0 = none ∧
    Str_trim (" \t ".toList ++ [NUL]) 0 = none ∧
    Str_rtrim ['x', ' ', ' ', NUL] 2 = some ['x', NUL, NUL, NUL] ∧
    Str_ltrim [' ', NUL] 0 = some [NUL, NUL] ∧
    (Str_trim (" a b ".toList ++ [NUL]) 0).bind (fun m => cstrAt m 0) = some "a b".toList := by
  decide

/-! ## Str: alphanumeric strings -/

theorem get?_eq (m pre a post : List Char) (n : Nat) (x : Char)
    (hm : m = pre ++ (a ++ x :: post)) (hn : n = pre.length + a.length) :
    m.get? n = some x := by
  subst hm hn
  exact get?_append_mid pre a post x

set_option maxRecDepth 100000 in
/-- The table `nonalnum` marks the bytes other than NUL that are no ASCII
letter or digit. -/
theorem nonalnum_table :
    ∀ n, n < 256 → n ≠ 0 → (nonalnum.getD n 1 != 0) =
      !((48 ≤ n && n ≤ 57) || (65 ≤ n && n ≤ 90) || (97 ≤ n && n ≤ 122)) := by
  decide

set_option maxRecDepth 100000 in
theorem nonalnum_length : nonalnum.length = 256 := by decide

theorem isNonalnum_NUL : isNonalnum NUL = false := by decide

theorem isNonalnum_eq (c : Char) (hc : c ≠ NUL) : isNonalnum c = !isAsciiAlnum c := by
  have h0 : c.toNat ≠ 0 := by
    intro h
    apply hc
    apply Char.ext
    apply UInt32.ext
    have : c.val.toNat = 0 := h
    rw [this]
    rfl
  by_cases h : c.toNat < 256
  · unfold isNonalnum isAsciiAlnum
    exact nonalnum_table c.toNat h h0
  · have h1 : nonalnum.length = 256 := nonalnum_length
    have h2 : nonalnum.getD c.toNat 1 = 1 := by
      rw [List.getD_eq_default]
      omega
    have h3 : isAsciiAlnum c = false := by
      simp only [isAsciiAlnum, Bool.or_eq_false_iff, Bool.and_eq_false_iff,
        decide_eq_false_iff_not]
      omega
    unfold isNonalnum
    rw [h2, h3]
    rfl

/-- The inner loop of `Str_toalnum` moves the rest of the string one byte to
the left, over the byte at `y`. -/
theorem toalnum_shift (t : List Char) :
    ∀ (pre rest : List Char) (c : Char) (fuel : Nat), NUL ∉ t → t.length < fuel →
      Str_toalnum.shift fuel (pre ++ (c :: (t ++ NUL :: rest))) pre.length =
        some (pre ++ (t ++ NUL :: NUL :: rest)) := by
  induction t with
  | nil =>
    intro pre rest c fuel _ hf
    obtain ⟨f, rfl⟩ : ∃ f, fuel = f + 1 := ⟨fuel - 1, by simp at hf; omega⟩
    have hg : (pre ++ (c :: ([] ++ NUL :: rest))).get? (pre.length + 1) = some NUL :=
      get?_eq _ pre [c] rest _ NUL (by simp) (by simp)
    have hset : (pre ++ (c :: ([] ++ NUL :: rest))).set pre.length NUL =
        pre ++ ([] ++ NUL :: NUL :: rest) :=
      set_eq _ pre [] (NUL :: rest) _ c NUL (by simp) (by simp)
    simp only [Str_toalnum.shift, hg, ne_eq, not_true_eq_false, if_false, hset]
  | cons d t ih =>
    intro pre rest c fuel ht hf
    obtain ⟨f, rfl⟩ : ∃ f, fuel = f + 1 := ⟨fuel - 1, by simp at hf; omega⟩
    have hd : d ≠ NUL := fun e => ht (by simp [e])
    have ht2 : NUL ∉ t := fun h => ht (List.mem_cons_of_mem _ h)
    have hg : (pre ++ (c :: (d :: t ++ NUL :: rest))).get? (pre.length + 1) = some d :=
      get?_eq _ pre [c] (t ++ NUL :: rest) _ d (by simp) (by simp)
    have hset : (pre ++ (c :: (d :: t ++ NUL :: rest))).set pre.length d =
        (pre ++ [d]) ++ (d :: (t ++ NUL :: rest)) :=
      (set_eq _ pre [] (d :: t ++ NUL :: rest) _ c d (by simp) (by simp)).trans (by simp)
    have h := ih (pre ++ [d]) rest d f ht2 (by simp at hf; omega)
    simp only [List.length_append, List.length_singleton] at h
    simp only [Str_toalnum.shift, hg, ne_eq, hd, not_false_eq_true, if_true, hset, h]
    simp

/-- The loop `while (nonalnum[p[x]])` of `Str_toalnum` removes the bytes that
are not alphanumeric at the head of the string at `x`. -/
theorem toalnum_strip (u : List Char) :
    ∀ (pre rest : List Char) (fuel : Nat), NUL ∉ u →
      (u.takeWhile isNonalnum).length < fuel →
      Str_toalnum.strip fuel (pre ++ (u ++ NUL :: rest)) pre.length =
        some (pre ++ (u.dropWhile isNonalnum ++
          NUL :: (List.replicate (u.takeWhile isNonalnum).length NUL ++ rest))) := by
  induction u with
  | nil =>
    intro pre rest fuel _ hf
    obtain ⟨f, rfl⟩ : ∃ f, fuel = f + 1 := ⟨fuel - 1, by simp at hf; omega⟩
    have hg : (pre ++ NUL :: rest).get? pre.length = some NUL :=
      get?_eq _ pre [] rest _ NUL rfl (by simp)
    simp only [Str_toalnum.strip, hg, isNonalnum_NUL, Bool.false_eq_true, if_false,
      List.dropWhile_nil, List.takeWhile_nil, List.length_nil, List.replicate_zero,
      List.nil_append]
  | cons c u ih =>
    intro pre rest fuel hu hf
    have hu2 : NUL ∉ u := fun h => hu (List.mem_cons_of_mem _ h)
    have hg : (pre ++ (c :: u ++ NUL :: rest)).get? pre.length = some c :=
      get?_eq _ pre [] (u ++ NUL :: rest) _ c (by simp) (by simp)
    by_cases hc : isNonalnum c = true
    · simp only [List.takeWhile_cons, hc, if_true, List.length_cons] at hf
      obtain ⟨f, rfl⟩ : ∃ f, fuel = f + 1 := ⟨fuel - 1, by omega⟩
      have hsh := toalnum_shift u pre rest c ((pre ++ (c :: u ++ NUL :: rest)).length + 1) hu2
        (by simp; omega)
      have hsh2 : Str_toalnum.shift ((pre ++ (c :: u ++ NUL :: rest)).length + 1)
          (pre ++ (c :: u ++ NUL :: rest)) pre.length =
          some (pre ++ (u ++ NUL :: NUL :: rest)) := by simpa using hsh
      have h := ih pre (NUL :: rest) f hu2 (by omega)
      simp only [Str_toalnum.strip, hg, hc, if_true, hsh2, Option.some_bind, h,
        List.dropWhile_cons, List.takeWhile_cons, List.length_cons, List.replicate_succ']
      simp
    · obtain ⟨f, rfl⟩ : ∃ f, fuel = f + 1 := ⟨fuel - 1, by
        simp only [List.takeWhile_cons, hc] at hf; simp at hf; omega⟩
      simp only [Str_toalnum.strip, hg, hc, Bool.false_eq_true, if_false, List.dropWhile_cons,
        List.takeWhile_cons, List.length_nil, List.replicate_zero, List.nil_append]

theorem takeWhile_length_add_dropWhile (u : List Char) (p : Char → Bool) :
    (u.takeWhile p).length + (u.dropWhile p).length = u.length := by
  have := congrArg List.length (List.takeWhile_append_dropWhile p u)
  rw [List.length_append] at this
  exact this

theorem filter_not_takeWhile (u : List Char) (p : Char → Bool) :
    u.filter (fun c => !p c) = (u.dropWhile p).filter (fun c => !p c) := by
  induction u with
  | nil => rfl
  | cons c u ih =>
    by_cases hc : p c = true
    · simp [List.filter_cons, List.dropWhile_cons, hc, ih]
    · simp [List.dropWhile_cons, hc]

/-- The loop `for (x = 0; p[x]; x++)` of `Str_toalnum` on the string at `x`:
the alphanumeric bytes stay, in their order, and every byte removed leaves a
NUL behind the string. -/
theorem toalnum_loop (n : Nat) :
    ∀ (u pre rest : List Char) (fuel : Nat), u.length = n → NUL ∉ u → u.length < fuel →
      Str_toalnum.loop fuel (pre ++ (u ++ NUL :: rest)) pre.length =
        some (pre ++ (u.filter (fun c => !isNonalnum c) ++ NUL ::
          (List.replicate (u.length - (u.filter (fun c => !isNonalnum c)).length) NUL ++
            rest))) := by
  induction n using Nat.strong_induction_on with
  | _ n ih =>
    intro u pre rest fuel hn hu hf
    obtain ⟨f, rfl⟩ : ∃ f, fuel = f + 1 := ⟨fuel - 1, by omega⟩
    cases u with
    | nil =>
      have hg : (pre ++ NUL :: rest).get? pre.length = some NUL :=
        get?_eq _ pre [] rest _ NUL rfl (by simp)
      simp only [Str_toalnum.loop, List.nil_append, hg, ne_eq, not_true_eq_false, if_false,
        List.filter_nil, List.length_nil, Nat.sub_self, List.replicate_zero]
    | cons c u =>
      have hc : c ≠ NUL := fun e => hu (by simp [e])
      have hg : (pre ++ (c :: u ++ NUL :: rest)).get? pre.length = some c :=
        get?_eq _ pre [] (u ++ NUL :: rest) _ c (by simp) (by simp)
      have hlen := takeWhile_length_add_dropWhile (c :: u) isNonalnum
      have hstrip := toalnum_strip (c :: u) pre rest
        ((pre ++ (c :: u ++ NUL :: rest)).length + 1) hu
        (by simp only [List.length_append, List.length_cons] at *; omega)
      rw [Str_toalnum.loop]
      simp only [hg, ne_eq, hc, not_false_eq_true, if_true, hstrip, Option.some_bind]
      rw [filter_not_takeWhile (c :: u) isNonalnum]
      cases hv : (c :: u).dropWhile isNonalnum with
      | nil =>
        rw [hv] at hlen
        simp only [List.length_nil, Nat.add_zero] at hlen
        obtain ⟨k, hk⟩ : ∃ k, ((c :: u).takeWhile isNonalnum).length = k + 1 :=
          ⟨u.length, by rw [hlen]; simp⟩
        obtain ⟨g, rfl⟩ : ∃ g, f = g + 1 := ⟨f - 1, by simp at hf; omega⟩
        have hg2 : (pre ++ NUL :: (List.replicate (k + 1) NUL ++ rest)).get?
            (pre.length + 1) = some NUL :=
          get?_eq _ pre [NUL] (List.replicate k NUL ++ rest) _ NUL
            (by simp [List.replicate_succ]) (by simp)
        rw [hk, Str_toalnum.loop]
        simp only [hg2, ne_eq, not_true_eq_false, if_false, List.filter_nil, List.length_nil,
          Nat.sub_zero, List.nil_append]
        rw [← hlen, hk]
      | cons d v =>
        rw [hv] at hlen
        have hd : isNonalnum d = false := by
          have := List.head_dropWhile_not isNonalnum (c :: u) (by rw [hv]; simp)
          simpa [hv] using this
        have hv2 : NUL ∉ d :: v := by
          intro h
          exact hu ((List.dropWhile_sublist _).subset (by rw [hv]; exact h))
        have hv3 : NUL ∉ v := fun h => hv2 (List.mem_cons_of_mem _ h)
        have hvl : v.length < (c :: u).length := by
          simp only [List.length_cons] at hlen ⊢; omega
        have h := ih v.length (by rw [← hn]; exact hvl) v (pre ++ [d])
          (List.replicate ((c :: u).takeWhile isNonalnum).length NUL ++ rest) f rfl hv3
          (by simp only [List.length_cons] at hf hvl; omega)
        simp only [List.length_append, List.length_singleton, List.append_assoc,
          List.singleton_append] at h
        rw [List.cons_append, h]
        have hfl : (v.filter (fun c => !isNonalnum c)).length ≤ v.length :=
          List.length_filter_le _ _
        have hcount : (c :: u).length - ((d :: v).filter (fun c => !isNonalnum c)).length =
            (v.length - (v.filter (fun c => !isNonalnum c)).length) +
              ((c :: u).takeWhile isNonalnum).length := by
          simp only [List.filter_cons, hd, Bool.not_false, if_true, List.length_cons] at hlen ⊢
          omega
        rw [hcount, List.replicate_add, List.append_assoc]
        simp only [List.filter_cons, hd, Bool.not_false, if_true, List.cons_append]

/-- The function `Str_toalnum` on a string and the bytes behind it: it
returns, the string afterwards is the alphanumeric bytes in their order, and
the bytes behind the old terminator are untouched. -/
theorem Str_toalnum_spec (s rest : List Char) (hs : NUL ∉ s) :
    Str_toalnum (s ++ NUL :: rest) =
      some (s.filter isAsciiAlnum ++ NUL ::
        (List.replicate (s.length - (s.filter isAsciiAlnum).length) NUL ++ rest)) := by
  have hfilter : s.filter (fun c => !isNonalnum c) = s.filter isAsciiAlnum := by
    apply List.filter_congr
    intro c hc
    have hne : c ≠ NUL := fun e => hs (e ▸ hc)
    simp [isNonalnum_eq c hne]
  cases s with
  | nil => simp [Str_toalnum]
  | cons c s =>
    have hc : c ≠ NUL := fun e => hs (by simp [e])
    have h := toalnum_loop (c :: s).length (c :: s) [] rest
      ((c :: s ++ NUL :: rest).length + 1) rfl hs (by simp; omega)
    simp only [List.nil_append, List.length_nil] at h
    rw [hfilter] at h
    have hg : (c :: s ++ NUL :: rest).get? 0 = some c := rfl
    simp only [Str_toalnum, hg, ne_eq, hc, not_false_eq_true, if_true]
    exact h

theorem isalnum_loop (s : CStr) :
    Str_isalnum.loop s = true ↔ ∀ c ∈ s, isNonalnum c = false := by
  induction s with
  | nil => simp [Str_isalnum.loop]
  | cons c s ih =>
    by_cases hc : isNonalnum c = true
    · simp [Str_isalnum.loop, hc]
    · simp [Str_isalnum.loop, hc, ih]

/-- C34: for every string `s`, `Str_toalnum(s)` returns, and the string it
leaves is exactly the bytes of `s` that are ASCII letters or digits, in their
order; it writes nothing behind the terminator of `s`.  `Str_isalnum` of a
result that is not empty is true, and `Str_isalnum(s)` is true if and only if
`s` is not empty and holds ASCII letters and digits only. -/
theorem C34_toalnum (s rest : List Char) (hs : NUL ∉ s) :
    (∃ m, Str_toalnum (s ++ NUL :: rest) = some m ∧
      cstrOf m = some (s.filter isAsciiAlnum) ∧
      m.length = (s ++ NUL :: rest).length ∧ m.drop (s.length + 1) = rest) ∧
    (s.filter isAsciiAlnum ≠ [] → Str_isalnum (some (s.filter isAsciiAlnum)) = true) ∧
    (Str_isalnum (some s) = true ↔ s ≠ [] ∧ ∀ c ∈ s, isAsciiAlnum c = true) ∧
    Str_isalnum none = false := by
  have hmem : ∀ t : List Char, NUL ∉ t →
      (Str_isalnum (some t) = true ↔ t ≠ [] ∧ ∀ c ∈ t, isAsciiAlnum c = true) := by
    intro t ht
    have hiff : (∀ c ∈ t, isNonalnum c = false) ↔ ∀ c ∈ t, isAsciiAlnum c = true := by
      constructor
      · intro h c hc
        have hne : c ≠ NUL := fun e => ht (e ▸ hc)
        have := h c hc
        rw [isNonalnum_eq c hne] at this
        simpa using this
      · intro h c hc
        have hne : c ≠ NUL := fun e => ht (e ▸ hc)
        rw [isNonalnum_eq c hne, h c hc]
        rfl
    cases t with
    | nil => simp [Str_isalnum]
    | cons c t =>
      simp only [Str_isalnum, isalnum_loop, hiff, ne_eq, reduceCtorEq, not_false_eq_true,
        true_and]
  have hfl : (s.filter isAsciiAlnum).length ≤ s.length := List.length_filter_le _ _
  have hnf : NUL ∉ s.filter isAsciiAlnum := fun h => hs (List.mem_of_mem_filter h)
  refine ⟨⟨_, Str_toalnum_spec s rest hs, cstrOf_append _ _ hnf, ?_, ?_⟩, ?_, hmem s hs, rfl⟩
  · simp only [List.length_append, List.length_cons, List.length_replicate]
    omega
  · have hlen : s.length + 1 = (s.filter isAsciiAlnum ++ NUL ::
        List.replicate (s.length - (s.filter isAsciiAlnum).length) NUL).length := by
      simp only [List.length_append, List.length_cons, List.length_replicate]
      omega
    have hsplit : s.filter isAsciiAlnum ++ NUL ::
        (List.replicate (s.length - (s.filter isAsciiAlnum).length) NUL ++ rest) =
        (s.filter isAsciiAlnum ++ NUL ::
          List.replicate (s.length - (s.filter isAsciiAlnum).length) NUL) ++ rest := by
      simp
    rw [hsplit, hlen, List.drop_left]
  · intro hne
    rw [hmem _ hnf]
    refine ⟨hne, fun c hc => ?_⟩
    exact (List.mem_filter.1 hc).2

/-- The claim C34 on the string of Str.h, `"Ab_cD4#2E-F&G?"`, with two bytes
behind it. -/
theorem C34_toalnum_witness :
    NUL ∉ "Ab_cD4#2E-F&G?".toList ∧
    "Ab_cD4#2E-F&G?".toList.filter isAsciiAlnum = "AbcD42EFG".toList ∧
    ((∃ m, Str_toalnum ("Ab_cD4#2E-F&G?".toList ++ NUL :: ['x', 'y']) = some m ∧
        cstrOf m = some ("Ab_cD4#2E-F&G?".toList.filter isAsciiAlnum) ∧
        m.length = ("Ab_cD4#2E-F&G?".toList ++ NUL :: ['x', 'y']).length ∧
        m.drop ("Ab_cD4#2E-F&G?".toList.length + 1) = ['x', 'y']) ∧
      ("Ab_cD4#2E-F&G?".toList.filter isAsciiAlnum ≠ [] →
        Str_isalnum (some ("Ab_cD4#2E-F&G?".toList.filter isAsciiAlnum)) = true) ∧
      (Str_isalnum (some "Ab_cD4#2E-F&G?".toList) = true ↔
        "Ab_cD4#2E-F&G?".toList ≠ [] ∧ ∀ c ∈ "Ab_cD4#2E-F&G?".toList, isAsciiAlnum c = true) ∧
      Str_isalnum none = false) :=
  ⟨by decide, by decide, C34_toalnum "Ab_cD4#2E-F&G?".toList ['x', 'y'] (by decide)⟩

/-- Runs of `Str_toalnum` and `Str_isalnum`: the example of Str.h, a string
without a letter or digit, the empty string and a string that is not
terminated inside its object. -/
theorem toalnum_examples :
    (Str_toalnum ("Ab_cD4#2E-F&G?".toList ++ [NUL])).bind cstrOf = some "AbcD42EFG".toList ∧
    Str_toalnum ("_-_".toList ++ [NUL]) = some [NUL, NUL, NUL, NUL] ∧
    Str_toalnum [NUL, 'x'] = some [NUL, 'x'] ∧
    Str_toalnum "a_b".toList = none ∧
    Str_isalnum (some "AbcD42EFG".toList) = true ∧
    Str_isalnum (some "a b".toList) = false ∧
    Str_isalnum (some []) = false := by
  decide

/-! ## Str: numbers to strings -/

theorem spec_decimal_nat_lt (m : Nat) (h : m < 10) : spec_decimal_nat m = [digitChar m] := by
  by_cases h0 : m = 0
  · subst h0; rfl
  · simp [spec_decimal_nat, h0, Nat.digits_of_lt 10 m h0 h]

theorem spec_decimal_nat_step (m : Nat) (h : 0 < m / 10) :
    spec_decimal_nat m = spec_decimal_nat (m / 10) ++ [digitChar (m % 10)] := by
  have h0 : m ≠ 0 := by
    intro e; subst e; simp at h
  have h1 : m / 10 ≠ 0 := by omega
  have hd := Nat.digits_def' (by norm_num : 1 < 10) (Nat.pos_of_ne_zero h0)
  simp [spec_decimal_nat, h0, h1, hd]

theorem take_set_le (s : List Char) (c : Char) :
    ∀ t k, k ≤ t → (s.set t c).take k = s.take k := by
  induction s with
  | nil => intro t k _; simp
  | cons x s ih =>
    intro t k h
    cases k with
    | zero => simp
    | succ k =>
      cases t with
      | zero => omega
      | succ t => simp [ih t k (by omega)]

theorem drop_set_self (s : List Char) (c : Char) :
    ∀ t, t < s.length → (s.set t c).drop t = c :: s.drop (t + 1) := by
  induction s with
  | nil => intro t h; simp at h
  | cons x s ih =>
    intro t h
    cases t with
    | zero => simp
    | succ t => simpa using ih t (by simpa using h)

theorem drop_set_gt (s : List Char) (c : Char) :
    ∀ t k, t < k → (s.set t c).drop k = s.drop k := by
  induction s with
  | nil => intro t k _; simp
  | cons x s ih =>
    intro t k h
    cases k with
    | zero => omega
    | succ k =>
      cases t with
      | zero => simp
      | succ t => simpa using ih t k (by omega)

/-- The loop of `Str_ntos` writes the decimal digits of `m` in front of
position `t` and returns the position of the first. -/
theorem ntos_loop (t : Nat) :
    ∀ (m : Nat) (s : Mem), (spec_decimal_nat m).length ≤ t → t ≤ s.length →
      Str_ntos.loop m t s =
        some (s.take (t - (spec_decimal_nat m).length) ++ (spec_decimal_nat m ++ s.drop t),
          t - (spec_decimal_nat m).length) := by
  induction t with
  | zero =>
    intro m s h _
    exfalso
    by_cases hm : 0 < m / 10
    · rw [spec_decimal_nat_step m hm] at h; simp at h
    · rw [spec_decimal_nat_lt m (by omega)] at h; simp at h
  | succ t ih =>
    intro m s h hs
    have hts : t < s.length := by omega
    have hset : ∀ c, s.set t c = s.take t ++ c :: s.drop (t + 1) := by
      intro c
      have h1 := take_set_le s c t t (le_refl _)
      have h2 := drop_set_self s c t hts
      rw [← List.take_append_drop t (s.set t c), h1, h2]
    by_cases hm : 0 < m / 10
    · have hstep := spec_decimal_nat_step m hm
      have hl : (spec_decimal_nat m).length = (spec_decimal_nat (m / 10)).length + 1 := by
        rw [hstep]; simp
      have hlen : (s.set t (Char.ofNat (m % 10 + 48))).length = s.length := List.length_set _ _ _
      have h2 := ih (m / 10) (s.set t (Char.ofNat (m % 10 + 48))) (by omega) (by omega)
      rw [Str_ntos.loop]
      simp only [hts, if_true, gt_iff_lt, hm, h2]
      have htake : (s.set t (Char.ofNat (m % 10 + 48))).take
          (t - (spec_decimal_nat (m / 10)).length) =
          s.take (t - (spec_decimal_nat (m / 10)).length) :=
        take_set_le s _ t _ (Nat.sub_le _ _)
      have hdrop : (s.set t (Char.ofNat (m % 10 + 48))).drop t =
          Char.ofNat (m % 10 + 48) :: s.drop (t + 1) := drop_set_self s _ t hts
      rw [htake, hdrop, hl, hstep]
      simp [digitChar]
    · have hlt : m < 10 := by omega
      have hd := spec_decimal_nat_lt m hlt
      have hmod : m % 10 = m := Nat.mod_eq_of_lt hlt
      rw [Str_ntos.loop]
      simp only [hts, if_true, gt_iff_lt, hm, if_false, hd, List.length_singleton,
        Nat.add_sub_cancel, hset, hmod, digitChar, List.singleton_append]

theorem take_left_eq (a b : List Char) (k : Nat) (h : k = a.length) : (a ++ b).take k = a := by
  subst h; exact List.take_left _ _

theorem drop_left_eq (a b : List Char) (k : Nat) (h : k = a.length) : (a ++ b).drop k = b := by
  subst h; exact List.drop_left _ _

theorem digitChar_ne_NUL (d : Nat) (h : d < 10) : digitChar d ≠ NUL := by
  interval_cases d <;> decide

theorem spec_decimal_nat_not_mem (m : Nat) : NUL ∉ spec_decimal_nat m := by
  unfold spec_decimal_nat
  split_ifs with h
  · decide
  · intro hmem
    simp only [List.mem_map, List.mem_reverse] at hmem
    obtain ⟨d, hd, he⟩ := hmem
    exact digitChar_ne_NUL d (Nat.digits_lt_base (by norm_num) hd) he

theorem spec_decimal_not_mem (n : Int) : NUL ∉ spec_decimal n := by
  unfold spec_decimal
  split_ifs with h
  · intro hmem
    simp only [List.mem_cons] at hmem
    rcases hmem with hmem | hmem
    · exact absurd hmem (by decide)
    · exact spec_decimal_nat_not_mem _ hmem
  · exact spec_decimal_nat_not_mem _

theorem spec_decimal_nat_length_pos (m : Nat) : 0 < (spec_decimal_nat m).length := by
  by_cases hm : 0 < m / 10
  · rw [spec_decimal_nat_step m hm]; simp
  · rw [spec_decimal_nat_lt m (by omega)]; simp

/-- A number below `10^19` has at most 19 decimal digits. -/
theorem spec_decimal_nat_length_le (m : Nat) (h : m < 10 ^ 19) :
    (spec_decimal_nat m).length ≤ 19 := by
  by_cases h0 : m = 0
  · subst h0; decide
  · have h1 := Nat.base_pow_length_digits_le 10 m (by norm_num) h0
    have h2 : 10 ^ (Nat.digits 10 m).length < 10 ^ 20 := by
      calc 10 ^ (Nat.digits 10 m).length ≤ 10 * m := h1
        _ < 10 * 10 ^ 19 := by omega
        _ = 10 ^ 20 := by norm_num
    have h3 : (Nat.digits 10 m).length < 20 :=
      (Nat.pow_lt_pow_iff_right (by norm_num : 1 < 10)).1 h2
    simp only [spec_decimal_nat, h0, if_false, List.length_map, List.length_reverse]
    omega

/-- The canonical representation of a number other than 0 starts with a digit
other than `0`: it has no leading zero. -/
theorem spec_decimal_nat_head (m : Nat) (h : m ≠ 0) :
    ∃ d ds, spec_decimal_nat m = digitChar d :: ds ∧ 0 < d ∧ d < 10 := by
  have hne : Nat.digits 10 m ≠ [] := Nat.digits_ne_nil_iff_ne_zero.2 h
  have hlast := Nat.getLast_digit_ne_zero 10 h
  have hmem : (Nat.digits 10 m).getLast hne ∈ Nat.digits 10 m := List.getLast_mem hne
  refine ⟨(Nat.digits 10 m).getLast hne, ((Nat.digits 10 m).dropLast).reverse.map digitChar,
    ?_, Nat.pos_of_ne_zero hlast, Nat.digits_lt_base (by norm_num) hmem⟩
  simp only [spec_decimal_nat, h, if_false]
  conv_lhs => rw [← List.dropLast_append_getLast hne]
  simp

/-- The function `Str_ntos` on a `long` and a buffer of 43 bytes or more: it
returns, and has written the canonical decimal representation and its NUL so
that they end at `s[42]`. -/
theorem Str_ntos_spec (n : Int) (s : Mem) (hmin : LONG_MIN ≤ n) (hmax : n ≤ LONG_MAX)
    (hs : 43 ≤ s.length) :
    (spec_decimal n).length ≤ 20 ∧
    Str_ntos n s =
      some (s.take (42 - (spec_decimal n).length) ++ (spec_decimal n ++ NUL :: s.drop 43),
        42 - (spec_decimal n).length) := by
  simp only [LONG_MIN, LONG_MAX] at hmin hmax
  have hm : (if n = LONG_MIN then (LONG_MAX + 1).toNat % 2 ^ 64
      else if n < 0 then (-n).toNat % 2 ^ 64 else n.toNat % 2 ^ 64) = n.natAbs := by
    simp only [LONG_MIN, LONG_MAX]
    split_ifs with h1 h2
    · subst h1; rfl
    · have : (-n).toNat = n.natAbs := by omega
      rw [this]
      apply Nat.mod_eq_of_lt
      omega
    · have : n.toNat = n.natAbs := by omega
      rw [this]
      apply Nat.mod_eq_of_lt
      omega
  have hbound : n.natAbs < 10 ^ 19 := by
    have : n.natAbs ≤ 2 ^ 63 := by omega
    calc n.natAbs ≤ 2 ^ 63 := this
      _ < 10 ^ 19 := by norm_num
  have hL := spec_decimal_nat_length_le n.natAbs hbound
  have hL0 := spec_decimal_nat_length_pos n.natAbs
  have hlen0 : (s.set 42 NUL).length = s.length := List.length_set _ _ _
  have hloop := ntos_loop 42 n.natAbs (s.set 42 NUL) (by omega) (by omega)
  rw [take_set_le s NUL 42 _ (Nat.sub_le _ _), drop_set_self s NUL 42 (by omega)] at hloop
  have h42 : 42 < s.length := by omega
  unfold Str_ntos
  simp only [h42, if_true, hm, hloop]
  by_cases hneg : n < 0
  · have hd : spec_decimal n = '-' :: spec_decimal_nat n.natAbs := by simp [spec_decimal, hneg]
    obtain ⟨t1, ht1⟩ : ∃ t1, 42 - (spec_decimal_nat n.natAbs).length = t1 + 1 :=
      ⟨41 - (spec_decimal_nat n.natAbs).length, by omega⟩
    have hD : 42 - ('-' :: spec_decimal_nat n.natAbs).length = t1 := by
      simp only [List.length_cons]; omega
    refine ⟨by rw [hd]; simp only [List.length_cons]; omega, ?_⟩
    simp only [hneg, if_true, ht1, hd, hD]
    have hb : t1 < s.length := by omega
    have htk : s.take (t1 + 1) = s.take t1 ++ [s[t1]] := by
      rw [List.take_succ, List.getElem?_eq_getElem hb]
      rfl
    have hset := set_eq
      (s.take (t1 + 1) ++ (spec_decimal_nat n.natAbs ++ NUL :: s.drop 43)) (s.take t1) []
      (spec_decimal_nat n.natAbs ++ NUL :: s.drop 43) t1 s[t1] '-'
      (by rw [htk, List.append_assoc]; rfl) (by simp; omega)
    rw [hset]
    rfl
  · have hd : spec_decimal n = spec_decimal_nat n.natAbs := by simp [spec_decimal, hneg]
    refine ⟨by rw [hd]; omega, ?_⟩
    simp only [hneg, if_false, hd]

/-- C35: for every `long` `n` (of 64 bits), LONG_MIN, LONG_MAX and 0 among
them, and every buffer `s` of 43 bytes or more, `Str_ntos(n, s)` returns a
pointer into `s` to the canonical decimal representation of `n` (a `-` for a
negative value, no leading zero), which ends with the NUL at `s[42]`; every
byte written is inside the 43 bytes: the bytes before the pointer and those
behind `s[42]` are untouched. -/
theorem C35_ntos (n : Int) (s : Mem) (hmin : LONG_MIN ≤ n) (hmax : n ≤ LONG_MAX)
    (hs : 43 ≤ s.length) :
    ∃ s1 t, Str_ntos n s = some (s1, t) ∧
      cstrAt s1 t = some (spec_decimal n) ∧
      t + (spec_decimal n).length = 42 ∧ s1.get? 42 = some NUL ∧
      s1.length = s.length ∧ s1.take t = s.take t ∧ s1.drop 43 = s.drop 43 ∧
      (n < 0 → ∃ ds, spec_decimal n = '-' :: ds ∧ ds = spec_decimal_nat n.natAbs) ∧
      (n = 0 → spec_decimal n = ['0']) ∧
      (n ≠ 0 → ∃ d ds, spec_decimal_nat n.natAbs = digitChar d :: ds ∧ 0 < d ∧ d < 10) := by
  obtain ⟨hD, hspec⟩ := Str_ntos_spec n s hmin hmax hs
  have hlt : (s.take (42 - (spec_decimal n).length)).length = 42 - (spec_decimal n).length := by
    rw [List.length_take]; omega
  have hpos : 0 < (spec_decimal n).length := by
    unfold spec_decimal
    split_ifs
    · simp
    · exact spec_decimal_nat_length_pos _
  refine ⟨_, _, hspec, ?_, by omega, ?_, ?_, ?_, ?_, ?_, ?_, ?_⟩
  · have := cstrAt_append (s.take (42 - (spec_decimal n).length)) (spec_decimal n) (s.drop 43)
      (spec_decimal_not_mem n)
    rwa [hlt] at this
  · exact get?_eq _ (s.take (42 - (spec_decimal n).length)) (spec_decimal n) (s.drop 43) 42 NUL
      rfl (by rw [hlt]; omega)
  · simp only [List.length_append, List.length_cons, List.length_drop, hlt]
    omega
  · exact take_left_eq _ _ _ hlt.symm
  · have h43 : 43 = (s.take (42 - (spec_decimal n).length) ++ (spec_decimal n ++ [NUL])).length := by
      simp only [List.length_append, hlt, List.length_singleton]
      omega
    have hsplit : s.take (42 - (spec_decimal n).length) ++ (spec_decimal n ++ NUL :: s.drop 43) =
        (s.take (42 - (spec_decimal n).length) ++ (spec_decimal n ++ [NUL])) ++ s.drop 43 := by
      simp
    rw [hsplit]
    exact drop_left_eq _ _ _ h43
  · intro hneg
    exact ⟨_, by simp [spec_decimal, hneg], rfl⟩
  · intro h0
    subst h0
    rfl
  · intro hne
    exact spec_decimal_nat_head n.natAbs (by omega)

/-- The claim C35 at LONG_MIN, for a buffer of 43 bytes. -/
theorem C35_ntos_witness :
    LONG_MIN ≤ LONG_MIN ∧ LONG_MIN ≤ LONG_MAX ∧ 43 ≤ (List.replicate 43 'x').length ∧
    ∃ s1 t, Str_ntos LONG_MIN (List.replicate 43 'x') = some (s1, t) ∧
      cstrAt s1 t = some (spec_decimal LONG_MIN) ∧
      t + (spec_decimal LONG_MIN).length = 42 ∧ s1.get? 42 = some NUL ∧
      s1.length = (List.replicate 43 'x').length ∧
      s1.take t = (List.replicate 43 'x').take t ∧
      s1.drop 43 = (List.replicate 43 'x').drop 43 ∧
      (LONG_MIN < 0 → ∃ ds, spec_decimal LONG_MIN = '-' :: ds ∧
        ds = spec_decimal_nat LONG_MIN.natAbs) ∧
      (LONG_MIN = 0 → spec_decimal LONG_MIN = ['0']) ∧
      (LONG_MIN ≠ 0 →
        ∃ d ds, spec_decimal_nat LONG_MIN.natAbs = digitChar d :: ds ∧ 0 < d ∧ d < 10) :=
  ⟨le_refl _, by decide, by decide,
   C35_ntos LONG_MIN (List.replicate 43 'x') (le_refl _) (by decide) (by decide)⟩

/-- Runs of `Str_ntos` on a buffer of 43 bytes: the strings returned for
LONG_MIN, LONG_MAX, 0 and -120, and the canonical representations. -/
theorem ntos_examples :
    (Str_ntos LONG_MIN (List.replicate 43 'x')).bind (fun r => cstrAt r.1 r.2) =
      some "-9223372036854775808".toList ∧
    (Str_ntos LONG_MAX (List.replicate 43 'x')).bind (fun r => cstrAt r.1 r.2) =
      some "9223372036854775807".toList ∧
    (Str_ntos 0 (List.replicate 43 'x')).bind (fun r => cstrAt r.1 r.2) = some "0".toList ∧
    (Str_ntos (-120) (List.replicate 43 'x')).bind (fun r => cstrAt r.1 r.2) =
      some "-120".toList ∧
    (Str_ntos (-120) (List.replicate 43 'x')).map (fun r => r.2) = some 38 ∧
    Str_ntos 7 (List.replicate 42 'x') = none ∧
    spec_decimal LONG_MIN = "-9223372036854775808".toList ∧
    spec_decimal LONG_MAX = "9223372036854775807".toList ∧
    spec_decimal (-120) = "-120".toList := by
  refine ⟨by decide, by decide, by decide, by decide, by decide, by decide, ?_, ?_, ?_⟩
  · norm_num [spec_decimal, spec_decimal_nat, digitChar, LONG_MIN]
  · norm_num [spec_decimal, spec_decimal_nat, digitChar, LONG_MAX]
  · norm_num [spec_decimal, spec_decimal_nat, digitChar]

/-! ## OutputStream: the underlying write -/

/-- The value `doWrite` sees when `Net_write` returns its error result
`2^w - 1`, for a `size_t` of at least 32 bits. -/
theorem int_of_size_t_error (w : Nat) (hw : 32 ≤ w) : int_of_size_t (2 ^ w - 1) = -1 := by
  obtain ⟨d, rfl⟩ : ∃ d, w = 32 + d := ⟨w - 32, by omega⟩
  have hk : 0 < 2 ^ d := Nat.two_pow_pos d
  have h1 : (2 ^ (32 + d) - 1) % 2 ^ 32 = 2 ^ 32 - 1 := by
    rw [pow_add]
    generalize 2 ^ d = k at hk
    norm_num
    omega
  unfold int_of_size_t
  rw [h1]
  norm_num

/-- The flush of an open stream with buffered bytes when the attempt of
`Net_write` ends, after `k` interrupted calls, with an outcome that is not
would-block: the one call of `Net_write` starts at `offset` and asks for
`BUFFER_SIZE - length` bytes. -/
theorem flush_write_region (w : Nat) (S : OutputStream_T) (errno : Errno) (k : Nat)
    (o : SysResult) (rest : List SysResult) (hopen : S.isClosed = false) (hbuf : S.offset ≠ 0)
    (hsize : 0 < size_t_of_int w (BUFFER_SIZE - S.length)) (ho : o ≠ .fail .EINTR)
    (hb : o.isWouldBlock = false) :
    ∃ v, OutputStream_flush w (interrupted k ++ o :: rest) errno S =
      some ⟨v, errnoAfter .zero k o,
        attemptTrace (NetEvent.write S.fd S.offset (size_t_of_int w (BUFFER_SIZE - S.length))) k o,
        rest⟩ ∧
      (int_of_size_t (o.toSize w) < 0 →
        v = (-1, { S with isClosed := true, offset := 0, length := 0 })) ∧
      (0 < int_of_size_t (o.toSize w) →
        v = (int_of_size_t (o.toSize w),
          { S with offset := int_add S.offset (int_of_size_t (o.toSize w)) })) := by
  have hp := (transfer_protocol w
    (NetEvent.write S.fd S.offset (size_t_of_int w (BUFFER_SIZE - S.length)))
    (NetEvent.poll S.fd .POLLOUT S.timeout) (size_t_of_int w (BUFFER_SIZE - S.length)) S.timeout
    hsize .zero k o rest ho).1 hb
  have hnet : Net_write w (interrupted k ++ o :: rest) .zero S.fd S.offset
      (size_t_of_int w (BUFFER_SIZE - S.length)) S.timeout = _ := hp
  simp only [OutputStream_flush, hopen, Bool.false_eq_true, if_false, ne_eq, hbuf,
    not_false_eq_true, if_true, doWrite, hnet]
  split_ifs with h1 h2
  · exact ⟨_, rfl, fun h => by omega, fun _ => rfl⟩
  · rcases h2 with h2 | h2
    · exact ⟨_, rfl, fun _ => rfl, fun h => absurd h h1⟩
    · refine ⟨_, rfl, fun _ => rfl, fun h => absurd h h1⟩
  · refine ⟨_, rfl, fun h => ?_, fun h => absurd h h1⟩
    exact absurd (Or.inl h) h2

/-- The write `OutputStream_flush` asks for on a stream state with a non-zero
offset, a state no operation of OutputStream.h produces (`runAll_fresh`): on
the state with offset 5 and length 5 the one write starts at `buffer + 5` and
asks for 2995 bytes, `BUFFER_SIZE - length`.  After that flush, which returns
5 and leaves offset 10, the next flush asks for 2995 bytes from
`buffer + 10`: start plus size is 3005, beyond the buffer of 3000 bytes. -/
theorem flush_write_arguments :
    bufferedStream.isClosed = false ∧ OutputStream_buffered bufferedStream = 5 ∧
    bufferedStream.length = 5 ∧
    OutputStream_flush 64 [.ok 5, .ok 5] .zero bufferedStream =
      some ⟨(5, { bufferedStream with offset := 10 }), .zero, [.write 1 5 2995 (.ok 5)],
        [.ok 5]⟩ ∧
    OutputStream_flush 64 [.ok 5] .zero { bufferedStream with offset := 10 } =
      some ⟨(5, { bufferedStream with offset := 15 }), .zero, [.write 1 10 2995 (.ok 5)], []⟩ ∧
    (10 : Int) + 2995 > BUFFER_SIZE := by
  refine ⟨rfl, rfl, rfl, ?_, ?_, by decide⟩
  · rfl
  · rfl

/-- What `OutputStream_flush` does on a stream state with a non-zero offset, a
state no operation of OutputStream.h produces (`runAll_fresh`), when the write
reports would-block, the readiness wait succeeds and the second write reports
would-block again: `Net_write` returns -1, the flush returns -1 and the stream
is closed.  So it is on the state with offset 5 and length 5, and on every
open state with a non-zero offset and a timeout, whatever the interruptions. -/
theorem flush_after_second_would_block :
    bufferedStream.isClosed = false ∧ OutputStream_buffered bufferedStream = 5 ∧
    OutputStream_flush 64 [.fail .EAGAIN, .ok 1, .fail .EAGAIN] .zero bufferedStream =
      some ⟨(-1, closedStream), .EAGAIN,
        [.write 1 5 2995 (.fail .EAGAIN), .poll 1 .POLLOUT 3000 (.ok 1),
         .write 1 5 2995 (.fail .EAGAIN)], []⟩ ∧
    closedStream.isClosed = true ∧
    (∀ (w : Nat) (S : OutputStream_T) (errno : Errno) (k j i n : Nat) (o o2 : SysResult)
        (rest : List SysResult),
      32 ≤ w → S.isClosed = false → S.offset ≠ 0 →
      0 < size_t_of_int w (BUFFER_SIZE - S.length) → 0 < S.timeout →
      o.isWouldBlock = true → o2.isWouldBlock = true →
      ∃ e tr, OutputStream_flush w
          (interrupted k ++ o :: (interrupted j ++ .ok (n + 1) :: (interrupted i ++ o2 :: rest)))
          errno S =
        some ⟨(-1, { S with isClosed := true, offset := 0, length := 0 }), e, tr, rest⟩) := by
  refine ⟨rfl, rfl, rfl, rfl, ?_⟩
  intro w S errno k j i n o o2 rest hw hopen hbuf hsize ht hb hb2
  obtain ⟨-, ho⟩ := isWouldBlock_errno o .zero k hb
  obtain ⟨-, ho2⟩ := isWouldBlock_errno o2 .zero k hb2
  have hp := ((transfer_protocol w
    (NetEvent.write S.fd S.offset (size_t_of_int w (BUFFER_SIZE - S.length)))
    (NetEvent.poll S.fd .POLLOUT S.timeout) (size_t_of_int w (BUFFER_SIZE - S.length)) S.timeout
    hsize .zero k o [] ho).2.2 hb ht j (.ok (n + 1)) (interrupted i ++ o2 :: rest)
    (by simp)).2 (by simp [SysResult.positive]) i o2 rest ho2
  have hnet : Net_write w _ .zero S.fd S.offset
      (size_t_of_int w (BUFFER_SIZE - S.length)) S.timeout = _ := hp
  have hneg : int_of_size_t (o2.toSize w) = -1 := by
    cases o2 with
    | ok m => simp [SysResult.isWouldBlock] at hb2
    | fail e => exact int_of_size_t_error w hw
  simp only [OutputStream_flush, hopen, Bool.false_eq_true, if_false, ne_eq, hbuf,
    not_false_eq_true, if_true, doWrite, hnet, hneg]
  have h1 : ¬ ((-1 : Int) > 0) := by decide
  have h2 : (-1 : Int) < 0 := by decide
  rw [if_neg h1, if_pos (Or.inl h2)]
  exact ⟨_, _, rfl⟩

/-- C38: for a `size_t` of at least 32 bits, the error result -1 of
`Net_write`, returned through `size_t` as `2^w - 1`, is -1 again once
`doWrite` has converted it to `int`; so when the write fails with an error
that is neither an interrupt nor would-block, the flush of an open stream with
buffered bytes takes the branch that closes the stream and returns -1.  No
count of bytes up to 3000 becomes negative by the conversion, and on a stream
whose length is between 0 and 3000 `doWrite` asks for at most 3000 bytes. -/
theorem C38_error_result_is_negative (w : Nat) (hw : 32 ≤ w) :
    (∀ e, int_of_size_t ((SysResult.fail e).toSize w) = -1) ∧
    (∀ (S : OutputStream_T) (errno : Errno) (k : Nat) (e : Errno) (rest : List SysResult),
      S.isClosed = false → S.offset ≠ 0 → 0 < size_t_of_int w (BUFFER_SIZE - S.length) →
      e ≠ .EINTR → e ≠ .EAGAIN → e ≠ .EWOULDBLOCK →
      OutputStream_flush w (interrupted k ++ .fail e :: rest) errno S =
        some ⟨(-1, { S with isClosed := true, offset := 0, length := 0 }), e,
          attemptTrace (NetEvent.write S.fd S.offset (size_t_of_int w (BUFFER_SIZE - S.length)))
            k (.fail e), rest⟩) ∧
    (∀ n : Nat, n ≤ 3000 → int_of_size_t ((SysResult.ok n).toSize w) = n) ∧
    (∀ S : OutputStream_T, 0 ≤ S.length → S.length ≤ BUFFER_SIZE →
      size_t_of_int w (BUFFER_SIZE - S.length) ≤ 3000) := by
  refine ⟨fun e => int_of_size_t_error w hw, ?_, ?_, ?_⟩
  · intro S errno k e rest hopen hbuf hsize h1 h2 h3
    have ho : SysResult.fail e ≠ .fail .EINTR := by simpa using h1
    have hb : (SysResult.fail e).isWouldBlock = false := by
      simp [SysResult.isWouldBlock, h2, h3]
    obtain ⟨v, hv, hneg, -⟩ := flush_write_region w S errno k (.fail e) rest hopen hbuf hsize ho hb
    have hlt : int_of_size_t ((SysResult.fail e).toSize w) < 0 := by
      have := int_of_size_t_error w hw
      simp only [SysResult.toSize]
      omega
    rw [hv, hneg hlt]
    rfl
  · intro n hn
    have h1 : (3000 : Nat) < 2 ^ 32 := by norm_num
    have h2 : (2 : Nat) ^ 32 ≤ 2 ^ w := Nat.pow_le_pow_right (by norm_num) hw
    have h3 : n % 2 ^ w = n := Nat.mod_eq_of_lt (by omega)
    simp only [SysResult.toSize, h3]
    exact int_of_size_t_small n (by omega)
  · intro S h0 h1
    simp only [BUFFER_SIZE] at h1 ⊢
    have h2 : (2 : Int) ^ 32 ≤ 2 ^ w := pow_le_pow_right₀ (by norm_num) hw
    have h3 : (3000 - S.length) % (2 : Int) ^ w = 3000 - S.length :=
      Int.emod_eq_of_lt (by omega) (by omega)
    simp only [size_t_of_int, h3]
    omega

/-- The claim C38 for a `size_t` of 64 bits: the conversions, and the flush
of an open stream with five bytes when the write fails with an error that is
not would-block. -/
theorem C38_error_result_is_negative_witness :
    int_of_size_t ((SysResult.fail (.other 32)).toSize 64) = -1 ∧
    OutputStream_flush 64 (interrupted 0 ++ .fail (.other 32) :: []) .zero bufferedStream =
      some ⟨(-1, { bufferedStream with isClosed := true, offset := 0, length := 0 }), .other 32,
        attemptTrace (NetEvent.write bufferedStream.fd bufferedStream.offset
          (size_t_of_int 64 (BUFFER_SIZE - bufferedStream.length))) 0 (.fail (.other 32)), []⟩ ∧
    int_of_size_t ((SysResult.ok 3000).toSize 64) = 3000 ∧
    size_t_of_int 64 (BUFFER_SIZE - bufferedStream.length) ≤ 3000 :=
  ⟨(C38_error_result_is_negative 64 (by decide)).1 _,
   (C38_error_result_is_negative 64 (by decide)).2.1 bufferedStream .zero 0 (.other 32) [] rfl
     (by decide) (by decide) (by decide) (by decide) (by decide),
   (C38_error_result_is_negative 64 (by decide)).2.2.1 3000 (le_refl _),
   (C38_error_result_is_negative 64 (by decide)).2.2.2 bufferedStream (by decide) (by decide)⟩

/-- One operation on an open stream with offset 0 and no byte written: it
returns, makes no system call, and leaves the stream so; a flush returns 0. -/
theorem run_fresh (w : Nat) (script : List SysResult) (errno : Errno) (S : OutputStream_T)
    (op : StreamOp) (hopen : S.isClosed = false) (hoff : S.offset = 0)
    (hbytes : S.bytesWritten = 0) :
    ∃ r, StreamOp.run w script errno S op = some r ∧ r.value.2.isClosed = false ∧
      r.value.2.offset = 0 ∧ r.value.2.bytesWritten = 0 ∧ r.value.2.fd = S.fd ∧
      r.trace = [] ∧ r.rest = script ∧ (r.value.1 = none ∨ r.value.1 = some 0) := by
  cases op with
  | write b size =>
    exact ⟨_, rfl, by simp [OutputStream_write, hopen], by simp [OutputStream_write, hoff],
      by simp [OutputStream_write, hbytes], by simp [OutputStream_write], rfl, rfl, Or.inl rfl⟩
  | print s =>
    exact ⟨_, rfl, by simp [OutputStream_print, hopen], by simp [OutputStream_print, hoff],
      by simp [OutputStream_print, hbytes], by simp [OutputStream_print], rfl, rfl, Or.inl rfl⟩
  | vprint s =>
    exact ⟨_, rfl, by simp [OutputStream_vprint, hopen], by simp [OutputStream_vprint, hoff],
      by simp [OutputStream_vprint, hbytes], by simp [OutputStream_vprint], rfl, rfl, Or.inl rfl⟩
  | flush =>
    refine ⟨⟨(some 0, S), errno, [], script⟩, ?_, hopen, hoff, hbytes, rfl, rfl, rfl, Or.inr rfl⟩
    simp [StreamOp.run, OutputStream_flush, hopen, hoff]
  | clear =>
    exact ⟨_, rfl, by simp [OutputStream_clear, hopen], by simp [OutputStream_clear],
      by simp [OutputStream_clear, hbytes], by simp [OutputStream_clear], rfl, rfl, Or.inl rfl⟩
  | setTimeout t =>
    refine ⟨_, rfl, ?_, ?_, ?_, ?_, rfl, rfl, Or.inl rfl⟩
    · simp only [OutputStream_setTimeout]; split <;> simp [hopen]
    · simp only [OutputStream_setTimeout]; split <;> simp [hoff]
    · simp only [OutputStream_setTimeout]; split <;> simp [hbytes]
    · simp only [OutputStream_setTimeout]; split <;> simp

/-- A sequence of operations on an open stream with offset 0 and no byte
written. -/
theorem runAll_fresh (w : Nat) (ops : List StreamOp) :
    ∀ (script : List SysResult) (errno : Errno) (S : OutputStream_T),
      S.isClosed = false → S.offset = 0 → S.bytesWritten = 0 →
      ∃ r, StreamOp.runAll w ops script errno S = some r ∧ r.value.2.isClosed = false ∧
        r.value.2.offset = 0 ∧ r.value.2.bytesWritten = 0 ∧ r.value.2.fd = S.fd ∧
        r.trace = [] ∧ r.rest = script ∧ ∀ v ∈ r.value.1, v = none ∨ v = some 0 := by
  induction ops with
  | nil =>
    intro script errno S h1 h2 h3
    exact ⟨_, rfl, h1, h2, h3, rfl, rfl, rfl, by simp⟩
  | cons op ops ih =>
    intro script errno S h1 h2 h3
    obtain ⟨r, hr, a1, a2, a3, a4, a5, a6, a7⟩ := run_fresh w script errno S op h1 h2 h3
    obtain ⟨q, hq, b1, b2, b3, b4, b5, b6, b7⟩ := ih r.rest r.errno r.value.2 a1 a2 a3
    refine ⟨⟨(r.value.1 :: q.value.1, q.value.2), q.errno, r.trace ++ q.trace, q.rest⟩,
      ?_, b1, b2, b3, by simp [b4, a4], by simp [a5, b5], by simp [b6, a6], ?_⟩
    · simp [StreamOp.runAll, hr, hq]
    · intro v hv
      simp only [List.mem_cons] at hv
      rcases hv with rfl | hv
      · exact a7
      · exact b7 v hv

/-- C40: through the public interface an OutputStream never holds data and
never closes.  For every descriptor and every finite sequence of the
operations write, print, vprint, flush, clear and setTimeout on the stream
`OutputStream_new` returns, the sequence runs to its end, and after it, as
after each of its steps (the sequences `ops.take i`), `OutputStream_buffered`
is 0, the stream is open, its bytes-written counter is 0, every flush has
returned 0 and no system call was made. -/
theorem C40_new_stream_stays_empty (w : Nat) (descriptor : Int) (ops : List StreamOp)
    (script : List SysResult) (errno : Errno) :
    (∃ r, StreamOp.runAll w ops script errno (OutputStream_new descriptor) = some r ∧
      OutputStream_buffered r.value.2 = 0 ∧ OutputStream_isClosed r.value.2 = false ∧
      r.value.2.bytesWritten = 0 ∧ r.trace = [] ∧ r.rest = script ∧
      ∀ v ∈ r.value.1, v = none ∨ v = some 0) ∧
    (∀ i, ∃ r, StreamOp.runAll w (ops.take i) script errno (OutputStream_new descriptor) =
        some r ∧
      OutputStream_buffered r.value.2 = 0 ∧ OutputStream_isClosed r.value.2 = false ∧
      r.value.2.bytesWritten = 0 ∧ r.trace = [] ∧ r.rest = script ∧
      ∀ v ∈ r.value.1, v = none ∨ v = some 0) := by
  have key : ∀ ops : List StreamOp,
      ∃ r, StreamOp.runAll w ops script errno (OutputStream_new descriptor) = some r ∧
        OutputStream_buffered r.value.2 = 0 ∧ OutputStream_isClosed r.value.2 = false ∧
        r.value.2.bytesWritten = 0 ∧ r.trace = [] ∧ r.rest = script ∧
        ∀ v ∈ r.value.1, v = none ∨ v = some 0 := by
    intro ops
    obtain ⟨r, hr, h1, h2, h3, -, h5, h6, h7⟩ :=
      runAll_fresh w ops script errno (OutputStream_new descriptor) rfl rfl rfl
    exact ⟨r, hr, h2, h1, h3, h5, h6, h7⟩
  exact ⟨key ops, fun i => key (ops.take i)⟩

/-- A run of the six operations on a new stream, with writes in store that
would take bytes: the two flushes return 0 and the store is untouched. -/
theorem new_stream_example :
    (StreamOp.runAll 64 [.write (some [104, 105]) 2, .flush, .print (some "hi".toList),
        .setTimeout 0, .vprint (some "hi".toList), .flush, .clear] [.ok 2, .ok 2] .zero
        (OutputStream_new 4)).map (fun r => (r.value.1, r.value.2, r.trace, r.rest)) =
      some ([none, some 0, none, none, none, some 0, none],
        { OutputStream_new 4 with timeout := 0 }, [], [.ok 2, .ok 2]) := by
  rfl

/-! ## Execute: the wait loop -/

/-- The wait loop when the first poll that reports anything other than
"still running" is the `j`-th from its start, with `j` within the budget: it
makes `j + 1` polls and `j` sleeps, and ends with the result of that poll. -/
theorem wait_stops (os : OS) (T : Nat) :
    ∀ k j, j ≤ T → (∀ i, i < j → (os.waitpid (k + i)).1 = 0) → (os.waitpid (k + j)).1 ≠ 0 →
      (Execute.wait os T k).1.countP Event.isPoll = j + 1 ∧
      (Execute.wait os T k).1.countP Event.isSleep = j ∧
      (Execute.wait os T k).2 = os.waitpid (k + j) := by
  induction T with
  | zero =>
    intro k j hj _ hne
    have : j = 0 := by omega
    subst this
    simp [Execute.wait, Event.isPoll, Event.isSleep]
  | succ T ih =>
    intro k j hj hz hne
    rw [Execute.wait]
    cases j with
    | zero =>
      have h0 : ¬ (os.waitpid k).1 = 0 := by simpa using hne
      simp [h0, Event.isPoll, Event.isSleep]
    | succ j =>
      have h0 : (os.waitpid k).1 = 0 := by simpa using hz 0 (Nat.succ_pos _)
      have h := ih (k + 1) j (by omega)
        (fun i hi => by
          have := hz (i + 1) (by omega)
          rwa [show k + (i + 1) = k + 1 + i by omega] at this)
        (by rwa [show k + (j + 1) = k + 1 + j by omega] at hne)
      simp only [h0, if_true, List.countP_cons, Event.isPoll, Event.isSleep, h.1, h.2.1, h.2.2]
      refine ⟨by simp, by simp, ?_⟩
      rw [show k + 1 + j = k + (j + 1) by omega]

/-- The wait loop when every poll within the budget reports "still running":
it makes `T + 1` polls and `T` sleeps, and ends with the result 0. -/
theorem wait_budget (os : OS) (T : Nat) :
    ∀ k, (∀ j, j ≤ T → (os.waitpid (k + j)).1 = 0) →
      (Execute.wait os T k).1.countP Event.isPoll = T + 1 ∧
      (Execute.wait os T k).1.countP Event.isSleep = T ∧
      (Execute.wait os T k).2.1 = 0 := by
  induction T with
  | zero =>
    intro k h
    have h0 : (os.waitpid k).1 = 0 := by simpa using h 0 (le_refl _)
    simp [Execute.wait, Event.isPoll, Event.isSleep, h0]
  | succ T ih =>
    intro k h
    have h0 : (os.waitpid k).1 = 0 := by simpa using h 0 (Nat.zero_le _)
    have h1 := ih (k + 1) (fun j hj => by
      have := h (j + 1) (by omega)
      rwa [show k + (j + 1) = k + 1 + j by omega] at this)
    rw [Execute.wait]
    simp only [h0, if_true, List.countP_cons, Event.isPoll, Event.isSleep, h1.1, h1.2.1, h1.2.2]
    simp

/-- C39: for every timeout budget `T` and every sequence of results of the
liveness polls, the wait loop of `Execute` ends after at most `T` sleeps of
one second and at most `T + 1` polls; when the child stays alive throughout
it sleeps exactly `T` times (and polls `T + 1` times); and it stops at the
first poll that reports anything other than "still running": when that is the
`j`-th poll it has made `j + 1` polls and `j` sleeps. -/
theorem C39_wait_loop (os : OS) (T k : Nat) :
    (Execute.wait os T k).1.countP Event.isSleep ≤ T ∧
    (Execute.wait os T k).1.countP Event.isPoll ≤ T + 1 ∧
    (∀ e ∈ (Execute.wait os T k).1, e.isPoll = true ∨ e = .sleep 1) ∧
    ((∀ j, j ≤ T → (os.waitpid (k + j)).1 = 0) →
      (Execute.wait os T k).1.countP Event.isSleep = T ∧
      (Execute.wait os T k).1.countP Event.isPoll = T + 1 ∧
      (Execute.wait os T k).2.1 = 0) ∧
    (∀ j, j ≤ T → (∀ i, i < j → (os.waitpid (k + i)).1 = 0) → (os.waitpid (k + j)).1 ≠ 0 →
      (Execute.wait os T k).1.countP Event.isPoll = j + 1 ∧
      (Execute.wait os T k).1.countP Event.isSleep = j ∧
      (Execute.wait os T k).2 = os.waitpid (k + j)) := by
  have hall : (∀ j, j ≤ T → (os.waitpid (k + j)).1 = 0) ∨
      ∃ j, j ≤ T ∧ (∀ i, i < j → (os.waitpid (k + i)).1 = 0) ∧ (os.waitpid (k + j)).1 ≠ 0 := by
    by_cases h : ∀ j, j ≤ T → (os.waitpid (k + j)).1 = 0
    · exact Or.inl h
    · right
      push_neg at h
      have hex : ∃ j, j ≤ T ∧ (os.waitpid (k + j)).1 ≠ 0 := h
      refine ⟨Nat.find hex, (Nat.find_spec hex).1, ?_, (Nat.find_spec hex).2⟩
      intro i hi
      by_contra hne
      exact Nat.find_min hex hi ⟨by have := (Nat.find_spec hex).1; omega, hne⟩
  have hsteps : ∀ T k, ∀ e ∈ (Execute.wait os T k).1, e.isPoll = true ∨ e = .sleep 1 := by
    intro T
    induction T with
    | zero => intro k e he; simp [Execute.wait] at he; subst he; left; rfl
    | succ T ih =>
      intro k e he
      rw [Execute.wait] at he
      split at he
      · simp only [List.mem_cons] at he
        rcases he with he | he | he
        · subst he; left; rfl
        · subst he; right; rfl
        · exact ih (k + 1) e he
      · simp at he; subst he; left; rfl
  refine ⟨?_, ?_, hsteps T k, fun h => ?_, fun j hj hz hne => wait_stops os T k j hj hz hne⟩
  · rcases hall with h | ⟨j, hj, hz, hne⟩
    · rw [(wait_budget os T k h).2.1]
    · rw [(wait_stops os T k j hj hz hne).2.1]; exact hj
  · rcases hall with h | ⟨j, hj, hz, hne⟩
    · rw [(wait_budget os T k h).1]
    · rw [(wait_stops os T k j hj hz hne).1]; omega
  · have := wait_budget os T k h
    exact ⟨this.2.1, this.1, this.2.2⟩

/-- The wait loop on given results, with a budget of 3: a child that stays
alive, a child that has ended at the third poll, and a poll that fails. -/
theorem wait_examples :
    (Execute.wait aliveOS 3 0).1 =
      [.waitpid 0, .sleep 1, .waitpid 0, .sleep 1, .waitpid 0, .sleep 1, .waitpid 0] ∧
    (Execute.wait { quietOS with waitpid := fun k => if k < 2 then (0, 0) else (100, 0) } 3 0).1 =
      [.waitpid 0, .sleep 1, .waitpid 0, .sleep 1, .waitpid 100] ∧
    (Execute.wait { quietOS with waitpid := fun _ => (-1, 0) } 3 0).1 = [.waitpid (-1)] ∧
    (Execute.wait aliveOS 0 0).1 = [.waitpid 0] := by
  decide

end Monit
